import Mathlib

/-!
FlashX semi-external-memory k-means: a verification development.

Shallow embedding of the pruning k-means engine of
`flash-graph/libgraph-algs/min_triangle_sem_kmeans.cpp`, of the helpers of
`flash-graph/libgraph-algs/sem_kmeans.h`, of the parts of
`flash-graph/libgraph-algs/triangle_sem_kmeans.cpp` that the two engines share,
and of the rows of that full variant, which keep a lower bound per cluster.

Conventions.
* `unsigned` values are natural numbers reduced modulo `2^32` where the code
  can overflow.
* `double` values are elements of a linearly ordered field `α` (exact
  arithmetic); the field is a parameter so that the definitions can be run on
  rationals. The one division of doubles that the engine itself performs, the
  quotient of the convergence test, is rounded as the machine rounds it
  (`double_div`).
* Rows and centroids are elements of a type `V`; where the code adds and
  scales them (`Clusters`), `V` is a module over `α`.
* Functions of the knor library (`libkcommon`) that the engine calls but that
  are not part of the sources (`dist_comp_raw`, `eucl_dist`, the distance
  table, the cluster container) are parameters or are modelled from the
  specification, which is said in their doc comment.
* The graph engine (`graph_engine`) is not part of the sources either: a run
  of the engine is a pass over the rows followed by the end-of-iteration
  hooks, or a parameter of the entry point.
* `BOOST_ASSERT_MSG` and `BOOST_VERIFY` stop the program only when assertions
  are enabled; the flag `NDEBUG` of a definition says that they are compiled
  out. A fatal exit is a value of the result type.
-/

namespace FlashX

/-! ## Machine integers -/

/-- Number of values of the C type `unsigned` (32 bits). -/
def UINT_MOD : Nat := 2 ^ 32

/-- The constant `INVALID_CLUST_ID` of `sem_kmeans.h`: `(unsigned) -1`. -/
def INVALID_CLUST_ID : Nat := UINT_MOD - 1

/-! ## `barrier` (sem_kmeans.h, lines 63-95) -/

/-- The class `barrier`: the atomic arrival counter and the number of parties. -/
structure barrier where
  ncomplete : Nat
  nmembers : Nat
deriving DecidableEq, Repr

/-- The constructor `barrier(nmembers)`: `ncomplete.store(0); set_nmembers(nmembers)`. -/
def barrier.create (nmembers : Nat) : barrier :=
  { ncomplete := 0, nmembers := nmembers }

/-- The method `barrier::ping`, called sequentially: increment the counter (32-bit
wrap-around), compare with `nmembers`, reset when equal; returns the flag
`complete` and the barrier after the call. -/
def barrier.ping (b : barrier) : Bool × barrier :=
  let n1 := (b.ncomplete + 1) % UINT_MOD
  let complete := b.nmembers == n1
  if complete then (true, { b with ncomplete := 0 })
  else (false, { b with ncomplete := n1 })

/-- The barrier after `k` sequential calls of `ping`. -/
def barrier.pings : Nat → barrier → barrier
  | 0, b => b
  | k + 1, b => (barrier.pings k b).ping.2

/-! ## Row cache schedule: `manage_cache` (min_triangle_sem_kmeans.cpp, lines 757-780) -/

/-- Modelled from the spec: the class `partition_cache` of `row_cache.h` is not part
of the sources. Only what `manage_cache` observes is kept: whether the index is
still empty (fill phase) and, as a generation number, how many times a new cache
object has been created by `manage_cache`. -/
structure partition_cache where
  index_empty : Bool
  generation : Nat
deriving DecidableEq, Repr

/-- Modelled from the spec: `build_index` freezes the cache into a read-only lookup. -/
def partition_cache.build_index (c : partition_cache) : partition_cache :=
  { c with index_empty := false }

/-- The globals read and written by `manage_cache`: `g_row_cache` (`none` is
`nullptr`), `g_io_iter` and `g_cache_update_iter`. -/
structure CacheGlobals where
  g_row_cache : Option partition_cache
  g_io_iter : Nat
  g_cache_update_iter : Nat
deriving DecidableEq, Repr

/-- The test `g_io_iter > 0 && (g_io_iter % g_cache_update_iter == 0)` under which
`manage_cache` throws the cache away and creates a new one. -/
def CacheGlobals.regenerates (s : CacheGlobals) : Bool :=
  s.g_row_cache.isSome && decide (0 < s.g_io_iter) &&
    decide (s.g_io_iter % s.g_cache_update_iter = 0)

/-- The function `manage_cache`. The result is `none` when the C code divides by
zero (`g_io_iter > 0` and `g_cache_update_iter == 0`). -/
def manage_cache (s : CacheGlobals) : Option CacheGlobals :=
  match s.g_row_cache with
  | none => some s
  | some rc =>
    if 0 < s.g_io_iter ∧ s.g_cache_update_iter = 0 then none
    else if 0 < s.g_io_iter ∧ s.g_io_iter % s.g_cache_update_iter = 0 then
      let fresh : partition_cache := { index_empty := true, generation := rc.generation + 1 }
      let u :=
        if s.g_io_iter = s.g_cache_update_iter then
          (s.g_cache_update_iter + (s.g_io_iter + s.g_cache_update_iter) % UINT_MOD) % UINT_MOD
        else
          (s.g_cache_update_iter + s.g_io_iter) % UINT_MOD
      some { g_row_cache := some fresh
             g_io_iter := (s.g_io_iter + 1) % UINT_MOD
             g_cache_update_iter := u }
    else if rc.index_empty then
      some { s with g_row_cache := some rc.build_index
                    g_io_iter := (s.g_io_iter + 1) % UINT_MOD }
    else
      some { s with g_io_iter := (s.g_io_iter + 1) % UINT_MOD }

/-- The globals after `n` successive calls of `manage_cache`. -/
def manage_cache_n : Nat → CacheGlobals → Option CacheGlobals
  | 0, s => some s
  | n + 1, s => (manage_cache_n n s).bind manage_cache

/-- The state in which `compute_min_triangle_sem_kmeans` leaves the cache globals
when `cache_size_gb > 0`: a fresh cache, `g_io_iter = 0` and
`g_cache_update_iter = rc_update_start_interval`. -/
def CacheGlobals.start (rc_update_start_interval : Nat) : CacheGlobals :=
  { g_row_cache := some { index_empty := true, generation := 0 }
    g_io_iter := 0
    g_cache_update_iter := rc_update_start_interval }

/-! ## Row state: `kmeans_vertex` (min_triangle_sem_kmeans.cpp, lines 81-119) -/

/-- The fields of `kmeans_vertex` and of its base class `base_kmeans_vertex`:
`cluster_id`, `dist` (the upper bound `ub`) and `recalculated`. -/
structure kmeans_vertex (α : Type) where
  cluster_id : Nat
  dist : α
  recalculated : Bool
deriving DecidableEq, Repr

/-- The constructor `kmeans_vertex(id)`: `cluster_id = INVALID_CLUST_ID`,
`recalculated = false`, `dist = std::numeric_limits<double>::max()`; the maximum
double is the parameter `DBL_MAX`. -/
def kmeans_vertex.create {α : Type} (DBL_MAX : α) : kmeans_vertex α :=
  { cluster_id := INVALID_CLUST_ID, dist := DBL_MAX, recalculated := false }

/-! ## Cluster container -/

/-- Modelled from the spec: the class `clusters` of `libkcommon/clusters.hpp` is not
part of the sources. Per cluster: the accumulated sum or, once finalized, the
centroid (`means`), the member count (`num_members`, a `long long`) and the
finalized mark (`complete`). Arrays are functions of the cluster index. -/
structure clusters (V : Type) where
  means : Nat → V
  num_members : Nat → Int
  complete : Nat → Bool

/-- Modelled from the spec: the class `prune_clusters` of `libkcommon/clusters.hpp`
is not part of the sources. A `clusters` with the shadow copy of the previous
centroids (`prev_means`), the per-cluster drift (`prev_dist`) and the per-cluster
s-value (`s_val`). -/
structure prune_clusters (α V : Type) extends clusters V where
  prev_means : Nat → V
  prev_dist : Nat → α
  s_val : Nat → α

section Clusters

variable {α : Type} [LinearOrderedField α] {V : Type} [AddCommGroup V] [Module α V]

/-- Modelled from the spec: `clusters::create(K, NUM_COLS)`, a zeroed accumulator. -/
def clusters.create : clusters V :=
  { means := fun _ => 0, num_members := fun _ => 0, complete := fun _ => false }

/-- Modelled from the spec: `add_member(row, c)`, "accumulate a row into cluster c's
partial sum, increment member count". -/
def clusters.add_member (cl : clusters V) (row : V) (c : Nat) : clusters V :=
  { cl with means := Function.update cl.means c (cl.means c + row)
            num_members := Function.update cl.num_members c (cl.num_members c + 1) }

/-- Modelled from the spec: `remove_member(row, c)`, the inverse of `add_member`. -/
def clusters.remove_member (cl : clusters V) (row : V) (c : Nat) : clusters V :=
  { cl with means := Function.update cl.means c (cl.means c - row)
            num_members := Function.update cl.num_members c (cl.num_members c - 1) }

/-- Modelled from the spec: `swap_membership(row, from_id, to_id)` moves the row from
the accumulator of `from_id` to the accumulator of `to_id`. -/
def clusters.swap_membership (cl : clusters V) (row : V) (from_id to_id : Nat) : clusters V :=
  (cl.remove_member row from_id).add_member row to_id

/-- Modelled from the spec: `clear()`, "zero all accumulators and member counts". -/
def clusters.clear (_cl : clusters V) : clusters V :=
  clusters.create

/-- Modelled from the spec: `peq(other)` (the spec's `merge`), "add another
`Clusters`' partial sums and counts in". -/
def clusters.peq (cl other : clusters V) : clusters V :=
  { cl with means := fun c => cl.means c + other.means c
            num_members := fun c => cl.num_members c + other.num_members c }

/-- Modelled from the spec: `set_mean(row, c)` writes the row as centroid `c`. -/
def clusters.set_mean (cl : clusters V) (row : V) (c : Nat) : clusters V :=
  { cl with means := Function.update cl.means c row }

/-- Modelled from the spec: `prune_clusters::create(K, NUM_COLS)`. The content of the
shadow, of the drifts and of the s-values of a new object is not fixed by the spec
and is given by the parameters `prev0`, `pd0` and `s0`. -/
def prune_clusters.create (prev0 : Nat → V) (pd0 s0 : Nat → α) : prune_clusters α V :=
  { toclusters := clusters.create, prev_means := prev0, prev_dist := pd0, s_val := s0 }

/-- Modelled from the spec: `clear()` on the global clusters, "zero all accumulators
and member counts, preserving the previous-means shadow". -/
def prune_clusters.clear (g : prune_clusters α V) : prune_clusters α V :=
  { g with toclusters := g.toclusters.clear }

/-- Modelled from the spec: `set_prev_means()`, "copy current means into shadow". -/
def prune_clusters.set_prev_means (g : prune_clusters α V) : prune_clusters α V :=
  { g with prev_means := g.means }

/-- Modelled from the spec: `unfinalize(c)`, "convert finalized centroid back to an
accumulator with count multiplied back"; an accumulator is left as it is. -/
def prune_clusters.unfinalize (g : prune_clusters α V) (c : Nat) : prune_clusters α V :=
  if g.complete c then
    { g with means := Function.update g.means c ((g.num_members c : α) • g.means c)
             complete := Function.update g.complete c false }
  else g

/-- Modelled from the spec: `finalize(c)`, "divide accumulated sum by member count
(no-op if count==0 and keep previous mean), mark cluster finalized", idempotent.
With a zero count the centroid kept is the shadow `prev_means c`: the accumulator
itself no longer holds the previous centroid after `clear` or `unfinalize`. -/
def prune_clusters.finalize (g : prune_clusters α V) (c : Nat) : prune_clusters α V :=
  if g.complete c then g
  else
    { g with means := Function.update g.means c
               (if g.num_members c = 0 then g.prev_means c
                else (g.num_members c : α)⁻¹ • g.means c)
             complete := Function.update g.complete c true }

/-- Modelled from the spec: `peq(pt_clusters)` on the global clusters. -/
def prune_clusters.peq (g : prune_clusters α V) (other : clusters V) : prune_clusters α V :=
  { g with toclusters := g.toclusters.peq other }

/-- Modelled from the spec: `set_prev_dist(d, c)`. -/
def prune_clusters.set_prev_dist (g : prune_clusters α V) (d : α) (c : Nat) :
    prune_clusters α V :=
  { g with prev_dist := Function.update g.prev_dist c d }

end Clusters

/-! ## Per-partition program (sem_kmeans.h, lines 126-173; min_triangle_sem_kmeans.cpp,
lines 121-224) -/

/-- The fields of `kmeans_vertex_program` and of its base class
`base_kmeans_vertex_program`: `pt_changed`, `pt_clusters` and `num_reqs`. -/
structure kmeans_vertex_program (V : Type) where
  pt_changed : Nat
  pt_clusters : clusters V
  num_reqs : Nat

section Program

variable {α : Type} [LinearOrderedField α] {V : Type} [AddCommGroup V] [Module α V]

/-- The constructors: `pt_changed = 0`, `pt_clusters = ClusterType::create(K, NUM_COLS)`,
`num_reqs = 0`. -/
def kmeans_vertex_program.create : kmeans_vertex_program V :=
  { pt_changed := 0, pt_clusters := clusters.create, num_reqs := 0 }

/-- The method `pt_changed_pp`: `pt_changed++` on an `unsigned`. -/
def kmeans_vertex_program.pt_changed_pp (p : kmeans_vertex_program V) :
    kmeans_vertex_program V :=
  { p with pt_changed := (p.pt_changed + 1) % UINT_MOD }

/-- The method `add_member(id, row)`: `pt_clusters->add_member(row, id)`. -/
def kmeans_vertex_program.add_member (p : kmeans_vertex_program V) (id : Nat) (row : V) :
    kmeans_vertex_program V :=
  { p with pt_clusters := p.pt_clusters.add_member row id }

/-- The method `swap_membership(row, from_id, to_id)`. -/
def kmeans_vertex_program.swap_membership (p : kmeans_vertex_program V) (row : V)
    (from_id to_id : Nat) : kmeans_vertex_program V :=
  { p with pt_clusters := p.pt_clusters.swap_membership row from_id to_id }

/-- The method `num_requests_pp`: `num_reqs++` on an `unsigned`. -/
def kmeans_vertex_program.num_requests_pp (p : kmeans_vertex_program V) :
    kmeans_vertex_program V :=
  { p with num_reqs := (p.num_reqs + 1) % UINT_MOD }

/-- The method `reset` of the base class: `pt_changed = 0; pt_clusters->clear()`. -/
def kmeans_vertex_program.reset (p : kmeans_vertex_program V) : kmeans_vertex_program V :=
  { p with pt_changed := 0, pt_clusters := p.pt_clusters.clear }

end Program

/-! ## The scans of `kmeans_vertex::run_distance` (lines 569-628) -/

section Scan

variable {α : Type} [LinearOrder α] {V : Type}

/-- One turn of the loop of lines 574-582 (`g_prune_init` set): the distance to
centroid `cl` is computed and kept when it is strictly smaller than `dist`. -/
def prune_init_turn (dist_comp_raw : V → V → α) (means : Nat → V) (row : V)
    (v : kmeans_vertex α) (cl : Nat) : kmeans_vertex α :=
  let udist := dist_comp_raw row (means cl)
  if udist < v.dist then { v with dist := udist, cluster_id := cl } else v

/-- One turn of the loop of lines 584-615 (`g_prune_init` not set): test 3a against
the half distance `get cluster_id cl`, tightening of `dist` when not yet
`recalculated`, test 3c, and the distance computation to centroid `cl`. -/
def steady_turn (dist_comp_raw : V → V → α) (means : Nat → V) (get : Nat → Nat → α)
    (row : V) (v : kmeans_vertex α) (cl : Nat) : kmeans_vertex α :=
  if v.dist ≤ get v.cluster_id cl then v
  else
    let v1 : kmeans_vertex α :=
      if v.recalculated = false then
        { v with dist := dist_comp_raw row (means v.cluster_id), recalculated := true }
      else v
    if v1.dist ≤ get v1.cluster_id cl then v1
    else
      let jdist := dist_comp_raw row (means cl)
      if jdist < v1.dist then { v1 with dist := jdist, cluster_id := cl } else v1

/-- The loop `for (cl = 0; cl < K; cl++)` of `run_distance`, in either mode. -/
def scan (dist_comp_raw : V → V → α) (g_prune_init : Bool) (K : Nat) (means : Nat → V)
    (get : Nat → Nat → α) (row : V) (v : kmeans_vertex α) : kmeans_vertex α :=
  if g_prune_init then (List.range K).foldl (prune_init_turn dist_comp_raw means row) v
  else (List.range K).foldl (steady_turn dist_comp_raw means get row) v

end Scan

section RunDistance

variable {α : Type} [LinearOrderedField α] {V : Type} [AddCommGroup V] [Module α V]

/-- The method `kmeans_vertex::run_distance(prog, row)`: the scan, then the update of
the partition program (lines 621-627). `dist_comp_raw` is `kbase::dist_comp_raw`
with `NUM_COLS` and `g_dist_type` fixed; `means cl` is
`g_clusters->get_means()[cl*NUM_COLS]`; `get` is `g_cluster_dist->get`. -/
def run_distance (dist_comp_raw : V → V → α) (g_prune_init : Bool) (K : Nat)
    (means : Nat → V) (get : Nat → Nat → α) (row : V)
    (vp : kmeans_vertex α × kmeans_vertex_program V) :
    kmeans_vertex α × kmeans_vertex_program V :=
  let old_cluster_id := vp.1.cluster_id
  let v := scan dist_comp_raw g_prune_init K means get row vp.1
  if g_prune_init then
    (v, vp.2.pt_changed_pp.add_member v.cluster_id row)
  else if old_cluster_id ≠ v.cluster_id then
    (v, vp.2.pt_changed_pp.swap_membership row old_cluster_id v.cluster_id)
  else (v, vp.2)

end RunDistance

/-! ## Distance table and s-values -/

section DistMatrix

variable {α : Type} [LinearOrderedField α] {V : Type}

/-- Modelled from the spec: `min_half_dist(i)` of the class `dist_matrix`
(`libkcommon/dist_matrix.hpp`, not part of the sources), "returns
`min_{j≠i} D[i][j]/2`, i.e. `s[i]`". `get` is the table of half distances; the
minimum is taken from the seed `DBL_MAX`. -/
def min_half_dist (DBL_MAX : α) (get : Nat → Nat → α) (K i : Nat) : α :=
  ((List.range K).filter (fun j => decide (j ≠ i))).foldl (fun m j => min m (get i j)) DBL_MAX

/-- Modelled from the spec: `dist_matrix::compute_dist(g_clusters, NUM_COLS)` is not
part of the sources. "`D[i][j] = ||μ_i − μ_j||`", "`get(i,j)` returns `D[i][j]/2`",
and the s-values are recomputed as `min_half_dist`. Returns the table and the
clusters with the new s-values. -/
def compute_dist (eucl_dist : V → V → α) (DBL_MAX : α) (K : Nat) (c : prune_clusters α V) :
    (Nat → Nat → α) × prune_clusters α V :=
  let table : Nat → Nat → α := fun i j => eucl_dist (c.means i) (c.means j) / 2
  (table, { c with s_val := fun i => min_half_dist DBL_MAX table K i })

end DistMatrix

/-! ## Globals of the minimized engine (min_triangle_sem_kmeans.cpp, lines 42-71) -/

/-- The enumeration `kmspp_stage_t` of `sem_kmeans.h`. -/
inductive kmspp_stage_t where
  | ADDMEAN
  | DIST
deriving DecidableEq, Repr

/-- The values of `kbase::stage_t` (`libkcommon/types.hpp`) that the engine uses. -/
inductive stage_t where
  | INIT
  | ESTEP
deriving DecidableEq, Repr

/-- The file-scope variables of `min_triangle_sem_kmeans.cpp` that the E-step and the
M-step read and write. `g_cluster_dist` is the table `g_cluster_dist->get`. -/
structure globals (α V : Type) where
  K : Nat
  NUM_ROWS : Nat
  g_prune_init : Bool
  g_cluster_dist : Nat → Nat → α
  g_clusters : prune_clusters α V
  g_num_changed : Nat
  g_io_reqs : Nat
  g_kmspp_cluster_idx : Nat
  g_kmspp_stage : kmspp_stage_t
  g_stage : stage_t
  g_iter : Nat
  g_max_iters : Nat
  g_num_members_v : Nat → Int
  g_tolerance : α
  g_converged : Bool
  cache : CacheGlobals
  iter_barrier : barrier

/-- How a call of `kmeans_vertex::run(prog)` ends. -/
inductive run_outcome (α : Type) where
  /-- lines 321-324: `pt_cuml_sum_peq(get_dist()); return` -/
  | kmspp_skip (d : α)
  /-- line 331: `return`, the row is not activated again -/
  | inactive
  /-- line 344: the lemma-1 skip, `return` without a row request -/
  | lemma1_skip
  /-- lines 358-369: the row is in the cache, `run_init` or `run_distance` runs on it -/
  | cache_row
  /-- line 376: `request_vertices(&id, 1)`; the row is delivered to `run(prog, vertex)` -/
  | request
deriving DecidableEq, Repr

section Run

variable {α : Type} [LinearOrderedField α] {V : Type} [AddCommGroup V] [Module α V]

/-- Lines 352-376 of `kmeans_vertex::run(prog)`: cache lookup, else row request.
`cache_hit` says whether `g_row_cache->get(id, thd)` returns a row. -/
def run_fetch (g : globals α V) (cache_hit : Bool) : run_outcome α :=
  if g.cache.g_row_cache.isSome ∧ cache_hit = true then run_outcome.cache_row
  else run_outcome.request

/-- The method `kmeans_vertex::run(prog)` (lines 314-377). Returns the vertex, whether
the row activated itself for the next iteration, and how the call ended. -/
def kmeans_vertex.run (g : globals α V) (cache_hit : Bool) (v : kmeans_vertex α) :
    kmeans_vertex α × Bool × run_outcome α :=
  if g.g_kmspp_stage = kmspp_stage_t.DIST then
    if v.cluster_id ≠ INVALID_CLUST_ID ∧
        v.dist ≤ g.g_cluster_dist v.cluster_id g.g_kmspp_cluster_idx then
      (v, false, run_outcome.kmspp_skip v.dist)
    else (v, false, run_fetch g cache_hit)
  else if g.g_stage ≠ stage_t.INIT then
    if g.g_converged = false ∧ g.g_iter < g.g_max_iters then
      let v1 : kmeans_vertex α := { v with recalculated := false }
      if g.g_prune_init = false then
        let v2 : kmeans_vertex α :=
          { v1 with dist := v1.dist + g.g_clusters.prev_dist v1.cluster_id }
        if v2.dist ≤ g.g_clusters.s_val v2.cluster_id then
          (v2, true, run_outcome.lemma1_skip)
        else (v2, true, run_fetch g cache_hit)
      else (v1, true, run_fetch g cache_hit)
    else (v, false, run_outcome.inactive)
  else (v, false, run_fetch g cache_hit)

/-- What the engine does with one active row in stage `ESTEP`: `run(prog)` and, when
the row is served from the cache or delivered after a request (then with
`num_requests_pp`), `run_distance`. Both overloads of `run_distance` run the same
scan; `dist_comp_raw` stands for `kbase::dist_comp_raw` and for `dist_comp`. -/
def estep_row (dist_comp_raw : V → V → α) (g : globals α V) (cache_hit : Bool) (row : V)
    (vp : kmeans_vertex α × kmeans_vertex_program V) :
    kmeans_vertex α × kmeans_vertex_program V :=
  match (vp.1.run g cache_hit).2.2 with
  | run_outcome.cache_row =>
    run_distance dist_comp_raw g.g_prune_init g.K g.g_clusters.means g.g_cluster_dist row
      ((vp.1.run g cache_hit).1, vp.2)
  | run_outcome.request =>
    run_distance dist_comp_raw g.g_prune_init g.K g.g_clusters.means g.g_cluster_dist row
      ((vp.1.run g cache_hit).1,
        if g.g_stage ≠ stage_t.INIT then vp.2.num_requests_pp else vp.2)
  | _ => ((vp.1.run g cache_hit).1, vp.2)

end Run

/-! ## M-step: `clear_clusters`, `update_clusters`, `run_on_iteration_end` -/

section MStep

variable {α : Type} [LinearOrderedField α] {V : Type} [AddCommGroup V] [Module α V]

/-- The function `clear_clusters` (lines 741-754). -/
def clear_clusters (g : globals α V) : globals α V :=
  if g.g_prune_init then { g with g_clusters := g.g_clusters.clear }
  else
    { g with g_clusters :=
        (List.range g.K).foldl (fun c cl => c.unfinalize cl) g.g_clusters.set_prev_means }

/-- One turn of the loop of lines 791-808 of `update_clusters`, for the program `p` of
one thread: `g_num_changed += pt_changed` (an `unsigned`), `g_io_reqs += num_reqs`
(a `size_t`), `g_clusters->peq(pt_clusters)`. -/
def merge_program (g : globals α V) (p : kmeans_vertex_program V) : globals α V :=
  { g with g_num_changed := (g.g_num_changed + p.pt_changed) % UINT_MOD
           g_io_reqs := (g.g_io_reqs + p.num_reqs) % 2 ^ 64
           g_clusters := g.g_clusters.peq p.pt_clusters }

/-- One turn of the loop of lines 810-823 of `update_clusters`: `finalize(cl)`,
`num_members_v[cl] = get_num_members(cl)`, and `set_prev_dist` with the distance
`kbase::eucl_dist` between the centroid and its shadow. -/
def finalize_cluster (eucl_dist : V → V → α) (g : globals α V) (cl : Nat) : globals α V :=
  { g with
      g_clusters :=
        (g.g_clusters.finalize cl).set_prev_dist
          (eucl_dist ((g.g_clusters.finalize cl).means cl)
            ((g.g_clusters.finalize cl).prev_means cl)) cl
      g_num_members_v :=
        Function.update g.g_num_members_v cl ((g.g_clusters.finalize cl).num_members cl) }

/-- The function `update_clusters` (lines 782-839). `progs thd` for `thd < nthread` are
the vertex programs returned by `get_vertex_programs`; they are reset. The check
`BOOST_VERIFY(g_num_changed <= NUM_ROWS)` of line 803 is not modelled. -/
def update_clusters (eucl_dist : V → V → α) (nthread : Nat) (g : globals α V)
    (progs : Nat → kmeans_vertex_program V) :
    globals α V × (Nat → kmeans_vertex_program V) :=
  ((List.range g.K).foldl (finalize_cluster eucl_dist)
      ((List.range nthread).foldl (fun g1 thd => merge_program g1 (progs thd))
        (clear_clusters g)),
    fun thd => if thd < nthread then (progs thd).reset else progs thd)

/-- The smallest shift `k` at which `a * 2^k / b` reaches `2^52`, searched upward from
`k` in at most `fuel` steps. -/
def double_shift (a b : Nat) : Nat → Nat → Nat
  | 0, k => k
  | fuel + 1, k => if 2 ^ 52 * b ≤ a * 2 ^ k then k else double_shift a b fuel (k + 1)

/-- The quotient `g_num_changed/(double)NUM_ROWS` of line 202 as the machine computes
it. The two `unsigned` values are converted to `double` without rounding, and the
quotient is rounded to the nearest double, a tie to the even significand (IEEE 754
binary64; for values below `2^32` the quotient is in the normal range). The result is
the value of that double, `m / 2^k` with the significand `m` between `2^52` and `2^53`
and `k` between 21 and 84. For `b = 0` the quotient is an infinity or a NaN, which is
not `<=` any finite double: it is represented by `2^1024`, above every finite double. -/
def double_div (a b : Nat) : α :=
  if b = 0 then 2 ^ 1024
  else
    let k := double_shift a b 85 0
    let q := a * 2 ^ k / b
    let r := a * 2 ^ k % b
    let m := if 2 * r < b then q else if b < 2 * r then q + 1 else if q % 2 = 0 then q else q + 1
    (m : α) / 2 ^ k

/-- The convergence test of lines 201-203:
`(g_num_changed == 0 || g_num_changed/(double)NUM_ROWS <= g_tolerance) || g_iter > g_max_iters`.
The quotient is the rounded quotient of two doubles, `double_div`; `g_tolerance` is the
value of the double that holds the tolerance. -/
def convergence_test (g : globals α V) : Prop :=
  (g.g_num_changed = 0 ∨ double_div g.g_num_changed g.NUM_ROWS ≤ g.g_tolerance) ∨
    g.g_max_iters < g.g_iter

instance (g : globals α V) : Decidable (convergence_test g) := by
  unfold convergence_test
  infer_instance

/-- Lines 171-221 of `kmeans_vertex_program::run_on_iteration_end`: what the worker
that crossed the barrier does when `g_converged` is not set. The result is `none`
when `manage_cache` divides by zero. -/
def mstep (eucl_dist : V → V → α) (DBL_MAX : α) (nthread : Nat) (g : globals α V)
    (progs : Nat → kmeans_vertex_program V) :
    Option (globals α V × (Nat → kmeans_vertex_program V)) :=
  let up := update_clusters eucl_dist nthread g progs
  let cd := compute_dist eucl_dist DBL_MAX up.1.K up.1.g_clusters
  let g2 : globals α V := { up.1 with g_cluster_dist := cd.1, g_clusters := cd.2 }
  (if g2.cache.g_row_cache.isSome then manage_cache g2.cache else some g2.cache).map
    fun c =>
      let g3 : globals α V := { g2 with cache := c }
      if convergence_test g3 then ({ g3 with g_converged := true }, up.2)
      else
        ({ g3 with g_prune_init := false
                   g_num_changed := 0
                   g_iter := (g3.g_iter + 1) % UINT_MOD }, up.2)

/-- The method `kmeans_vertex_program::run_on_iteration_end` (lines 169-223), called
by one partition at the end of an iteration. -/
def run_on_iteration_end (eucl_dist : V → V → α) (DBL_MAX : α) (nthread : Nat)
    (g : globals α V) (progs : Nat → kmeans_vertex_program V) :
    Option (globals α V × (Nat → kmeans_vertex_program V)) :=
  if g.iter_barrier.ping.1 = true then
    if g.g_converged = false then
      mstep eucl_dist DBL_MAX nthread { g with iter_barrier := g.iter_barrier.ping.2 } progs
    else some ({ g with iter_barrier := g.iter_barrier.ping.2 }, progs)
  else some ({ g with iter_barrier := g.iter_barrier.ping.2 }, progs)

end MStep

/-! ## The engine: passes over the rows and end-of-iteration hooks -/

/-- What is fixed during a run: the two distance functions of the knor library
(`kbase::dist_comp_raw` with `g_dist_type = EUCL`, and `kbase::eucl_dist`), the
maximum double, the number of worker threads `g_nthread`, the rows of the matrix and
the partition (thread) that handles each row. -/
structure setting (α V : Type) where
  dist_comp_raw : V → V → α
  eucl_dist : V → V → α
  DBL_MAX : α
  nthread : Nat
  data : Nat → V
  owner : Nat → Nat

/-- The state of a run: the globals, the vertex of every row and the vertex program
of every thread. -/
structure engine (α V : Type) where
  g : globals α V
  verts : Nat → kmeans_vertex α
  progs : Nat → kmeans_vertex_program V

section Engine

variable {α : Type} [LinearOrderedField α] {V : Type} [AddCommGroup V] [Module α V]

/-- The case `RANDOM` of `kmeans_vertex::run_init` (lines 411-422 and 493-506):
`new_cluster_id = random() % K`, `set_cluster_id`, `add_member`. `rnd` is the value
returned by `random()`. -/
def run_init_random (rnd K : Nat) (row : V)
    (vp : kmeans_vertex α × kmeans_vertex_program V) :
    kmeans_vertex α × kmeans_vertex_program V :=
  ({ vp.1 with cluster_id := rnd % K }, vp.2.add_member (rnd % K) row)

/-- The engine runs the handler `F` on row `r`: the handler gets the globals, the
vertex of the row and the vertex program of the thread `owner r` that handles the
row, and returns the new vertex and the new program. -/
def pass_step
    (F : globals α V → Nat → kmeans_vertex α × kmeans_vertex_program V →
      kmeans_vertex α × kmeans_vertex_program V)
    (owner : Nat → Nat) (e : engine α V) (r : Nat) : engine α V :=
  { e with
      verts := Function.update e.verts r (F e.g r (e.verts r, e.progs (owner r))).1
      progs := Function.update e.progs (owner r) (F e.g r (e.verts r, e.progs (owner r))).2 }

/-- One iteration of the engine in stage `ESTEP`, rows only: every row of `order` is
run by the thread that owns it (`estep_row`). `cache_hit r` says whether row `r` is
found in the row cache. -/
def estep_pass (cfg : setting α V) (cache_hit : Nat → Bool) (order : List Nat)
    (e : engine α V) : engine α V :=
  order.foldl
    (pass_step (fun g r vp => estep_row cfg.dist_comp_raw g (cache_hit r) (cfg.data r) vp)
      cfg.owner) e

/-- The pass of the random initialisation (`g_stage = INIT`, `g_init = RANDOM`): every
row of `order` runs `run_init`; `rnd r` is the value of `random()` drawn for row `r`. -/
def random_init_pass (cfg : setting α V) (rnd : Nat → Nat) (order : List Nat)
    (e : engine α V) : engine α V :=
  order.foldl
    (pass_step (fun g r vp => run_init_random (rnd r) g.K (cfg.data r) vp) cfg.owner) e

/-- The end of an iteration: each of the `nthread` partitions calls
`run_on_iteration_end` once, one after the other. -/
def end_of_pass (cfg : setting α V) (e : engine α V) : Option (engine α V) :=
  (List.range cfg.nthread).foldl (fun oe _ =>
    oe.bind fun e1 =>
      (run_on_iteration_end cfg.eucl_dist cfg.DBL_MAX cfg.nthread e1.g e1.progs).map
        fun gp => { e1 with g := gp.1, progs := gp.2 }) (some e)

/-- One iteration of the E-step engine run (`mat->start_all` of lines 1096-1099): the
pass over the rows, then the end-of-iteration hooks. -/
def iteration (cfg : setting α V) (cache_hit : Nat → Bool) (order : List Nat)
    (e : engine α V) : Option (engine α V) :=
  end_of_pass cfg (estep_pass cfg cache_hit order e)

/-- The random initialisation of `compute_min_triangle_sem_kmeans` (lines 1011-1025)
up to the start of the E-step run (lines 1087-1094): the pass over all rows, the
end-of-iteration hooks of the vertex programs (`hooks`; the engine that calls them is
not part of the sources, both possibilities are modelled), `manage_cache` when the
cache is enabled, `g_io_reqs += NUM_ROWS`, `update_clusters`; then `g_iter = 0`,
`g_stage = ESTEP` and new vertex programs for the E-step run. -/
def random_init (cfg : setting α V) (hooks : Bool) (rnd : Nat → Nat) (order : List Nat)
    (e : engine α V) : Option (engine α V) :=
  (if hooks then end_of_pass cfg (random_init_pass cfg rnd order e)
   else some (random_init_pass cfg rnd order e)).bind fun e2 =>
    (if e2.g.cache.g_row_cache.isSome then manage_cache e2.g.cache
     else some e2.g.cache).map fun c =>
      { g :=
          { (update_clusters cfg.eucl_dist cfg.nthread
              { e2.g with cache := c
                          g_io_reqs := (e2.g.g_io_reqs + e2.g.NUM_ROWS) % 2 ^ 64 }
              e2.progs).1 with
            g_iter := 0
            g_stage := stage_t.ESTEP }
        verts := e2.verts
        progs := fun _ => kmeans_vertex_program.create }

/-- The threads: at least one, fewer than `2^32` (`g_nthread` is an `unsigned`), and
every row is handled by one of them. -/
def setting.wf (cfg : setting α V) (N : Nat) : Prop :=
  1 ≤ cfg.nthread ∧ cfg.nthread < UINT_MOD ∧ ∀ r, r < N → cfg.owner r < cfg.nthread

/-- The engine before the random initialisation: stage `INIT`, `g_prune_init` not
set, zero member counts in the new `g_clusters`, a barrier for `nthread` parties and
new vertex programs; `K ≥ 1` (line 957 exits unless `2 ≤ K ≤ NUM_ROWS`). -/
def random_fresh (cfg : setting α V) (e : engine α V) : Prop :=
  cfg.wf e.g.NUM_ROWS ∧ 0 < e.g.K ∧ e.g.g_stage = stage_t.INIT ∧
  e.g.g_kmspp_stage = kmspp_stage_t.ADDMEAN ∧
  e.g.g_prune_init = false ∧ (∀ c, e.g.g_clusters.num_members c = 0) ∧
  e.g.iter_barrier = barrier.create cfg.nthread ∧
  (∀ t, e.progs t = kmeans_vertex_program.create)

/-- The engine at the start of the E-step run after a Forgy or k-means++
initialisation or with caller-supplied centres (lines 1087-1096): `g_prune_init` set,
`g_converged` not set, `g_iter = 0 < max_iters`, stage `ESTEP`, new vertex
programs; every row either still has `dist = DBL_MAX`, all centroids being at a
distance below `DBL_MAX`, or has been assigned to a cluster by k-means++. -/
def prune_init_entry (cfg : setting α V) (e : engine α V) : Prop :=
  cfg.wf e.g.NUM_ROWS ∧ 0 < e.g.K ∧ e.g.g_stage = stage_t.ESTEP ∧
  e.g.g_kmspp_stage = kmspp_stage_t.ADDMEAN ∧
  e.g.g_prune_init = true ∧ e.g.g_converged = false ∧ e.g.g_iter = 0 ∧
  0 < e.g.g_max_iters ∧ e.g.iter_barrier = barrier.create cfg.nthread ∧
  (∀ t, e.progs t = kmeans_vertex_program.create) ∧
  (∀ r, r < e.g.NUM_ROWS →
    ((e.verts r).dist = cfg.DBL_MAX ∧
      ∀ c, c < e.g.K →
        cfg.dist_comp_raw (cfg.data r) (e.g.g_clusters.means c) < cfg.DBL_MAX) ∨
    (e.verts r).cluster_id < e.g.K)

/-- The engine states in which a run of the minimized engine can be after an M-step:
after the random initialisation, after the first iteration of the E-step run of the
other initialisations, and after every further iteration. In every pass each row
is handled exactly once (`order` is a permutation of the row ids). -/
inductive after_mstep (cfg : setting α V) : engine α V → Prop where
  | random (e0 e : engine α V) (hooks : Bool) (rnd : Nat → Nat) (order : List Nat) :
      random_fresh cfg e0 → order.Perm (List.range e0.g.NUM_ROWS) →
      random_init cfg hooks rnd order e0 = some e → after_mstep cfg e
  | first (e0 e : engine α V) (cache_hit : Nat → Bool) (order : List Nat) :
      prune_init_entry cfg e0 → order.Perm (List.range e0.g.NUM_ROWS) →
      iteration cfg cache_hit order e0 = some e → after_mstep cfg e
  | next (e0 e : engine α V) (cache_hit : Nat → Bool) (order : List Nat) :
      after_mstep cfg e0 → order.Perm (List.range e0.g.NUM_ROWS) →
      iteration cfg cache_hit order e0 = some e → after_mstep cfg e

/-- The number of members that the accumulators of a vertex program hold for the
clusters `0 .. K-1`. -/
def ptotal (K : Nat) (p : kmeans_vertex_program V) : Int :=
  ∑ c ∈ Finset.range K, p.pt_clusters.num_members c

/-- The invariant of the engine between iterations: the barrier is rearmed,
`g_prune_init` is only still set after convergence, every row is assigned to a
cluster below `K`, the accumulators of the vertex programs hold no member in total,
the member counts of `g_clusters` sum to `NUM_ROWS` and `g_num_members_v` agrees
with them. -/
def run_inv (cfg : setting α V) (e : engine α V) : Prop :=
  cfg.wf e.g.NUM_ROWS ∧ 0 < e.g.K ∧ e.g.g_stage = stage_t.ESTEP ∧
  e.g.g_kmspp_stage = kmspp_stage_t.ADDMEAN ∧
  e.g.iter_barrier = barrier.create cfg.nthread ∧
  (e.g.g_prune_init = true → e.g.g_converged = true) ∧
  (∀ r, r < e.g.NUM_ROWS → (e.verts r).cluster_id < e.g.K) ∧
  ∑ t ∈ Finset.range cfg.nthread, ptotal e.g.K (e.progs t) = 0 ∧
  ∑ c ∈ Finset.range e.g.K, e.g.g_clusters.num_members c = (e.g.NUM_ROWS : Int) ∧
  ∀ c, c < e.g.K → e.g.g_num_members_v c = e.g.g_clusters.num_members c

/-- The globals at the start of the E-step run of `compute_min_triangle_sem_kmeans`
called with caller-supplied `centers` (lines 931-1094): `g_clusters` is created and
`set_mean(*centers)` writes the centroids, `g_prune_init` is set, `g_iter = 0`,
`g_stage = ESTEP`, no row cache. The content of a new `prune_clusters` shadow
(`prev0`) and of a new distance table (`table0`) is not fixed by the spec. -/
def entry_with_centers (K N max_iters nthread : Nat) (tolerance DBL_MAX : α)
    (centers prev0 : Nat → V) (table0 : Nat → Nat → α) : globals α V :=
  { K := K
    NUM_ROWS := N
    g_prune_init := true
    g_cluster_dist := table0
    g_clusters :=
      { (prune_clusters.create prev0 (fun _ => 0) (fun _ => DBL_MAX) : prune_clusters α V) with
        means := centers }
    g_num_changed := 0
    g_io_reqs := 0
    g_kmspp_cluster_idx := 0
    g_kmspp_stage := kmspp_stage_t.ADDMEAN
    g_stage := stage_t.ESTEP
    g_iter := 0
    g_max_iters := max_iters
    g_num_members_v := fun _ => 0
    g_tolerance := tolerance
    g_converged := false
    cache := { g_row_cache := none, g_io_iter := 0, g_cache_update_iter := 5 }
    iter_barrier := barrier.create nthread }

end Engine

/-! ## The regenerations of the row cache along a run of `manage_cache` -/

/-- The calls of `manage_cache`, among the first `n` calls started in `s`, that throw
the cache away and create a new one (the generation number of the cache changes):
for each of them the value of `g_io_iter` at the call and the value of
`g_cache_update_iter` after it. -/
def regeneration_log (n : Nat) (s : CacheGlobals) : List (Nat × Nat) :=
  (List.range n).filterMap fun i =>
    match manage_cache_n i s, manage_cache_n (i + 1) s with
    | some a, some b =>
      if a.g_row_cache.map partition_cache.generation =
          b.g_row_cache.map partition_cache.generation then none
      else some (a.g_io_iter, b.g_cache_update_iter)
    | _, _ => none

/-! ## Selection of the next k-means++ centre: `kmeanspp_get_next_cluster_id`
(min_triangle_sem_kmeans.cpp, lines 844-881; triangle_sem_kmeans.cpp, lines 445-479) -/

/-- How a call of `kmeanspp_get_next_cluster_id` ends. -/
inductive kmspp_pick where
  /-- `return row` -/
  | row (r : Nat)
  /-- `BOOST_ASSERT_MSG(cuml_sum != 0, "Cumulative sum == 0!")` fails -/
  | assert_cuml_sum_zero
  /-- the loop ends without a row:
  `BOOST_ASSERT_MSG(false, ...)`, `exit(EXIT_FAILURE)` -/
  | exit_failure
deriving DecidableEq, Repr

section KmeansPP

variable {α : Type} [LinearOrderedField α]

/-- The loop `for (row = 0; row < NUM_ROWS; row++)` of `kmeanspp_get_next_cluster_id`,
continued at `row` with `n` rows left: `cuml_sum -= g_kmspp_distance[row]`, and
`return row` when `cuml_sum <= 0`. The result is `none` when the loop ends. -/
def kmspp_scan (g_kmspp_distance : Nat → α) : Nat → Nat → α → Option Nat
  | 0, _, _ => none
  | n + 1, row, cuml_sum =>
    if cuml_sum - g_kmspp_distance row ≤ 0 then some row
    else kmspp_scan g_kmspp_distance n (row + 1) (cuml_sum - g_kmspp_distance row)

/-- The value of `cuml_sum` before the scan: the sum of the partition sums
`get_pt_cuml_sum()`, then `(cuml_sum * ur_distribution(generator)) / (RAND_MAX-1.0)`.
`u` is the value drawn from `ur_distribution(0.0, 1.0)`; `RAND_MAX` is the constant of
the C library. -/
def kmspp_threshold (RAND_MAX : Nat) (pt_cuml_sums : List α) (u : α) : α :=
  (pt_cuml_sums.foldl (fun cuml_sum s => cuml_sum + s) 0 * u) / ((RAND_MAX : α) - 1)

/-- The function `kmeanspp_get_next_cluster_id`, as to its result. `NDEBUG` says
whether assertions are compiled out; `pt_cuml_sums` are the sums held by the
k-means++ vertex programs. The call also increments `g_kmspp_cluster_idx` and, in
the minimized engine, resets the sums of the programs. -/
def kmeanspp_get_next_cluster_id (NDEBUG : Bool) (RAND_MAX NUM_ROWS : Nat)
    (g_kmspp_distance : Nat → α) (pt_cuml_sums : List α) (u : α) : kmspp_pick :=
  if NDEBUG = false ∧ kmspp_threshold RAND_MAX pt_cuml_sums u = 0 then
    kmspp_pick.assert_cuml_sum_zero
  else
    match kmspp_scan g_kmspp_distance NUM_ROWS 0 (kmspp_threshold RAND_MAX pt_cuml_sums u) with
    | some r => kmspp_pick.row r
    | none => kmspp_pick.exit_failure

end KmeansPP

/-! ## Distance of a row read from disk to a centroid: `dist_comp`
(min_triangle_sem_kmeans.cpp, lines 379-406; triangle_sem_kmeans.cpp, lines 209-224) -/

section DistComp

variable {α : Type} [LinearOrderedField α]

/-- The loop of `dist_comp`: for every entry `e` of the row, in order,
`diff = e - mean[nid++]; dist += diff*diff`. The state is `(dist, nid)`. -/
def dist_comp_loop (vertex : List α) (mean : Nat → α) : α × Nat :=
  vertex.foldl (fun st e => (st.1 + (e - mean st.2) * (e - mean st.2), st.2 + 1)) (0, 0)

/-- The function `dist_comp`: `return sqrt(dist)` after the loop. `vertex` is the row
as delivered by the iterator, `mean` the centroid (entries past its end read as 0),
`sqrt` the square root of the C library. The row cache, which `dist_comp` may fill,
does not enter the result; `BOOST_VERIFY(nid == NUM_COLS)` compares the number of
entries read, the second component of the loop state, with the number of columns. -/
def dist_comp (sqrt : α → α) (vertex mean : List α) : α :=
  sqrt (dist_comp_loop vertex (fun nid => mean.getD nid 0)).1

end DistComp

/-! ## The entry points `compute_min_triangle_sem_kmeans` (min_triangle_sem_kmeans.cpp,
lines 923-1153) and `compute_triangle_sem_kmeans` (triangle_sem_kmeans.cpp, from line 489) -/

/-- The fatal exits of the entry points before the data structures are set up. -/
inductive fatal_exit where
  /-- "init must be one of: 'random', 'forgy', 'kmeanspp'", `exit(EXIT_FAILURE)` -/
  | init_name
  /-- "'k' must be between 2 and the number of rows in the matrix",
  `exit(EXIT_FAILURE)` -/
  | k_range
  /-- `BOOST_VERIFY(num_cols > 0)` fails (assertions enabled) -/
  | num_cols
deriving DecidableEq, Repr

/-- The parameter checks, the same text in both entry points (lines 942-964 of
min_triangle_sem_kmeans.cpp, lines 499-523 of triangle_sem_kmeans.cpp): the check of
the name of the initialisation, `NUM_ROWS = mat->get_max_vertex_id() + 1` (an
`unsigned`), the check `K > NUM_ROWS || K < 2 || K == (unsigned)-1`, and
`BOOST_VERIFY(num_cols > 0)`. `k` is the `unsigned` argument, `centers` says whether
the pointer `centers` is not `NULL`, `NDEBUG` whether assertions are compiled out.
Returns `K` and `NUM_ROWS`. -/
def check_params (NDEBUG : Bool) (k : Nat) (init : String) (centers : Bool)
    (max_vertex_id num_cols : Nat) : Except fatal_exit (Nat × Nat) :=
  if centers = false ∧ init ≠ "random" ∧ init ≠ "kmeanspp" ∧ init ≠ "forgy" then
    Except.error fatal_exit.init_name
  else if (max_vertex_id + 1) % UINT_MOD < k ∨ k < 2 ∨ k = UINT_MOD - 1 then
    Except.error fatal_exit.k_range
  else if NDEBUG = false ∧ num_cols = 0 then Except.error fatal_exit.num_cols
  else Except.ok (k, (max_vertex_id + 1) % UINT_MOD)

/-- Modelled from the spec: the result type `kbase::cluster_t` (libkcommon) is not
part of the sources. "Result: final assignments (length N), per-cluster sizes
(length K), final centroids (K×D), iterations executed". The record holds the
arguments of `ret.set_params(NUM_ROWS, NUM_COLS, g_iter, K)` and of
`ret.set_computed(&mv[0], &g_num_members_v[0], g_clusters->get_means())`. -/
structure cluster_t (V : Type) where
  nrow : Nat
  ncol : Nat
  iters : Nat
  k : Nat
  assignments : Nat → Nat
  assignment_count : Nat → Int
  means : Nat → V

section Entry

variable {α : Type} [LinearOrderedField α] {V : Type} [AddCommGroup V] [Module α V]

/-- Lines 977-991: with `cache_size_gb > 0` the row cache is created and
`g_cache_update_iter = rc_update_start_interval`; otherwise the statics keep their
initial values (`g_row_cache = nullptr`, `g_cache_update_iter = 5`). `g_io_iter` is
the static initial value 0. -/
def cache_init (cache_size_gb : α) (rc_update_start_interval : Nat) : CacheGlobals :=
  if 0 < cache_size_gb then CacheGlobals.start rc_update_start_interval
  else { g_row_cache := none, g_io_iter := 0, g_cache_update_iter := 5 }

/-- The state after the set-up of lines 931-1005 (first call in the process, the
statics have their initial values): the vertices as constructed by the index
(`cluster_id = INVALID_CLUST_ID`, `dist` the maximum double), `g_clusters` created
and, with `centers`, `set_mean(*centers)`, `g_num_members_v` zero, a new distance
table, the barrier for `g_nthread` threads. With `centers` the stage is not read
before line 1094 sets it. -/
def var_init (cfg : setting α V) (K NUM_ROWS max_iters : Nat) (tolerance : α)
    (centers : Option (Nat → V)) (cache_size_gb : α) (rc_update_start_interval : Nat)
    (prev0 : Nat → V) (table0 : Nat → Nat → α) : engine α V :=
  { g :=
      { K := K
        NUM_ROWS := NUM_ROWS
        g_prune_init := false
        g_cluster_dist := table0
        g_clusters :=
          match centers with
          | some c =>
            { (prune_clusters.create prev0 (fun _ => 0) (fun _ => cfg.DBL_MAX) :
                prune_clusters α V) with means := c }
          | none => prune_clusters.create prev0 (fun _ => 0) (fun _ => cfg.DBL_MAX)
        g_num_changed := 0
        g_io_reqs := 0
        g_kmspp_cluster_idx := 0
        g_kmspp_stage := kmspp_stage_t.ADDMEAN
        g_stage := stage_t.INIT
        g_iter := 0
        g_max_iters := max_iters
        g_num_members_v := fun _ => 0
        g_tolerance := tolerance
        g_converged := false
        cache := cache_init cache_size_gb rc_update_start_interval
        iter_barrier := barrier.create cfg.nthread }
    verts := fun _ => kmeans_vertex.create cfg.DBL_MAX
    progs := fun _ => kmeans_vertex_program.create }

/-- Lines 1087-1094: `g_iter = 0`, `g_prune_init = true` when the centroids come from
Forgy, k-means++ or the caller, `g_stage = ESTEP`. -/
def estep_entry (init : String) (centers : Bool) (e : engine α V) : engine α V :=
  { e with
      g :=
        { e.g with
            g_iter := 0
            g_prune_init :=
              if init = "forgy" ∨ init = "kmeanspp" ∨ centers = true then true
              else e.g.g_prune_init
            g_stage := stage_t.ESTEP } }

/-- Lines 1136-1152: the result handed to the caller. The log line of a converged
run is `"K-means converged in " << ++g_iter`, which increments `g_iter` when the
record is written (`log_info`); `get_membership` collects `get_result()`, the
`cluster_id` of every vertex. -/
def cluster_result (log_info : Bool) (num_cols : Nat) (e : engine α V) : cluster_t V :=
  { nrow := e.g.NUM_ROWS
    ncol := num_cols
    iters :=
      if e.g.g_converged = true ∧ log_info = true then (e.g.g_iter + 1) % UINT_MOD
      else e.g.g_iter
    k := e.g.K
    assignments := fun r => (e.verts r).cluster_id
    assignment_count := e.g.g_num_members_v
    means := e.g.g_clusters.means }

/-- The function `compute_min_triangle_sem_kmeans`. The graph engine is not part of
the sources: `max_vertex_id` is what `mat->get_max_vertex_id()` returns,
`init_passes` stands for the initialisation runs of lines 1007-1073 (no caller
centres) and `start_all` for the E-step run of lines 1096-1099; a run that does not
return is `none`. The result is the fatal exit of the parameter checks, or what is
handed to the caller. -/
def compute_min_triangle_sem_kmeans (cfg : setting α V) (NDEBUG log_info : Bool)
    (max_vertex_id : Nat) (prev0 : Nat → V) (table0 : Nat → Nat → α)
    (k : Nat) (init : String) (max_iters : Nat) (tolerance : α) (num_cols : Nat)
    (centers : Option (Nat → V)) (cache_size_gb : α) (rc_update_start_interval : Nat)
    (init_passes start_all : engine α V → Option (engine α V)) :
    Except fatal_exit (Option (cluster_t V)) :=
  match check_params NDEBUG k init centers.isSome max_vertex_id num_cols with
  | Except.error f => Except.error f
  | Except.ok kn =>
    Except.ok
      ((match centers with
        | some _ =>
          some (var_init cfg kn.1 kn.2 max_iters tolerance centers cache_size_gb
            rc_update_start_interval prev0 table0)
        | none =>
          init_passes (var_init cfg kn.1 kn.2 max_iters tolerance centers cache_size_gb
            rc_update_start_interval prev0 table0)).bind fun e1 =>
        (if 0 < max_iters then start_all (estep_entry init centers.isSome e1)
         else some (estep_entry init centers.isSome e1)).map
          (cluster_result log_info num_cols))

end Entry

/-- The function `compute_triangle_sem_kmeans` up to the parameter checks (lines
489-523); `run K NUM_ROWS` stands for the rest of the function (set-up,
initialisation and iterations, from line 525). -/
def compute_triangle_sem_kmeans {R : Type} (NDEBUG : Bool) (max_vertex_id : Nat)
    (k : Nat) (init : String) (num_cols : Nat) (centers : Bool) (run : Nat → Nat → R) :
    Except fatal_exit R :=
  match check_params NDEBUG k init centers max_vertex_id num_cols with
  | Except.error f => Except.error f
  | Except.ok kn => Except.ok (run kn.1 kn.2)

/-! ## Forgy initialisation (min_triangle_sem_kmeans.cpp, lines 1026-1042 and 423-431) -/

section Forgy

variable {α : Type} [LinearOrderedField α] {V : Type} [AddCommGroup V] [Module α V]

/-- The loop of lines 1035-1039: for `cl = 0 .. K-1`, `id = distribution(generator)`,
`g_init_hash[id] = cl`, `init_ids.push_back(id)`. `draw cl` is the id drawn from
`uniform_int_distribution(0, NUM_ROWS-1)` in turn `cl`. The state is the map
`g_init_hash` (`none` for an absent key) and the vector `init_ids`. -/
def forgy_select (K : Nat) (draw : Nat → Nat) (g_init_hash : Nat → Option Nat) :
    (Nat → Option Nat) × List Nat :=
  (List.range K).foldl
    (fun st cl => (Function.update st.1 (draw cl) (some cl), st.2 ++ [draw cl]))
    (g_init_hash, [])

/-- The case `FORGY` of `kmeans_vertex::run_init` (lines 423-431 and 507-516):
`g_clusters->set_mean(row, g_init_hash[my_id])`; `operator[]` of an absent key
gives 0. -/
def run_init_forgy (g_init_hash : Nat → Option Nat) (my_id : Nat) (row : V)
    (g : globals α V) : globals α V :=
  { g with
      g_clusters :=
        { g.g_clusters with
          toclusters := g.g_clusters.toclusters.set_mean row ((g_init_hash my_id).getD 0) } }

/-- The Forgy initialisation of lines 1026-1042: the ids are drawn, the run
`mat->start(&init_ids.front(), K)` delivers the row of every vertex of `init_ids` to
`run_init` (a vertex listed twice sets the same centroid twice), then
`g_io_reqs++`. -/
def forgy_init (cfg : setting α V) (draw : Nat → Nat) (e : engine α V) : engine α V :=
  { e with
      g :=
        { ((forgy_select e.g.K draw (fun _ => none)).2.foldl
            (fun g id =>
              run_init_forgy (forgy_select e.g.K draw (fun _ => none)).1 id (cfg.data id) g)
            { e.g with g_stage := stage_t.INIT }) with
          g_io_reqs := (e.g.g_io_reqs + 1) % 2 ^ 64 } }

end Forgy

/-! ## Accessors of the s-values and of the distance table -/

section Accessors

variable {α : Type} [LinearOrderedField α] {V : Type}

/-- Modelled from the spec: `prune_clusters::get_s_val(c)` (libkcommon, not part of the
sources) returns the s-value `s[c]` of cluster `c`. -/
def prune_clusters.get_s_val (g : prune_clusters α V) (c : Nat) : α := g.s_val c

/-- Modelled from the spec: `dist_matrix::get_min_dist(i)` (libkcommon, not part of the
sources) is the spec's `min_half_dist(i)`, which "returns `min_{j≠i} D[i][j]/2`", over
the table `get` of half distances. -/
def get_min_dist (DBL_MAX : α) (get : Nat → Nat → α) (K i : Nat) : α :=
  min_half_dist DBL_MAX get K i

end Accessors

/-! ## k-means++ initialisation of the minimized engine (min_triangle_sem_kmeans.cpp,
lines 225-312, 432-470, 524-560 and 1044-1070) -/

/-- The state of the k-means++ initialisation: the globals, the vertex of every row,
the array `g_kmspp_distance` and, for every thread, the field `pt_cuml_sum` of its
`kmeanspp_vertex_program`. -/
structure kmspp_engine (α V : Type) where
  g : globals α V
  verts : Nat → kmeans_vertex α
  g_kmspp_distance : Nat → α
  pt_cuml_sum : Nat → α

section KmsppInit

variable {α : Type} [LinearOrderedField α] {V : Type} [AddCommGroup V] [Module α V]

/-- The case `PLUSPLUS`, stage `ADDMEAN`, of `kmeans_vertex::run_init` (lines 436-446
and 528-538) for the vertex `my_id`: `set_cluster_id(g_kmspp_cluster_idx)`,
`g_kmspp_distance[my_id] = 0`, `g_clusters->add_member(row, g_kmspp_cluster_idx)`,
`set_dist(0)`; all vertices are activated for the next iteration. -/
def run_init_addmean (row : V) (e : kmspp_engine α V) (my_id : Nat) : kmspp_engine α V :=
  { e with
      verts := Function.update e.verts my_id
        { (e.verts my_id) with cluster_id := e.g.g_kmspp_cluster_idx, dist := 0 }
      g_kmspp_distance := Function.update e.g_kmspp_distance my_id 0
      g :=
        { e.g with
            g_clusters :=
              { e.g.g_clusters with
                toclusters := e.g.g_clusters.toclusters.add_member row e.g.g_kmspp_cluster_idx } } }

/-- The case `PLUSPLUS`, stage `DIST`, of `kmeans_vertex::run_init` (lines 447-467 and
539-559) on the vertex `vk.1` with `g_kmspp_distance[my_id] = vk.2`: the skip test
against `g_cluster_dist->get(g_kmspp_cluster_idx, cluster_id)`, else the distance to
the new centre, kept when strictly smaller. Returns the vertex, the new
`g_kmspp_distance[my_id]` and the value given to `pt_cuml_sum_peq`. -/
def run_init_dist (dist_comp_raw : V → V → α) (g : globals α V) (row : V)
    (vk : kmeans_vertex α × α) : (kmeans_vertex α × α) × α :=
  if vk.1.cluster_id ≠ INVALID_CLUST_ID ∧
      vk.2 ≤ g.g_cluster_dist g.g_kmspp_cluster_idx vk.1.cluster_id then (vk, vk.2)
  else if dist_comp_raw row (g.g_clusters.means g.g_kmspp_cluster_idx) < vk.2 then
    (({ vk.1 with cluster_id := g.g_kmspp_cluster_idx
                  dist := dist_comp_raw row (g.g_clusters.means g.g_kmspp_cluster_idx) },
      dist_comp_raw row (g.g_clusters.means g.g_kmspp_cluster_idx)),
      dist_comp_raw row (g.g_clusters.means g.g_kmspp_cluster_idx))
  else (vk, vk.2)

/-- What the engine does with one active row while `g_stage = INIT` and the
initialisation is k-means++: `run(prog)` and, when the row is served from the cache
or delivered after a request, `run_init` in stage `DIST`. The state is the vertex,
`g_kmspp_distance[my_id]` and the `pt_cuml_sum` of the thread of the row. -/
def kmspp_dist_row (dist_comp_raw : V → V → α) (g : globals α V) (cache_hit : Bool) (row : V)
    (st : kmeans_vertex α × α × α) : kmeans_vertex α × α × α :=
  match (st.1.run g cache_hit).2.2 with
  | run_outcome.kmspp_skip d => ((st.1.run g cache_hit).1, st.2.1, st.2.2 + d)
  | run_outcome.cache_row =>
    ((run_init_dist dist_comp_raw g row ((st.1.run g cache_hit).1, st.2.1)).1.1,
      (run_init_dist dist_comp_raw g row ((st.1.run g cache_hit).1, st.2.1)).1.2,
      st.2.2 + (run_init_dist dist_comp_raw g row ((st.1.run g cache_hit).1, st.2.1)).2)
  | run_outcome.request =>
    ((run_init_dist dist_comp_raw g row ((st.1.run g cache_hit).1, st.2.1)).1.1,
      (run_init_dist dist_comp_raw g row ((st.1.run g cache_hit).1, st.2.1)).1.2,
      st.2.2 + (run_init_dist dist_comp_raw g row ((st.1.run g cache_hit).1, st.2.1)).2)
  | _ => ((st.1.run g cache_hit).1, st.2.1, st.2.2)

/-- The engine runs row `r` in an iteration of stage `DIST`. -/
def kmspp_dist_step (cfg : setting α V) (cache_hit : Nat → Bool) (e : kmspp_engine α V)
    (r : Nat) : kmspp_engine α V :=
  { e with
      verts := Function.update e.verts r
        (kmspp_dist_row cfg.dist_comp_raw e.g (cache_hit r) (cfg.data r)
          (e.verts r, e.g_kmspp_distance r, e.pt_cuml_sum (cfg.owner r))).1
      g_kmspp_distance := Function.update e.g_kmspp_distance r
        (kmspp_dist_row cfg.dist_comp_raw e.g (cache_hit r) (cfg.data r)
          (e.verts r, e.g_kmspp_distance r, e.pt_cuml_sum (cfg.owner r))).2.1
      pt_cuml_sum := Function.update e.pt_cuml_sum (cfg.owner r)
        (kmspp_dist_row cfg.dist_comp_raw e.g (cache_hit r) (cfg.data r)
          (e.verts r, e.g_kmspp_distance r, e.pt_cuml_sum (cfg.owner r))).2.2 }

/-- An iteration of stage `DIST`, rows only: every row of `order` is run. -/
def kmspp_dist_pass (cfg : setting α V) (cache_hit : Nat → Bool) (order : List Nat)
    (e : kmspp_engine α V) : kmspp_engine α V :=
  order.foldl (kmspp_dist_step cfg cache_hit) e

/-- An iteration of stage `ADDMEAN`, rows only: the one active vertex `r` runs
`run(prog)`, which requests the row or finds it in the cache, then `run_init`. -/
def kmspp_addmean (cfg : setting α V) (cache_hit : Bool) (e : kmspp_engine α V) (r : Nat) :
    kmspp_engine α V :=
  match ((e.verts r).run e.g cache_hit).2.2 with
  | run_outcome.cache_row => run_init_addmean (cfg.data r) e r
  | run_outcome.request => run_init_addmean (cfg.data r) e r
  | _ => e

/-- The method `kmeanspp_vertex_program::run_on_iteration_end` (lines 268-295) for the
worker that crosses the barrier, at the end of an iteration of stage `ADDMEAN`: the
distance table is computed and the stage becomes `DIST`. -/
def kmspp_end_addmean (cfg : setting α V) (e : kmspp_engine α V) : kmspp_engine α V :=
  { e with
      g :=
        { e.g with
            g_cluster_dist := (compute_dist cfg.eucl_dist cfg.DBL_MAX e.g.K e.g.g_clusters).1
            g_clusters := (compute_dist cfg.eucl_dist cfg.DBL_MAX e.g.K e.g.g_clusters).2
            g_kmspp_stage := kmspp_stage_t.DIST } }

/-- The method `kmeanspp_vertex_program::run_on_iteration_end` for the worker that
crosses the barrier, at the end of an iteration of stage `DIST`. With
`g_kmspp_cluster_idx + 1 < K`: `g_io_reqs += NUM_ROWS + 1`, `manage_cache` when the
cache is enabled, and `kmeanspp_get_next_cluster_id` with the draw `u`, which resets
the sums of the programs and increments `g_kmspp_cluster_idx`; the row returned is
activated. The stage becomes `ADDMEAN`. The result is `none` when `manage_cache`
divides by zero or no row is returned; the second component is the activated row. -/
def kmspp_end_dist (cfg : setting α V) (NDEBUG : Bool) (RAND_MAX : Nat) (u : α)
    (e : kmspp_engine α V) : Option (kmspp_engine α V × Option Nat) :=
  if (e.g.g_kmspp_cluster_idx + 1) % UINT_MOD < e.g.K then
    (if e.g.cache.g_row_cache.isSome then manage_cache e.g.cache else some e.g.cache).bind
      fun c =>
        match kmeanspp_get_next_cluster_id NDEBUG RAND_MAX e.g.NUM_ROWS e.g_kmspp_distance
            ((List.range cfg.nthread).map e.pt_cuml_sum) u with
        | kmspp_pick.row r =>
          some
            ({ e with
                g :=
                  { e.g with
                      g_io_reqs := (e.g.g_io_reqs + (e.g.NUM_ROWS + 1) % UINT_MOD) % 2 ^ 64
                      cache := c
                      g_kmspp_cluster_idx := (e.g.g_kmspp_cluster_idx + 1) % UINT_MOD
                      g_kmspp_stage := kmspp_stage_t.ADDMEAN }
                pt_cuml_sum := fun thd => if thd < cfg.nthread then 0 else e.pt_cuml_sum thd },
              some r)
        | _ => none
  else some ({ e with g := { e.g with g_kmspp_stage := kmspp_stage_t.ADDMEAN } }, none)

/-- Lines 1044-1070: the start of the k-means++ initialisation from the state `e` after
the set-up. `g_kmspp_distance` is filled with the maximum double,
`g_kmspp_cluster_idx = 0`, the first centre `first` is drawn and
`g_kmspp_distance[first] = 0`, the stage is `ADDMEAN`, and the run is started with new
programs (`pt_cuml_sum = 0`). -/
def kmspp_start (cfg : setting α V) (e : engine α V) (first : Nat) : kmspp_engine α V :=
  { g := { e.g with g_stage := stage_t.INIT
                    g_kmspp_cluster_idx := 0
                    g_kmspp_stage := kmspp_stage_t.ADDMEAN }
    verts := e.verts
    g_kmspp_distance := Function.update (fun _ => cfg.DBL_MAX) first 0
    pt_cuml_sum := fun _ => 0 }

/-- The iteration of stage `ADDMEAN` for the centre row `next`, its end-of-iteration
hook, and the rows of the following iteration of stage `DIST`. -/
def kmspp_phase (cfg : setting α V) (cache_hit : Nat → Bool) (order : List Nat)
    (e : kmspp_engine α V) (next : Nat) : kmspp_engine α V :=
  kmspp_dist_pass cfg cache_hit order
    (kmspp_end_addmean cfg (kmspp_addmean cfg (cache_hit next) e next))

/-- The state of the k-means++ initialisation after the rows of the `DIST` iteration
for the centre index `j`, before its end-of-iteration hook. `u j` is the draw of
`kmeanspp_get_next_cluster_id` after the phase `j`, `cache_hit j r` says whether row
`r` is found in the cache during the phase `j`, `order j` lists the rows in the order
in which the engine runs them. The result is `none` when the initialisation stops
before. -/
def kmspp_run (cfg : setting α V) (NDEBUG : Bool) (RAND_MAX : Nat) (u : Nat → α)
    (cache_hit : Nat → Nat → Bool) (order : Nat → List Nat) (e0 : kmspp_engine α V)
    (first : Nat) : Nat → Option (kmspp_engine α V)
  | 0 => some (kmspp_phase cfg (cache_hit 0) (order 0) e0 first)
  | j + 1 =>
    (kmspp_run cfg NDEBUG RAND_MAX u cache_hit order e0 first j).bind fun e =>
      (kmspp_end_dist cfg NDEBUG RAND_MAX (u j) e).bind fun en =>
        en.2.map fun next => kmspp_phase cfg (cache_hit (j + 1)) (order (j + 1)) en.1 next

end KmsppInit

section KmsppInvariant

variable {α : Type} [LinearOrderedField α] {V : Type}

end KmsppInvariant

/-! ## The E-step run of the engine: self-activated rows and end-of-iteration hooks -/

section EngineRun

variable {α : Type} [LinearOrderedField α] {V : Type} [AddCommGroup V] [Module α V]

/-- The engine runs the active row `r` in an iteration of stage `ESTEP` (`estep_row`);
the row is active in the next iteration when its call of `run` activated it
(`prog.activate_vertex(my_id)`, line 329). The second component collects the rows
activated for the next iteration. -/
def estep_step_act (cfg : setting α V) (cache_hit : Nat → Bool)
    (st : engine α V × List Nat) (r : Nat) : engine α V × List Nat :=
  (pass_step (fun g r vp => estep_row cfg.dist_comp_raw g (cache_hit r) (cfg.data r) vp)
      cfg.owner st.1 r,
    if ((st.1.verts r).run st.1.g (cache_hit r)).2.1 = true then st.2 ++ [r] else st.2)

/-- One iteration of the engine on the state `st.1` with the active rows `st.2`: the
active rows are run, then every partition calls `run_on_iteration_end`. The result is
the new state with the rows activated for the next iteration, `none` when
`manage_cache` divides by zero. -/
def engine_step (cfg : setting α V) (cache_hit : Nat → Bool) (st : engine α V × List Nat) :
    Option (engine α V × List Nat) :=
  (end_of_pass cfg (st.2.foldl (estep_step_act cfg cache_hit) (st.1, [])).1).map
    fun e2 => (e2, (st.2.foldl (estep_step_act cfg cache_hit) (st.1, [])).2)

/-- The state of the engine run after `k` iterations: iterations are run as long as a
row is active. `cache_hit k r` says whether row `r` is found in the row cache in the
iteration `k`. -/
def engine_after (cfg : setting α V) (cache_hit : Nat → Nat → Bool) :
    Nat → engine α V × List Nat → Option (engine α V × List Nat)
  | 0, st => some st
  | k + 1, st =>
    (engine_after cfg cache_hit k st).bind fun s =>
      if s.2.isEmpty then some s else engine_step cfg (cache_hit k) s

/-- The engine run `mat->start_all(...); mat->wait4complete()` of lines 1095-1099 from
the state `e` with the rows `order` active: the state in which no row is active, found
within `fuel` iterations; `none` when `manage_cache` divides by zero or rows are still
active after `fuel` iterations. -/
def engine_run (cfg : setting α V) (cache_hit : Nat → Nat → Bool) (fuel : Nat)
    (order : List Nat) (e : engine α V) : Option (engine α V) :=
  (engine_after cfg cache_hit fuel (e, order)).bind fun s =>
    if s.2.isEmpty then some s.1 else none

/-- The invariant of the engine run after `k` iterations, for the iteration limit `M`
and the cache globals `c0` at the start of the run: stage `ESTEP`, a rearmed barrier,
`g_iter ≤ M`, and either the run has not converged, rows are active, `g_iter = k`,
`manage_cache` was called `k` times and, at the limit, no change is counted; or
`g_converged` is set and no row is active or the run converged in the last iteration. -/
def engine_inv (cfg : setting α V) (c0 : CacheGlobals) (M k : Nat)
    (s : engine α V × List Nat) : Prop :=
  s.1.g.g_kmspp_stage = kmspp_stage_t.ADDMEAN ∧ s.1.g.g_stage = stage_t.ESTEP ∧
  s.1.g.iter_barrier = barrier.create cfg.nthread ∧ s.1.g.g_max_iters = M ∧
  s.1.g.g_num_changed < UINT_MOD ∧ s.1.g.g_iter ≤ M ∧
  ((s.1.g.g_converged = false ∧ s.2 ≠ [] ∧ s.1.g.g_iter = k ∧
      manage_cache_n k c0 = some s.1.g.cache ∧
      (k = M → s.1.g.g_num_changed = 0 ∧
        ∀ t, t < cfg.nthread → (s.1.progs t).pt_changed = 0)) ∨
    (s.1.g.g_converged = true ∧ (s.2 = [] ∨ k ≤ s.1.g.g_iter + 1)))

end EngineRun

/-! ## The full triangle variant (triangle_sem_kmeans.cpp): rows with lower bounds -/

namespace triangle

/-- The fields of `kmeans_vertex` of `triangle_sem_kmeans.cpp` (lines 56-61) and of its
base class: `cluster_id`, the lower bounds `lwr_bnd` (a vector of `K` doubles, here a
function of the cluster index), `recalculated` and `dist`. -/
structure kmeans_vertex (α : Type) where
  cluster_id : Nat
  lwr_bnd : Nat → α
  recalculated : Bool
  dist : α

/-- The file-scope variables of `triangle_sem_kmeans.cpp` (lines 36-49) that
`kmeans_vertex::run` and `run_distance` read. -/
structure globals (α V : Type) where
  K : Nat
  g_prune_init : Bool
  g_cluster_dist : Nat → Nat → α
  g_clusters : prune_clusters α V
  g_kmspp_cluster_idx : Nat
  g_kmspp_stage : kmspp_stage_t
  g_stage : stage_t

section Rows

variable {α : Type} [LinearOrderedField α] {V : Type}

/-- The constructor `kmeans_vertex(id)` (lines 64-68): `lwr_bnd.assign(K, 0)`,
`recalculated = false`, `dist` the maximum double. -/
def kmeans_vertex.create (DBL_MAX : α) : kmeans_vertex α :=
  { cluster_id := INVALID_CLUST_ID, lwr_bnd := fun _ => 0, recalculated := false,
    dist := DBL_MAX }

/-- One turn of the loop of lines 188-193 in `run`: with `prev_dist[cl] > 0` the lower
bound of cluster `cl` becomes `max(lwr_bnd[cl] - prev_dist[cl], 0)`. -/
def loosen_turn (prev_dist : Nat → α) (v : kmeans_vertex α) (cl : Nat) : kmeans_vertex α :=
  if prev_dist cl > 0 then
    { v with lwr_bnd := Function.update v.lwr_bnd cl (max (v.lwr_bnd cl - prev_dist cl) 0) }
  else v

/-- The method `kmeans_vertex::run(prog)` (lines 176-204). Returns the vertex and how
the call ended: the skip of the k-means++ `DIST` stage, the lemma-1 skip, or the
request of the row. -/
def kmeans_vertex.run (g : globals α V) (v : kmeans_vertex α) :
    kmeans_vertex α × run_outcome α :=
  if g.g_kmspp_stage = kmspp_stage_t.DIST then
    if v.cluster_id ≠ INVALID_CLUST_ID ∧
        v.dist ≤ g.g_cluster_dist v.cluster_id g.g_kmspp_cluster_idx then
      (v, run_outcome.kmspp_skip v.dist)
    else (v, run_outcome.request)
  else if g.g_stage ≠ stage_t.INIT then
    let v1 : kmeans_vertex α := { v with recalculated := false }
    if g.g_prune_init = false then
      let v2 : kmeans_vertex α :=
        (List.range g.K).foldl (loosen_turn g.g_clusters.prev_dist) v1
      let v3 : kmeans_vertex α :=
        { v2 with dist := v2.dist + g.g_clusters.prev_dist v2.cluster_id }
      if v3.dist ≤ g.g_clusters.s_val v3.cluster_id then (v3, run_outcome.lemma1_skip)
      else (v3, run_outcome.request)
    else (v1, run_outcome.request)
  else (v, run_outcome.request)

/-- One turn of the loop of lines 302-308 (`g_prune_init` set): the distance to
centroid `cl` is computed and kept when it is strictly smaller than `dist`; the lower
bounds are not written. -/
def prune_init_turn (dist_comp : V → V → α) (means : Nat → V) (row : V)
    (v : kmeans_vertex α) (cl : Nat) : kmeans_vertex α :=
  let udist := dist_comp row (means cl)
  if udist < v.dist then { v with dist := udist, cluster_id := cl } else v

/-- One turn of the loop of lines 310-355 (`g_prune_init` not set): test 3a against the
half distance `get cluster_id cl`, test 3b against `lwr_bnd[cl]`, tightening of `dist`
and of `lwr_bnd[cluster_id]` when not yet `recalculated`, test 3c, test 4 against
`lwr_bnd[cl]`, and the distance computation to centroid `cl`, stored in `lwr_bnd[cl]`. -/
def steady_turn (dist_comp : V → V → α) (means : Nat → V) (get : Nat → Nat → α)
    (row : V) (v : kmeans_vertex α) (cl : Nat) : kmeans_vertex α :=
  if v.dist ≤ get v.cluster_id cl then v
  else if v.dist ≤ v.lwr_bnd cl then v
  else
    let v1 : kmeans_vertex α :=
      if v.recalculated = false then
        { v with lwr_bnd := Function.update v.lwr_bnd v.cluster_id
                   (dist_comp row (means v.cluster_id))
                 dist := dist_comp row (means v.cluster_id)
                 recalculated := true }
      else v
    if v1.dist ≤ get v1.cluster_id cl then v1
    else if v1.lwr_bnd cl ≥ v1.dist then v1
    else
      let jdist := dist_comp row (means cl)
      let v2 : kmeans_vertex α := { v1 with lwr_bnd := Function.update v1.lwr_bnd cl jdist }
      if jdist < v2.dist then { v2 with dist := jdist, cluster_id := cl } else v2

/-- The loop `for (cl = 0; cl < K; cl++)` of `run_distance`, in either mode. -/
def scan (dist_comp : V → V → α) (g_prune_init : Bool) (K : Nat) (means : Nat → V)
    (get : Nat → Nat → α) (row : V) (v : kmeans_vertex α) : kmeans_vertex α :=
  if g_prune_init then (List.range K).foldl (prune_init_turn dist_comp means row) v
  else (List.range K).foldl (steady_turn dist_comp means get row) v

/-- The lower bounds of the vertex `v` of the row `row` are valid for the centroids
`means`: `0 ≤ lwr_bnd[c] ≤ dist(row, means c)` for every cluster index `c < K`. -/
def lwr_bnd_valid (dist_comp : V → V → α) (means : Nat → V) (row : V) (K : Nat)
    (v : kmeans_vertex α) : Prop :=
  ∀ c, c < K → 0 ≤ v.lwr_bnd c ∧ v.lwr_bnd c ≤ dist_comp row (means c)

end Rows

section Program

variable {α : Type} [LinearOrderedField α] {V : Type} [AddCommGroup V]

/-- The method `kmeans_vertex::run_distance(prog, vertex)` (lines 296-369): the scan,
then the update of the program of the thread. -/
def run_distance (dist_comp : V → V → α) (g_prune_init : Bool) (K : Nat)
    (means : Nat → V) (get : Nat → Nat → α) (row : V)
    (vp : kmeans_vertex α × kmeans_vertex_program V) :
    kmeans_vertex α × kmeans_vertex_program V :=
  let old_cluster_id := vp.1.cluster_id
  let v := scan dist_comp g_prune_init K means get row vp.1
  if g_prune_init then
    (v, vp.2.pt_changed_pp.add_member v.cluster_id row)
  else if old_cluster_id ≠ v.cluster_id then
    (v, vp.2.pt_changed_pp.swap_membership row old_cluster_id v.cluster_id)
  else (v, vp.2)

/-- What the engine does with one row in an iteration of stage `ESTEP`: `run(prog)`
and, when the row is requested, `run_distance` on the delivered row; without
`g_prune_init` the request is counted with `num_requests_pp`. -/
def estep_row (dist_comp : V → V → α) (g : globals α V) (row : V)
    (vp : kmeans_vertex α × kmeans_vertex_program V) :
    kmeans_vertex α × kmeans_vertex_program V :=
  match (vp.1.run g).2 with
  | run_outcome.request =>
    run_distance dist_comp g.g_prune_init g.K g.g_clusters.means g.g_cluster_dist row
      ((vp.1.run g).1, if g.g_prune_init = false then vp.2.num_requests_pp else vp.2)
  | _ => ((vp.1.run g).1, vp.2)

end Program

end triangle

section Refinement

variable {α : Type} [LinearOrderedField α] {V : Type}

/-- The relation between the vertex `w` of a row in the steady-state scan of the full
variant and the vertex `v` of the same row in the scan of the minimized variant: the
same cluster; lower bounds of `w` not above the distances to the centroids; `dist` of
`w` not below the distance to its centroid; and either the same `recalculated` and
`dist`, or only `v` has tightened `dist` to the distance to its centroid. -/
def scan_refines (dist_comp : V → V → α) (means : Nat → V) (row : V) (K : Nat)
    (w : triangle.kmeans_vertex α) (v : kmeans_vertex α) : Prop :=
  w.cluster_id = v.cluster_id ∧
  (∀ c, c < K → w.lwr_bnd c ≤ dist_comp row (means c)) ∧
  dist_comp row (means w.cluster_id) ≤ w.dist ∧
  ((w.recalculated = v.recalculated ∧ w.dist = v.dist) ∨
    (w.recalculated = false ∧ v.recalculated = true ∧
      v.dist = dist_comp row (means v.cluster_id)))

end Refinement


/-! ## Concrete data for the witnesses: rows with one column over the rationals -/

/-- Euclidean distance between two rows with a single column,
`sqrt((a - b)^2) = |a - b|`, on rationals. -/
def dist1 (a b : ℚ) : ℚ := |a - b|

/-- A value standing for `std::numeric_limits<double>::max()` in the witnesses. -/
def DBL_MAX1 : ℚ := 1000000

/-- Two centroids on a line, at `-1` and at `1`. -/
def means_pm1 (c : Nat) : ℚ := if c = 0 then -1 else 1

/-- The table of half distances between the centroids `means`. -/
def half_table (means : Nat → ℚ) (i j : Nat) : ℚ := dist1 (means i) (means j) / 2

/-- One worker thread, rows with one column. -/
def setting1 (data : Nat → ℚ) : setting ℚ ℚ :=
  { dist_comp_raw := dist1
    eucl_dist := dist1
    DBL_MAX := DBL_MAX1
    nthread := 1
    data := data
    owner := fun _ => 0 }

/-- The rows `-3`, `3` and `100`. -/
def rows_a (r : Nat) : ℚ := if r = 0 then -3 else if r = 1 then 3 else 100

/-- The centres `3` and `100`. -/
def centers_a (c : Nat) : ℚ := if c = 0 then 3 else 100

/-- The rows `0` and `1`. -/
def rows_b (r : Nat) : ℚ := if r = 0 then 0 else 1

/-- The centres `0` and `100`. -/
def centers_b (c : Nat) : ℚ := if c = 0 then 0 else 100

/-- The engine before the first E-step pass of a run with caller-supplied centres, one
thread, `max_iters = 10`, tolerance `0`, new vertices and programs, and a
zero-filled shadow and distance table. -/
def engine_with_centers (K N : Nat) (centers : Nat → ℚ) : engine ℚ ℚ :=
  { g := entry_with_centers K N 10 1 0 DBL_MAX1 centers (fun _ => 0) (fun _ _ => 0)
    verts := fun _ => kmeans_vertex.create DBL_MAX1
    progs := fun _ => kmeans_vertex_program.create }

/-- The engine after the first iteration (pass with `g_prune_init` set, then the
M-step) of the run on the rows `0`, `1` with the centres `0`, `100`. -/
def engine_b_after : engine ℚ ℚ :=
  (iteration (setting1 rows_b) (fun _ => false) (List.range 2)
    (engine_with_centers 2 2 centers_b)).getD (engine_with_centers 2 2 centers_b)

/-- Globals of a steady-state E-step pass (`g_stage = ESTEP`, `g_prune_init` as given,
not converged, iteration 0 of 10) over the centroids `means`, with the distance table
and the s-values computed from them, drifts `pd`, no row cache. -/
def globals1 (K N : Nat) (means : Nat → ℚ) (pd : Nat → ℚ) (prune_init : Bool) :
    globals ℚ ℚ :=
  { K := K
    NUM_ROWS := N
    g_prune_init := prune_init
    g_cluster_dist := half_table means
    g_clusters :=
      { means := means
        num_members := fun _ => 0
        complete := fun _ => true
        prev_means := means
        prev_dist := pd
        s_val := fun i => min_half_dist DBL_MAX1 (half_table means) K i }
    g_num_changed := 0
    g_io_reqs := 0
    g_kmspp_cluster_idx := 0
    g_kmspp_stage := kmspp_stage_t.ADDMEAN
    g_stage := stage_t.ESTEP
    g_iter := 0
    g_max_iters := 10
    g_num_members_v := fun _ => 0
    g_tolerance := 0
    g_converged := false
    cache := { g_row_cache := none, g_io_iter := 0, g_cache_update_iter := 5 }
    iter_barrier := barrier.create 1 }

/-- The engine before the first E-step pass of a run with caller-supplied centres and
the row cache enabled with start interval 5, otherwise as `engine_with_centers`. -/
def engine_cached (K N : Nat) (centers : Nat → ℚ) : engine ℚ ℚ :=
  { g :=
      { entry_with_centers K N 10 1 0 DBL_MAX1 centers (fun _ => 0) (fun _ _ => 0) with
        cache := CacheGlobals.start 5 }
    verts := fun _ => kmeans_vertex.create DBL_MAX1
    progs := fun _ => kmeans_vertex_program.create }

/-- The engine after the first iteration of the run with the row cache enabled on the
rows `-1`, `1` with the centres `-1`, `1`: every row is requested (the new cache holds
no row). -/
def engine_pm1_after : engine ℚ ℚ :=
  (iteration (setting1 means_pm1) (fun _ => false) (List.range 2)
    (engine_cached 2 2 means_pm1)).getD (engine_cached 2 2 means_pm1)


/-- Two worker threads, row `r` owned by the thread `r % 2`, rows with one column. -/
def setting2 (data : Nat → ℚ) : setting ℚ ℚ :=
  { dist_comp_raw := dist1
    eucl_dist := dist1
    DBL_MAX := DBL_MAX1
    nthread := 2
    data := data
    owner := fun r => r % 2 }

/-- The state after the set-up of a run without caller-supplied centres on three rows
with `K = 2`, `max_iters = 10`, tolerance `0` and no row cache. -/
def engine_kmspp (cfg : setting ℚ ℚ) : engine ℚ ℚ :=
  var_init cfg 2 3 10 0 none 0 5 (fun _ => 0) (fun _ _ => 0)

/-- The k-means++ initialisation of `engine_kmspp` with the first centre row 0, every
draw `1/2`, `RAND_MAX = 2147483647`, assertions enabled, no row in the cache, and the
rows run in the order 0, 1, 2. -/
def kmspp_run_a (cfg : setting ℚ ℚ) (j : Nat) : Option (kmspp_engine ℚ ℚ) :=
  kmspp_run cfg false 2147483647 (fun _ => 1 / 2) (fun _ _ => false) (fun _ => List.range 3)
    (kmspp_start cfg (engine_kmspp cfg) 0) 0 j

/-- The state of `kmspp_run_a` after the rows of the `DIST` iteration `j`. -/
def kmspp_after (cfg : setting ℚ ℚ) (j : Nat) : kmspp_engine ℚ ℚ :=
  (kmspp_run_a cfg j).getD (kmspp_start cfg (engine_kmspp cfg) 0)



/-- The vertex of the row `-3` in the full variant, assigned to cluster 0 with the
upper bound 5 and the lower bounds 0 and 4 for the centroids `means_pm1`. -/
def triangle_vertex_b : triangle.kmeans_vertex ℚ :=
  { cluster_id := 0, lwr_bnd := fun c => if c = 0 then 0 else 4, recalculated := false,
    dist := 5 }



/-- The engine before the E-step run with the centres `3` and `100` supplied by the
caller, three rows, one thread, tolerance `0` and the iteration limit `max_iters = 1`. -/
def engine_limit : engine ℚ ℚ :=
  { g := entry_with_centers 2 3 1 1 0 DBL_MAX1 centers_a (fun _ => 0) (fun _ _ => 0)
    verts := fun _ => kmeans_vertex.create DBL_MAX1
    progs := fun _ => kmeans_vertex_program.create }



/-- The double nearest to `0.3`: `5404319552844595 / 2^54`, the value that a
tolerance of `0.3` has in the program. It is below `3/10`. -/
def double_0_3 : ℚ := 5404319552844595 / 18014398509481984

/-- Globals at an M-step of a run on ten rows with the tolerance `0.3`: as `globals1`,
with `NUM_ROWS = 10` and `g_tolerance` the double nearest to `0.3`. -/
def globals_tol : globals ℚ ℚ :=
  { globals1 2 10 means_pm1 (fun _ => 0) false with g_tolerance := double_0_3 }

/-- One vertex program that counted three changed rows. -/
def progs_three (_ : Nat) : kmeans_vertex_program ℚ :=
  { pt_changed := 3, pt_clusters := clusters.create, num_reqs := 0 }


end FlashX

/-! # Theorems -/

namespace FlashX

section ScanLemmas

variable {α : Type} [LinearOrder α] {V : Type}

theorem foldl_range_succ {β : Type} (f : β → Nat → β) (b : β) (n : Nat) :
    (List.range (n + 1)).foldl f b = f ((List.range n).foldl f b) n := by
  rw [List.range_succ, List.foldl_append]
  rfl

/-- Invariant of the full scan started from `dist = DBL_MAX`: after the turns
`0 .. j` the vertex holds the first minimiser among the centroids `0 .. j`. -/
theorem prune_init_scan_inv (dcr : V → V → α) (means : Nat → V) (row : V)
    (v : kmeans_vertex α) (K : Nat)
    (hfin : ∀ c, c < K → dcr row (means c) < v.dist) (j : Nat) (hj : j < K) :
    ((List.range (j + 1)).foldl (prune_init_turn dcr means row) v).cluster_id < j + 1 ∧
    ((List.range (j + 1)).foldl (prune_init_turn dcr means row) v).dist =
      dcr row (means ((List.range (j + 1)).foldl (prune_init_turn dcr means row) v).cluster_id) ∧
    (∀ c, c < j + 1 →
      ((List.range (j + 1)).foldl (prune_init_turn dcr means row) v).dist ≤ dcr row (means c)) ∧
    (∀ c, c < ((List.range (j + 1)).foldl (prune_init_turn dcr means row) v).cluster_id →
      ((List.range (j + 1)).foldl (prune_init_turn dcr means row) v).dist < dcr row (means c)) ∧
    ((List.range (j + 1)).foldl (prune_init_turn dcr means row) v).recalculated =
      v.recalculated := by
  induction j with
  | zero =>
    have h0 := hfin 0 hj
    simp [List.range_succ, prune_init_turn, h0]
  | succ n ih =>
    obtain ⟨h1, h2, h3, h4, h5⟩ := ih (by omega)
    rw [foldl_range_succ]
    generalize (List.range (n + 1)).foldl (prune_init_turn dcr means row) v = w at *
    unfold prune_init_turn
    by_cases hlt : dcr row (means (n + 1)) < w.dist
    · rw [if_pos hlt]
      refine ⟨Nat.lt_succ_self _, rfl, ?_, ?_, h5⟩
      · intro c hc
        rcases Nat.lt_succ_iff_lt_or_eq.mp hc with hc' | hc'
        · exact le_of_lt (lt_of_lt_of_le hlt (h3 c hc'))
        · subst hc'; exact le_refl _
      · intro c hc
        exact lt_of_lt_of_le hlt (h3 c hc)
    · rw [if_neg hlt]
      refine ⟨by omega, h2, ?_, h4, h5⟩
      intro c hc
      rcases Nat.lt_succ_iff_lt_or_eq.mp hc with hc' | hc'
      · exact h3 c hc'
      · subst hc'; exact not_lt.mp hlt

end ScanLemmas

section SteadyLemmas

variable {α : Type} [LinearOrderedField α] {V : Type}

/-- Triangle-inequality pruning (Elkan's lemma 1): a bound `ub` on the distance to
centroid `a` that is at most half the distance between `a` and `c` is at most the
distance to `c`. -/
theorem half_dist_skip (d : V → V → α) (hsymm : ∀ a b, d a b = d b a)
    (htri : ∀ a b c, d a c ≤ d a b + d b c) (x ma mc : V) (ub : α)
    (hub : d x ma ≤ ub) (hskip : ub ≤ d ma mc / 2) : ub ≤ d x mc := by
  have h1 := htri ma x mc
  rw [hsymm ma x] at h1
  linarith

end SteadyLemmas

section ScanTheorems

variable {α : Type} [LinearOrderedField α] {V : Type}

/-- Every value folded into a running minimum bounds the result from above. -/
theorem foldl_min_le {β : Type} (f : β → α) (l : List β) (m : α) :
    l.foldl (fun m j => min m (f j)) m ≤ m ∧
    ∀ j, j ∈ l → l.foldl (fun m j => min m (f j)) m ≤ f j := by
  induction l generalizing m with
  | nil => simp
  | cons a t ih =>
    simp only [List.foldl_cons, List.mem_cons]
    obtain ⟨h1, h2⟩ := ih (min m (f a))
    refine ⟨le_trans h1 (min_le_left _ _), ?_⟩
    intro j hj
    rcases hj with rfl | hj
    · exact le_trans h1 (min_le_right _ _)
    · exact h2 j hj

/-- The s-value is at most every half distance to another centroid. -/
theorem min_half_dist_le (DBL_MAX : α) (get : Nat → Nat → α) (K i j : Nat) (hj : j < K)
    (hne : j ≠ i) : min_half_dist DBL_MAX get K i ≤ get i j := by
  unfold min_half_dist
  apply (foldl_min_le (fun j => get i j) _ DBL_MAX).2 j
  simp [hj, hne]

end ScanTheorems

section RunDistanceTheorems

variable {α : Type} [LinearOrderedField α] {V : Type}

theorem run_distance_fst [AddCommGroup V] (d : V → V → α) (pi : Bool) (K : Nat) (means : Nat → V)
    (get : Nat → Nat → α) (row : V) (vp : kmeans_vertex α × kmeans_vertex_program V) :
    (run_distance d pi K means get row vp).1 = scan d pi K means get row vp.1 := by
  simp only [run_distance]
  split_ifs <;> rfl

/-- The full scan started above every distance ends on the first minimiser. -/
theorem prune_init_scan_argmin (d : V → V → α) (K : Nat) (means : Nat → V)
    (get : Nat → Nat → α) (row : V) (v : kmeans_vertex α) (hK : 0 < K)
    (hfin : ∀ c, c < K → d row (means c) < v.dist) :
    (scan d true K means get row v).cluster_id < K ∧
    (∀ c, c < K → d row (means (scan d true K means get row v).cluster_id) ≤
      d row (means c)) ∧
    (∀ c, c < (scan d true K means get row v).cluster_id →
      d row (means (scan d true K means get row v).cluster_id) < d row (means c)) ∧
    (scan d true K means get row v).dist =
      d row (means (scan d true K means get row v).cluster_id) := by
  obtain ⟨k, rfl⟩ : ∃ k, K = k + 1 := ⟨K - 1, by omega⟩
  obtain ⟨h1, h2, h3, h4, _⟩ := prune_init_scan_inv d means row v (k + 1) hfin k (by omega)
  have hs : scan d true (k + 1) means get row v =
      (List.range (k + 1)).foldl (prune_init_turn d means row) v := by
    simp [scan]
  rw [hs]
  refine ⟨h1, ?_, ?_, h2⟩
  · intro c hc
    rw [← h2]
    exact h3 c hc
  · intro c hc
    rw [← h2]
    exact h4 c hc

/-- The lemma-1 test: a bound that is at most the s-value of the assigned centroid
leaves no other centroid closer. -/
theorem lemma1_nearest (d : V → V → α) (hsymm : ∀ a b, d a b = d b a)
    (htri : ∀ a b c, d a c ≤ d a b + d b c) (DBL_MAX : α) (K : Nat) (means : Nat → V)
    (get : Nat → Nat → α)
    (hget : ∀ i j, i < K → j < K → i ≠ j → get i j = d (means i) (means j) / 2)
    (row : V) (a : Nat) (ub : α) (ha : a < K) (hub : d row (means a) ≤ ub)
    (hskip : ub ≤ min_half_dist DBL_MAX get K a) :
    ∀ c, c < K → d row (means a) ≤ d row (means c) := by
  intro c hc
  by_cases hca : c = a
  · rw [hca]
  · have h1 := min_half_dist_le DBL_MAX get K a c hc hca
    rw [hget a c ha hc (Ne.symm hca)] at h1
    exact le_trans hub (half_dist_skip d hsymm htri row _ _ ub hub (le_trans hskip h1))

/-- In a steady-state pass `run` adds the drift to `dist` and stops at the lemma-1
test when it succeeds. -/
theorem run_steady_skip (g : globals α V) (cache_hit : Bool) (v : kmeans_vertex α)
    (hkm : g.g_kmspp_stage = kmspp_stage_t.ADDMEAN) (hst : g.g_stage = stage_t.ESTEP)
    (hconv : g.g_converged = false) (hit : g.g_iter < g.g_max_iters)
    (hpi : g.g_prune_init = false)
    (hskip : v.dist + g.g_clusters.prev_dist v.cluster_id ≤ g.g_clusters.s_val v.cluster_id) :
    v.run g cache_hit =
      ({ cluster_id := v.cluster_id
         dist := v.dist + g.g_clusters.prev_dist v.cluster_id
         recalculated := false }, true, run_outcome.lemma1_skip) := by
  simp [kmeans_vertex.run, hkm, hst, hconv, hit, hpi, hskip]

/-- In a steady-state pass `run` adds the drift to `dist` and fetches the row when
the lemma-1 test fails. -/
theorem run_steady_fetch (g : globals α V) (cache_hit : Bool) (v : kmeans_vertex α)
    (hkm : g.g_kmspp_stage = kmspp_stage_t.ADDMEAN) (hst : g.g_stage = stage_t.ESTEP)
    (hconv : g.g_converged = false) (hit : g.g_iter < g.g_max_iters)
    (hpi : g.g_prune_init = false)
    (hskip : ¬ v.dist + g.g_clusters.prev_dist v.cluster_id ≤
      g.g_clusters.s_val v.cluster_id) :
    v.run g cache_hit =
      ({ cluster_id := v.cluster_id
         dist := v.dist + g.g_clusters.prev_dist v.cluster_id
         recalculated := false }, true, run_fetch g cache_hit) := by
  simp [kmeans_vertex.run, hkm, hst, hconv, hit, hpi, hskip]

end RunDistanceTheorems

/-! ## Facts about the concrete data -/

theorem dist1_symm (a b : ℚ) : dist1 a b = dist1 b a := abs_sub_comm a b

theorem dist1_tri (a b c : ℚ) : dist1 a c ≤ dist1 a b + dist1 b c := abs_sub_le a b c

/-! ## The E-step claims -/

section EStepClaims

variable {α : Type} [LinearOrderedField α] {V : Type} [AddCommGroup V]

/-- C3. Lemma-1 skip. In a steady-state pass (`g_prune_init = false`, not converged,
below the iteration limit), with the table holding the half distances between the
centroids and `s_val` of the assigned centroid their minimum over the other
centroids: if the bound that `run` compares, `dist + prev_dist[cluster_id]`, is at
least the distance to the assigned centroid and at most its s-value, then the
assigned centroid is at least as close as every other one, `run` ends in the
lemma-1 skip without a row request, and keeps the assignment; the partition program
is left as it was. -/
theorem C3_lemma1_skip_sound (d : V → V → α) (hsymm : ∀ a b, d a b = d b a)
    (htri : ∀ a b c, d a c ≤ d a b + d b c) (DBL_MAX : α) (g : globals α V)
    (cache_hit : Bool) (row : V) (v : kmeans_vertex α) (prog : kmeans_vertex_program V)
    (hkm : g.g_kmspp_stage = kmspp_stage_t.ADDMEAN) (hst : g.g_stage = stage_t.ESTEP)
    (hconv : g.g_converged = false) (hit : g.g_iter < g.g_max_iters)
    (hpi : g.g_prune_init = false)
    (hget : ∀ i j, i < g.K → j < g.K → i ≠ j →
      g.g_cluster_dist i j = d (g.g_clusters.means i) (g.g_clusters.means j) / 2)
    (hs : g.g_clusters.s_val v.cluster_id =
      min_half_dist DBL_MAX g.g_cluster_dist g.K v.cluster_id)
    (ha : v.cluster_id < g.K)
    (hub : d row (g.g_clusters.means v.cluster_id) ≤
      v.dist + g.g_clusters.prev_dist v.cluster_id)
    (hskip : v.dist + g.g_clusters.prev_dist v.cluster_id ≤
      g.g_clusters.s_val v.cluster_id) :
    (∀ c, c < g.K →
      d row (g.g_clusters.means v.cluster_id) ≤ d row (g.g_clusters.means c)) ∧
    (v.run g cache_hit).2.2 = run_outcome.lemma1_skip ∧
    (v.run g cache_hit).1.cluster_id = v.cluster_id ∧
    (estep_row d g cache_hit row (v, prog)).1.cluster_id = v.cluster_id ∧
    (estep_row d g cache_hit row (v, prog)).2 = prog := by
  have hrun := run_steady_skip g cache_hit v hkm hst hconv hit hpi hskip
  refine ⟨?_, by rw [hrun], by rw [hrun], ?_, ?_⟩
  · rw [hs] at hskip
    exact lemma1_nearest d hsymm htri DBL_MAX g.K g.g_clusters.means g.g_cluster_dist hget
      row v.cluster_id _ ha hub hskip
  · unfold estep_row
    simp only [hrun]
  · unfold estep_row
    simp only [hrun]

/-- Witness of C3: the row `1/2` assigned to the centroid `1` with bound `1/2`, the
other centroid at `-1`, s-value `1`. -/
theorem C3_lemma1_skip_sound_witness :
    (∀ c, c < (globals1 2 2 means_pm1 (fun _ => 0) false).K →
      dist1 (1 / 2) ((globals1 2 2 means_pm1 (fun _ => 0) false).g_clusters.means
        (⟨1, 1 / 2, false⟩ : kmeans_vertex ℚ).cluster_id) ≤
      dist1 (1 / 2) ((globals1 2 2 means_pm1 (fun _ => 0) false).g_clusters.means c)) ∧
    ((⟨1, 1 / 2, false⟩ : kmeans_vertex ℚ).run
      (globals1 2 2 means_pm1 (fun _ => 0) false) false).2.2 = run_outcome.lemma1_skip ∧
    ((⟨1, 1 / 2, false⟩ : kmeans_vertex ℚ).run
      (globals1 2 2 means_pm1 (fun _ => 0) false) false).1.cluster_id =
        (⟨1, 1 / 2, false⟩ : kmeans_vertex ℚ).cluster_id ∧
    (estep_row dist1 (globals1 2 2 means_pm1 (fun _ => 0) false) false (1 / 2)
      (⟨1, 1 / 2, false⟩, kmeans_vertex_program.create)).1.cluster_id =
        (⟨1, 1 / 2, false⟩ : kmeans_vertex ℚ).cluster_id ∧
    (estep_row dist1 (globals1 2 2 means_pm1 (fun _ => 0) false) false (1 / 2)
      (⟨1, 1 / 2, false⟩, kmeans_vertex_program.create)).2 = kmeans_vertex_program.create :=
  C3_lemma1_skip_sound dist1 dist1_symm dist1_tri DBL_MAX1
    (globals1 2 2 means_pm1 (fun _ => 0) false) false (1 / 2) ⟨1, 1 / 2, false⟩
    kmeans_vertex_program.create rfl rfl rfl (by decide) rfl (fun _ _ _ _ _ => rfl) rfl
    (by decide) (by decide!) (by decide!)

/-- C5. For a row whose `dist` still is the maximum double `DBL_MAX` and `K ≥ 1`
centroids at a distance below `DBL_MAX`, the scan of `run_distance` with
`g_prune_init` set ends with `cluster_id` the smallest index that minimises the
distance to the row and with `dist` that minimum distance. -/
theorem C5_prune_init_scan_first_argmin (d : V → V → α) (DBL_MAX : α) (K : Nat)
    (means : Nat → V) (get : Nat → Nat → α) (row : V) (v : kmeans_vertex α)
    (prog : kmeans_vertex_program V) (hK : 0 < K) (hv : v.dist = DBL_MAX)
    (hfin : ∀ c, c < K → d row (means c) < DBL_MAX) :
    (run_distance d true K means get row (v, prog)).1.cluster_id < K ∧
    (∀ c, c < K →
      d row (means (run_distance d true K means get row (v, prog)).1.cluster_id) ≤
        d row (means c)) ∧
    (∀ c, c < (run_distance d true K means get row (v, prog)).1.cluster_id →
      d row (means (run_distance d true K means get row (v, prog)).1.cluster_id) <
        d row (means c)) ∧
    (run_distance d true K means get row (v, prog)).1.dist =
      d row (means (run_distance d true K means get row (v, prog)).1.cluster_id) := by
  rw [run_distance_fst]
  exact prune_init_scan_argmin d K means get row v hK (by rw [hv]; exact hfin)

/-- Witness of C5: the row `0` between the centroids `-1` and `1`, both at distance
`1`: the scan keeps the first one. -/
theorem C5_prune_init_scan_first_argmin_witness :
    (run_distance dist1 true 2 means_pm1 (half_table means_pm1) 0
      (kmeans_vertex.create DBL_MAX1, kmeans_vertex_program.create)).1.cluster_id < 2 ∧
    (∀ c, c < 2 →
      dist1 0 (means_pm1 (run_distance dist1 true 2 means_pm1 (half_table means_pm1) 0
        (kmeans_vertex.create DBL_MAX1, kmeans_vertex_program.create)).1.cluster_id) ≤
        dist1 0 (means_pm1 c)) ∧
    (∀ c, c < (run_distance dist1 true 2 means_pm1 (half_table means_pm1) 0
        (kmeans_vertex.create DBL_MAX1, kmeans_vertex_program.create)).1.cluster_id →
      dist1 0 (means_pm1 (run_distance dist1 true 2 means_pm1 (half_table means_pm1) 0
        (kmeans_vertex.create DBL_MAX1, kmeans_vertex_program.create)).1.cluster_id) <
        dist1 0 (means_pm1 c)) ∧
    (run_distance dist1 true 2 means_pm1 (half_table means_pm1) 0
      (kmeans_vertex.create DBL_MAX1, kmeans_vertex_program.create)).1.dist =
      dist1 0 (means_pm1 (run_distance dist1 true 2 means_pm1 (half_table means_pm1) 0
        (kmeans_vertex.create DBL_MAX1, kmeans_vertex_program.create)).1.cluster_id) :=
  C5_prune_init_scan_first_argmin dist1 DBL_MAX1 2 means_pm1 (half_table means_pm1) 0
    (kmeans_vertex.create DBL_MAX1) kmeans_vertex_program.create (by decide) rfl
    (by
      intro c hc
      interval_cases c <;> decide!)

end EStepClaims

/-! ## The barrier -/

theorem succ_mod_cases (k n : Nat) (hn : 0 < n) :
    (k % n + 1 = n ∧ (k + 1) % n = 0) ∨ (k % n + 1 < n ∧ (k + 1) % n = k % n + 1) := by
  have hlt : k % n < n := Nat.mod_lt k hn
  have hdm : n * (k / n) + k % n = k := Nat.div_add_mod k n
  rcases Nat.lt_or_ge (k % n + 1) n with h | h
  · right
    refine ⟨h, ?_⟩
    have h1 : k + 1 = n * (k / n) + (k % n + 1) := by omega
    rw [h1, Nat.mul_add_mod, Nat.mod_eq_of_lt h]
  · left
    have he : k % n + 1 = n := by omega
    refine ⟨he, ?_⟩
    have h1 : k + 1 = n * (k / n + 1) := by
      rw [Nat.mul_add, Nat.mul_one]; omega
    rw [h1, Nat.mul_mod_right]

/-- After `k` sequential calls the arrival counter is `k mod n`. -/
theorem barrier_pings_state (n : Nat) (h1 : 1 ≤ n) (h2 : n < UINT_MOD) (k : Nat) :
    barrier.pings k (barrier.create n) = { ncomplete := k % n, nmembers := n } := by
  induction k with
  | zero => simp [barrier.pings, barrier.create]
  | succ k ih =>
    have hlt : k % n < n := Nat.mod_lt k (by omega)
    have hm : (k % n + 1) % UINT_MOD = k % n + 1 := Nat.mod_eq_of_lt (by omega)
    simp only [barrier.pings, ih, barrier.ping, hm]
    rcases succ_mod_cases k n (by omega) with ⟨ha, hb⟩ | ⟨ha, hb⟩
    · simp [ha, hb]
    · have hne : ¬ n = k % n + 1 := by omega
      simp [hne, hb]

/-- C9. For a barrier created with `1 ≤ n < 2^32` parties, the `k`-th sequential call
of `ping` (`k ≥ 1`) returns `true` if and only if `k` is a multiple of `n`; after a
call that returns `true` the arrival counter is `0`, after a call that returns
`false` it lies strictly between `0` and `n`. -/
theorem C9_barrier_ping_every_nth (n k : Nat) (h1 : 1 ≤ n) (h2 : n < UINT_MOD)
    (hk : 1 ≤ k) :
    (((barrier.pings (k - 1) (barrier.create n)).ping).1 = true ↔ n ∣ k) ∧
    (((barrier.pings (k - 1) (barrier.create n)).ping).1 = true →
      ((barrier.pings (k - 1) (barrier.create n)).ping).2.ncomplete = 0) ∧
    (((barrier.pings (k - 1) (barrier.create n)).ping).1 = false →
      0 < ((barrier.pings (k - 1) (barrier.create n)).ping).2.ncomplete ∧
      ((barrier.pings (k - 1) (barrier.create n)).ping).2.ncomplete < n) := by
  obtain ⟨j, rfl⟩ : ∃ j, k = j + 1 := ⟨k - 1, by omega⟩
  have hlt : j % n < n := Nat.mod_lt j (by omega)
  have hm : (j % n + 1) % UINT_MOD = j % n + 1 := Nat.mod_eq_of_lt (by omega)
  simp only [Nat.add_sub_cancel, barrier_pings_state n h1 h2 j, barrier.ping, hm]
  rcases succ_mod_cases j n (by omega) with ⟨ha, hb⟩ | ⟨ha, hb⟩
  · have hdvd : n ∣ j + 1 := Nat.dvd_of_mod_eq_zero hb
    simp [ha, hdvd]
  · have hne : ¬ n = j % n + 1 := by omega
    have hndvd : ¬ n ∣ j + 1 := by
      intro h
      have := Nat.mod_eq_zero_of_dvd h
      omega
    simp [hne, hndvd]
    omega

/-- Witness of C9: with 3 parties the 6th call returns `true` and rearms the barrier. -/
theorem C9_barrier_ping_every_nth_witness :
    (((barrier.pings (6 - 1) (barrier.create 3)).ping).1 = true ↔ 3 ∣ 6) ∧
    (((barrier.pings (6 - 1) (barrier.create 3)).ping).1 = true →
      ((barrier.pings (6 - 1) (barrier.create 3)).ping).2.ncomplete = 0) ∧
    (((barrier.pings (6 - 1) (barrier.create 3)).ping).1 = false →
      0 < ((barrier.pings (6 - 1) (barrier.create 3)).ping).2.ncomplete ∧
      ((barrier.pings (6 - 1) (barrier.create 3)).ping).2.ncomplete < 3) :=
  C9_barrier_ping_every_nth 3 6 (by decide) (by decide) (by decide)

/-! ## The row-cache schedule -/

/-- A call of `manage_cache` that regenerates the cache. -/
theorem manage_cache_regen (s : CacheGlobals) (rc : partition_cache)
    (hrc : s.g_row_cache = some rc) (hio : 0 < s.g_io_iter)
    (hU : 0 < s.g_cache_update_iter) (hreg : s.g_io_iter % s.g_cache_update_iter = 0) :
    manage_cache s = some
      { g_row_cache := some { index_empty := true, generation := rc.generation + 1 }
        g_io_iter := (s.g_io_iter + 1) % UINT_MOD
        g_cache_update_iter :=
          if s.g_io_iter = s.g_cache_update_iter then
            (s.g_cache_update_iter + (s.g_io_iter + s.g_cache_update_iter) % UINT_MOD) %
              UINT_MOD
          else (s.g_cache_update_iter + s.g_io_iter) % UINT_MOD } := by
  have hU' : ¬ s.g_cache_update_iter = 0 := by omega
  simp [manage_cache, hrc, hio, hU', hreg]

/-- Before the first regeneration: started from `g_io_iter = 0`, the first `n ≤ U0`
calls only count. -/
theorem manage_cache_n_before (U0 : Nat) (hM : U0 < UINT_MOD) (n : Nat) (h1 : 1 ≤ n)
    (hn : n ≤ U0) :
    manage_cache_n n (CacheGlobals.start U0) = some
      { g_row_cache := some { index_empty := false, generation := 0 }
        g_io_iter := n
        g_cache_update_iter := U0 } := by
  induction n with
  | zero => omega
  | succ m ih =>
    rcases Nat.eq_zero_or_pos m with hm | hm
    · subst hm
      simp [manage_cache_n, manage_cache, CacheGlobals.start, partition_cache.build_index,
        UINT_MOD]
    · have ih' := ih hm (by omega)
      have hmod : m % U0 = m := Nat.mod_eq_of_lt (by omega)
      have hne : ¬ U0 = 0 := by omega
      have hm0 : ¬ m = 0 := by omega
      have hs : (m + 1) % UINT_MOD = m + 1 := Nat.mod_eq_of_lt (by omega)
      simp [manage_cache_n, ih', manage_cache, hm, hne, hmod, hm0, hs]

/-- C10 (amended). A call of `manage_cache` that regenerates the cache (cache enabled,
`g_io_iter > 0`, `g_io_iter` a multiple of `U = g_cache_update_iter`, no 32-bit
overflow) creates a new cache and sets `U` to `U + g_io_iter + U = 3 * U` when
`g_io_iter = U`, and to `U + g_io_iter` when `g_io_iter ≠ U`. Started from
`g_io_iter = 0` with interval `U0 ≥ 1`, the first regeneration is the call with
`g_io_iter = U0` (the calls before it leave the cache generation and `U0` as they
are) and it sets the interval to `3 * U0`. -/
theorem C10_update_interval_rule (s : CacheGlobals) (rc : partition_cache) (U0 : Nat)
    (hrc : s.g_row_cache = some rc) (hio : 0 < s.g_io_iter)
    (hU : 0 < s.g_cache_update_iter) (hreg : s.g_io_iter % s.g_cache_update_iter = 0)
    (hno : s.g_cache_update_iter + s.g_io_iter + s.g_cache_update_iter < UINT_MOD)
    (hU0 : 1 ≤ U0) (hno0 : 3 * U0 < UINT_MOD) :
    (∃ s', manage_cache s = some s' ∧
      s'.g_row_cache = some { index_empty := true, generation := rc.generation + 1 } ∧
      (s.g_io_iter = s.g_cache_update_iter →
        s'.g_cache_update_iter = 3 * s.g_cache_update_iter) ∧
      (s.g_io_iter ≠ s.g_cache_update_iter →
        s'.g_cache_update_iter = s.g_cache_update_iter + s.g_io_iter)) ∧
    (∀ n, 1 ≤ n → n ≤ U0 →
      manage_cache_n n (CacheGlobals.start U0) = some
        { g_row_cache := some { index_empty := false, generation := 0 }
          g_io_iter := n
          g_cache_update_iter := U0 }) ∧
    manage_cache_n (U0 + 1) (CacheGlobals.start U0) = some
      { g_row_cache := some { index_empty := true, generation := 1 }
        g_io_iter := U0 + 1
        g_cache_update_iter := 3 * U0 } := by
  refine ⟨⟨_, manage_cache_regen s rc hrc hio hU hreg, rfl, ?_, ?_⟩, ?_, ?_⟩
  · intro h
    have h1 : (s.g_io_iter + s.g_cache_update_iter) % UINT_MOD =
        s.g_io_iter + s.g_cache_update_iter := Nat.mod_eq_of_lt (by omega)
    have h2 : (s.g_cache_update_iter + (s.g_io_iter + s.g_cache_update_iter)) % UINT_MOD =
        s.g_cache_update_iter + (s.g_io_iter + s.g_cache_update_iter) :=
      Nat.mod_eq_of_lt (by omega)
    show (if s.g_io_iter = s.g_cache_update_iter then
        (s.g_cache_update_iter + (s.g_io_iter + s.g_cache_update_iter) % UINT_MOD) % UINT_MOD
      else (s.g_cache_update_iter + s.g_io_iter) % UINT_MOD) = 3 * s.g_cache_update_iter
    rw [if_pos h, h1, h2]
    omega
  · intro h
    have h1 : (s.g_cache_update_iter + s.g_io_iter) % UINT_MOD =
        s.g_cache_update_iter + s.g_io_iter := Nat.mod_eq_of_lt (by omega)
    show (if s.g_io_iter = s.g_cache_update_iter then
        (s.g_cache_update_iter + (s.g_io_iter + s.g_cache_update_iter) % UINT_MOD) % UINT_MOD
      else (s.g_cache_update_iter + s.g_io_iter) % UINT_MOD) =
        s.g_cache_update_iter + s.g_io_iter
    rw [if_neg h, h1]
  · intro n h1 hn
    exact manage_cache_n_before U0 (by omega) n h1 hn
  · have hb := manage_cache_n_before U0 (by omega) U0 hU0 (le_refl _)
    have h1 : (U0 + U0) % UINT_MOD = U0 + U0 := Nat.mod_eq_of_lt (by omega)
    have h2 : (U0 + (U0 + U0)) % UINT_MOD = U0 + (U0 + U0) := Nat.mod_eq_of_lt (by omega)
    have h3 : (U0 + 1) % UINT_MOD = U0 + 1 := Nat.mod_eq_of_lt (by omega)
    have hne : ¬ U0 = 0 := by omega
    have hpos : 0 < U0 := by omega
    simp only [manage_cache_n, hb, Option.some_bind]
    rw [manage_cache_regen _ { index_empty := false, generation := 0 } rfl hpos hpos
      (Nat.mod_self U0)]
    simp only [if_true, h1, h2, h3]
    congr 2
    omega

/-- Witness of C10 (amended): the regeneration at `g_io_iter = 15` with `U = 5`, and a
run started with `U0 = 5`. -/
theorem C10_update_interval_rule_witness :
    (∃ s', manage_cache ⟨some ⟨false, 0⟩, 15, 5⟩ = some s' ∧
      s'.g_row_cache = some { index_empty := true, generation := 0 + 1 } ∧
      ((15 : Nat) = 5 → s'.g_cache_update_iter = 3 * 5) ∧
      ((15 : Nat) ≠ 5 → s'.g_cache_update_iter = 5 + 15)) ∧
    (∀ n, 1 ≤ n → n ≤ 5 →
      manage_cache_n n (CacheGlobals.start 5) = some
        { g_row_cache := some { index_empty := false, generation := 0 }
          g_io_iter := n
          g_cache_update_iter := 5 }) ∧
    manage_cache_n (5 + 1) (CacheGlobals.start 5) = some
      { g_row_cache := some { index_empty := true, generation := 1 }
        g_io_iter := 5 + 1
        g_cache_update_iter := 3 * 5 } :=
  C10_update_interval_rule ⟨some ⟨false, 0⟩, 15, 5⟩ ⟨false, 0⟩ 5 rfl (by decide)
    (by decide) (by decide) (by decide) (by decide) (by decide)

/-- Counterexample to C10 as stated: started with `U = 5`, the first regeneration is
the sixth call (`g_io_iter = 5`); it sets `U` to `15`, not to `2 * 5`. -/
theorem C10_counterexample :
    manage_cache_n 5 (CacheGlobals.start 5) = some ⟨some ⟨false, 0⟩, 5, 5⟩ ∧
    manage_cache_n 6 (CacheGlobals.start 5) = some ⟨some ⟨true, 1⟩, 6, 15⟩ ∧
    (15 : Nat) ≠ 2 * 5 := by
  decide

/-! ## The M-step -/

/-- A projection that every step of a fold leaves unchanged is unchanged by the fold. -/
theorem foldl_proj {σ β γ : Type} (π : σ → γ) (f : σ → β → σ)
    (h : ∀ s b, π (f s b) = π s) (l : List β) (s : σ) : π (l.foldl f s) = π s := by
  induction l generalizing s with
  | nil => rfl
  | cons a t ih => rw [List.foldl_cons, ih, h]

/-- `manage_cache` returns unless it has to divide by zero. -/
theorem manage_cache_some (s : CacheGlobals)
    (h : 0 < s.g_io_iter → 0 < s.g_cache_update_iter) : ∃ c, manage_cache s = some c := by
  unfold manage_cache
  cases hrc : s.g_row_cache with
  | none => exact ⟨_, rfl⟩
  | some rc =>
    have hn : ¬ (0 < s.g_io_iter ∧ s.g_cache_update_iter = 0) := by
      intro ⟨h1, h2⟩
      have := h h1
      omega
    simp only [hn, if_false]
    split_ifs <;> exact ⟨_, rfl⟩

/-- The merge loop adds the partition changed-counts to `g_num_changed`. -/
theorem merge_num_changed {α V : Type} [AddCommGroup V]
    (progs : Nat → kmeans_vertex_program V) (g : globals α V)
    (hlt : g.g_num_changed < UINT_MOD) (W : Nat) :
    ((List.range W).foldl (fun g1 thd => merge_program g1 (progs thd)) g).g_num_changed =
      (g.g_num_changed + ∑ t ∈ Finset.range W, (progs t).pt_changed) % UINT_MOD := by
  induction W with
  | zero => simp [Nat.mod_eq_of_lt hlt]
  | succ n ih =>
    rw [foldl_range_succ, Finset.sum_range_succ]
    show (_ + (progs n).pt_changed) % UINT_MOD = _
    rw [ih, Nat.mod_add_mod, Nat.add_assoc]

/-! ## The rounded quotient of the convergence test -/

/-- The search of `double_shift` returns the smallest shift at which `a * 2^k / b`
reaches `2^52`, when there is one within the steps allowed. -/
theorem double_shift_spec (a b : Nat) (fuel k : Nat)
    (hlow : ∀ j, j < k → a * 2 ^ j < 2 ^ 52 * b)
    (hex : ∃ j, k ≤ j ∧ j < k + fuel ∧ 2 ^ 52 * b ≤ a * 2 ^ j) :
    2 ^ 52 * b ≤ a * 2 ^ double_shift a b fuel k ∧
    ∀ j, j < double_shift a b fuel k → a * 2 ^ j < 2 ^ 52 * b := by
  induction fuel generalizing k with
  | zero =>
    obtain ⟨j, h1, h2, _⟩ := hex
    omega
  | succ fuel ih =>
    unfold double_shift
    by_cases hc : 2 ^ 52 * b ≤ a * 2 ^ k
    · rw [if_pos hc]
      exact ⟨hc, hlow⟩
    · rw [if_neg hc]
      apply ih (k + 1)
      · intro j hj
        rcases Nat.lt_succ_iff_lt_or_eq.mp hj with h | h
        · exact hlow j h
        · rw [h]
          exact not_le.mp hc
      · obtain ⟨j, h1, h2, h3⟩ := hex
        have hjk : j ≠ k := fun h => hc (h ▸ h3)
        exact ⟨j, by omega, by omega, h3⟩

/-- For two `unsigned` values `a ≥ 1` and `b ≥ 1`, `double_div a b` is `m / 2^k` where
`m` is an integer nearest to `a * 2^k / b`, even in case of a tie, and `k ≤ 84` is
the shift at which `2^52 ≤ a * 2^k / b < 2^53`: the quotient rounded to a significand
of 53 bits. -/
theorem double_div_rounds {α : Type} [LinearOrderedField α] (a b : Nat) (ha : 1 ≤ a)
    (ha2 : a < UINT_MOD) (hb : 1 ≤ b) (hb2 : b < UINT_MOD) :
    ∃ k m : Nat, (double_div a b : α) = (m : α) / 2 ^ k ∧ k ≤ 84 ∧
      2 ^ 52 * b ≤ a * 2 ^ k ∧ a * 2 ^ k < 2 ^ 53 * b ∧
      2 ^ 52 ≤ m ∧ m ≤ 2 ^ 53 ∧
      2 * (m * b) ≤ 2 * (a * 2 ^ k) + b ∧ 2 * (a * 2 ^ k) ≤ 2 * (m * b) + b ∧
      ((2 * (m * b) = 2 * (a * 2 ^ k) + b ∨ 2 * (a * 2 ^ k) = 2 * (m * b) + b) →
        m % 2 = 0) := by
  have hU : UINT_MOD = 2 ^ 32 := rfl
  rw [hU] at ha2 hb2
  have h84 : 2 ^ 52 * b ≤ a * 2 ^ 84 := by
    have h1 : 2 ^ 52 * b ≤ 2 ^ 52 * 2 ^ 32 := Nat.mul_le_mul_left _ (Nat.le_of_lt hb2)
    have h2 : (2 : Nat) ^ 52 * 2 ^ 32 = 1 * 2 ^ 84 := by norm_num
    have h3 : 1 * 2 ^ 84 ≤ a * 2 ^ 84 := Nat.mul_le_mul_right _ ha
    omega
  obtain ⟨hk1, hk2⟩ := double_shift_spec a b 85 0 (fun j hj => absurd hj (Nat.not_lt_zero j))
    ⟨84, Nat.zero_le _, by decide, h84⟩
  generalize hk : double_shift a b 85 0 = k at hk1 hk2
  have hk84 : k ≤ 84 := by
    by_contra hgt
    have := hk2 84 (by omega)
    omega
  have hk0 : k ≠ 0 := by
    intro h0
    rw [h0, pow_zero, Nat.mul_one] at hk1
    have : 2 ^ 52 * 1 ≤ 2 ^ 52 * b := Nat.mul_le_mul_left _ hb
    omega
  have hup : a * 2 ^ k < 2 ^ 53 * b := by
    have h1 := hk2 (k - 1) (by omega)
    have h2 : a * 2 ^ k = 2 * (a * 2 ^ (k - 1)) := by
      obtain ⟨n, rfl⟩ : ∃ n, k = n + 1 := ⟨k - 1, by omega⟩
      rw [Nat.add_sub_cancel, pow_succ]
      ring
    have h3 : (2 : Nat) ^ 53 * b = 2 * (2 ^ 52 * b) := by ring
    omega
  have hbpos : 0 < b := hb
  have hq1 : 2 ^ 52 ≤ a * 2 ^ k / b := (Nat.le_div_iff_mul_le hbpos).mpr hk1
  have hq2 : a * 2 ^ k / b < 2 ^ 53 := (Nat.div_lt_iff_lt_mul hbpos).mpr hup
  have hdm : b * (a * 2 ^ k / b) + a * 2 ^ k % b = a * 2 ^ k := Nat.div_add_mod _ _
  have hr : a * 2 ^ k % b < b := Nat.mod_lt _ hbpos
  have hdef : (double_div a b : α) =
      ((if 2 * (a * 2 ^ k % b) < b then a * 2 ^ k / b
        else if b < 2 * (a * 2 ^ k % b) then a * 2 ^ k / b + 1
        else if a * 2 ^ k / b % 2 = 0 then a * 2 ^ k / b else a * 2 ^ k / b + 1 : Nat) : α) /
        2 ^ k := by
    unfold double_div
    rw [if_neg (by omega), hk]
  refine ⟨k, _, hdef, hk84, hk1, hup, ?_⟩
  generalize a * 2 ^ k = n at hq1 hq2 hdm hr
  generalize hq : n / b = q at hq1 hq2 hdm
  generalize n % b = r at hdm hr
  have hqb : b * q = q * b := Nat.mul_comm b q
  have hq1b : (q + 1) * b = q * b + b := by ring
  split_ifs with c1 c2 c3
  · refine ⟨hq1, Nat.le_of_lt hq2, by omega, by omega, fun h => ?_⟩
    omega
  · refine ⟨by omega, by omega, by omega, by omega, fun h => ?_⟩
    omega
  · exact ⟨hq1, Nat.le_of_lt hq2, by omega, by omega, fun _ => c3⟩
  · refine ⟨by omega, by omega, by omega, by omega, fun _ => ?_⟩
    omega

section MStepTheorems

variable {α : Type} [LinearOrderedField α] {V : Type} [AddCommGroup V] [Module α V]

theorem clear_clusters_frame (g : globals α V) :
    (clear_clusters g).K = g.K ∧ (clear_clusters g).NUM_ROWS = g.NUM_ROWS ∧
    (clear_clusters g).g_num_changed = g.g_num_changed ∧
    (clear_clusters g).g_tolerance = g.g_tolerance ∧
    (clear_clusters g).g_iter = g.g_iter ∧ (clear_clusters g).g_max_iters = g.g_max_iters ∧
    (clear_clusters g).g_converged = g.g_converged ∧ (clear_clusters g).cache = g.cache ∧
    (clear_clusters g).g_prune_init = g.g_prune_init ∧
    (clear_clusters g).g_stage = g.g_stage ∧
    (clear_clusters g).g_kmspp_stage = g.g_kmspp_stage ∧
    (clear_clusters g).iter_barrier = g.iter_barrier ∧
    (clear_clusters g).g_num_members_v = g.g_num_members_v := by
  unfold clear_clusters
  split_ifs <;> exact ⟨rfl, rfl, rfl, rfl, rfl, rfl, rfl, rfl, rfl, rfl, rfl, rfl, rfl⟩

/-- What `update_clusters` leaves unchanged, and the merged changed-count. -/
theorem update_clusters_frame (ed : V → V → α) (W : Nat) (g : globals α V)
    (progs : Nat → kmeans_vertex_program V) (hlt : g.g_num_changed < UINT_MOD) :
    (update_clusters ed W g progs).1.K = g.K ∧
    (update_clusters ed W g progs).1.NUM_ROWS = g.NUM_ROWS ∧
    (update_clusters ed W g progs).1.g_num_changed =
      (g.g_num_changed + ∑ t ∈ Finset.range W, (progs t).pt_changed) % UINT_MOD ∧
    (update_clusters ed W g progs).1.g_tolerance = g.g_tolerance ∧
    (update_clusters ed W g progs).1.g_iter = g.g_iter ∧
    (update_clusters ed W g progs).1.g_max_iters = g.g_max_iters ∧
    (update_clusters ed W g progs).1.g_converged = g.g_converged ∧
    (update_clusters ed W g progs).1.cache = g.cache ∧
    (update_clusters ed W g progs).1.g_prune_init = g.g_prune_init ∧
    (update_clusters ed W g progs).1.g_stage = g.g_stage ∧
    (update_clusters ed W g progs).1.g_kmspp_stage = g.g_kmspp_stage ∧
    (update_clusters ed W g progs).1.iter_barrier = g.iter_barrier := by
  obtain ⟨c1, c2, c3, c4, c5, c6, c7, c8, c9, c10, c11, c12, _⟩ := clear_clusters_frame g
  unfold update_clusters
  simp only
  refine ⟨?_, ?_, ?_, ?_, ?_, ?_, ?_, ?_, ?_, ?_, ?_, ?_⟩
  · exact (foldl_proj globals.K (finalize_cluster ed) (fun _ _ => rfl) _ _).trans
      ((foldl_proj globals.K (fun g1 thd => merge_program g1 (progs thd))
        (fun _ _ => rfl) _ _).trans c1)
  · exact (foldl_proj globals.NUM_ROWS (finalize_cluster ed) (fun _ _ => rfl) _ _).trans
      ((foldl_proj globals.NUM_ROWS (fun g1 thd => merge_program g1 (progs thd))
        (fun _ _ => rfl) _ _).trans c2)
  · rw [foldl_proj globals.g_num_changed (finalize_cluster ed) (fun _ _ => rfl),
      merge_num_changed progs _ (by rw [c3]; exact hlt), c3]
  · exact (foldl_proj globals.g_tolerance (finalize_cluster ed) (fun _ _ => rfl) _ _).trans
      ((foldl_proj globals.g_tolerance (fun g1 thd => merge_program g1 (progs thd))
        (fun _ _ => rfl) _ _).trans c4)
  · exact (foldl_proj globals.g_iter (finalize_cluster ed) (fun _ _ => rfl) _ _).trans
      ((foldl_proj globals.g_iter (fun g1 thd => merge_program g1 (progs thd))
        (fun _ _ => rfl) _ _).trans c5)
  · exact (foldl_proj globals.g_max_iters (finalize_cluster ed) (fun _ _ => rfl) _ _).trans
      ((foldl_proj globals.g_max_iters (fun g1 thd => merge_program g1 (progs thd))
        (fun _ _ => rfl) _ _).trans c6)
  · exact (foldl_proj globals.g_converged (finalize_cluster ed) (fun _ _ => rfl) _ _).trans
      ((foldl_proj globals.g_converged (fun g1 thd => merge_program g1 (progs thd))
        (fun _ _ => rfl) _ _).trans c7)
  · exact (foldl_proj globals.cache (finalize_cluster ed) (fun _ _ => rfl) _ _).trans
      ((foldl_proj globals.cache (fun g1 thd => merge_program g1 (progs thd))
        (fun _ _ => rfl) _ _).trans c8)
  · exact (foldl_proj globals.g_prune_init (finalize_cluster ed) (fun _ _ => rfl) _ _).trans
      ((foldl_proj globals.g_prune_init (fun g1 thd => merge_program g1 (progs thd))
        (fun _ _ => rfl) _ _).trans c9)
  · exact (foldl_proj globals.g_stage (finalize_cluster ed) (fun _ _ => rfl) _ _).trans
      ((foldl_proj globals.g_stage (fun g1 thd => merge_program g1 (progs thd))
        (fun _ _ => rfl) _ _).trans c10)
  · exact (foldl_proj globals.g_kmspp_stage (finalize_cluster ed) (fun _ _ => rfl) _ _).trans
      ((foldl_proj globals.g_kmspp_stage (fun g1 thd => merge_program g1 (progs thd))
        (fun _ _ => rfl) _ _).trans c11)
  · exact (foldl_proj globals.iter_barrier (finalize_cluster ed) (fun _ _ => rfl) _ _).trans
      ((foldl_proj globals.iter_barrier (fun g1 thd => merge_program g1 (progs thd))
        (fun _ _ => rfl) _ _).trans c12)

/-- C8. When `run_on_iteration_end` is called by the worker that crosses the barrier
(`ping` returns `true`) with `g_converged` not set, and `manage_cache` does not
divide by zero, the call returns and sets `g_converged` if and only if
`global_changed == 0`, or `global_changed / NUM_ROWS ≤ g_tolerance`, the quotient
being the one the code computes in doubles (`double_div`), or
`g_iter > g_max_iters`, where `global_changed` is `g_num_changed` after the partition
changed-counts have been added (32-bit sum). -/
theorem C8_converged_iff_test (ed : V → V → α) (DBL_MAX : α) (W : Nat) (g : globals α V)
    (progs : Nat → kmeans_vertex_program V) (hlt : g.g_num_changed < UINT_MOD)
    (hping : g.iter_barrier.ping.1 = true) (hconv : g.g_converged = false)
    (hcache : 0 < g.cache.g_io_iter → 0 < g.cache.g_cache_update_iter) :
    ∃ r, run_on_iteration_end ed DBL_MAX W g progs = some r ∧
      (r.1.g_converged = true ↔
        ((g.g_num_changed + ∑ t ∈ Finset.range W, (progs t).pt_changed) % UINT_MOD = 0 ∨
          double_div
              ((g.g_num_changed + ∑ t ∈ Finset.range W, (progs t).pt_changed) % UINT_MOD)
              g.NUM_ROWS ≤ g.g_tolerance ∨
          g.g_max_iters < g.g_iter)) := by
  obtain ⟨_, f2, f3, f4, f5, f6, f7, f8, _, _, _, _⟩ :=
    update_clusters_frame ed W { g with iter_barrier := g.iter_barrier.ping.2 } progs hlt
  obtain ⟨c, hc⟩ : ∃ c,
      (if (update_clusters ed W { g with iter_barrier := g.iter_barrier.ping.2 }
          progs).1.cache.g_row_cache.isSome then
        manage_cache (update_clusters ed W { g with iter_barrier := g.iter_barrier.ping.2 }
          progs).1.cache
       else some (update_clusters ed W { g with iter_barrier := g.iter_barrier.ping.2 }
          progs).1.cache) = some c := by
    split_ifs
    · rw [f8]; exact manage_cache_some g.cache hcache
    · exact ⟨_, rfl⟩
  unfold run_on_iteration_end
  rw [if_pos hping, if_pos hconv]
  unfold mstep
  simp only [hc, Option.map_some']
  refine ⟨_, rfl, ?_⟩
  simp only [convergence_test, f2, f3, f4, f5, f6]
  simp only [or_assoc]
  split_ifs with ht
  · simp only [true_iff]
    exact ht
  · constructor
    · intro h
      exact Bool.noConfusion (h.symm.trans (f7.trans hconv))
    · intro h; exact absurd h ht

/-- Witness of C8: one partition, ten rows, three of which changed, and the tolerance
`0.3`, held as the nearest double `5404319552844595 / 2^54`. The quotient of the code
is the same double, so the test holds and `g_converged` is set, although `3/10` is
above the value of the tolerance. -/
theorem C8_converged_iff_test_witness :
    (globals_tol.g_num_changed < UINT_MOD ∧ globals_tol.iter_barrier.ping.1 = true ∧
      globals_tol.g_converged = false) ∧
    (∃ r, run_on_iteration_end dist1 DBL_MAX1 1 globals_tol progs_three = some r ∧
      (r.1.g_converged = true ↔
        ((globals_tol.g_num_changed +
            ∑ t ∈ Finset.range 1, (progs_three t).pt_changed) % UINT_MOD = 0 ∨
          double_div
              ((globals_tol.g_num_changed +
                ∑ t ∈ Finset.range 1, (progs_three t).pt_changed) % UINT_MOD)
              globals_tol.NUM_ROWS ≤ globals_tol.g_tolerance ∨
          globals_tol.g_max_iters < globals_tol.g_iter))) ∧
    (run_on_iteration_end dist1 DBL_MAX1 1 globals_tol progs_three).map
        (fun r => (r.1.g_converged, r.1.g_num_changed, r.1.g_iter)) = some (true, 3, 0) ∧
    (double_div 3 10 : ℚ) = double_0_3 ∧ globals_tol.g_tolerance < 3 / 10 :=
  ⟨⟨by decide, by decide, rfl⟩,
    C8_converged_iff_test dist1 DBL_MAX1 1 globals_tol progs_three
      (by decide) (by decide) rfl (by decide),
    by decide!, by decide!, by decide!⟩

end MStepTheorems

/-! ## The first M-step after a `g_prune_init` pass -/

set_option maxRecDepth 100000 in
/-- C4, evaluated at a failing input. Rows `-3`, `3`, `100`, caller-supplied centres
`3` and `100`, one thread. The first iteration (pass with `g_prune_init` set, then
the M-step) assigns rows 0 and 1 to cluster 0 with `dist = 6` and `dist = 0`, moves
centroid 0 from `3` to `0`, and, the shadow not having been set, records the drift
`prev_dist[0] = 0`. In the next pass `run` compares the bound `0 + 0 = 0` of row 1
with `s[0]` and takes the lemma-1 skip, while the distance from row 1 to its centroid
is `3`. -/
theorem C4_bound_below_distance_after_first_mstep :
    (iteration (setting1 rows_a) (fun _ => false) [0, 1, 2]
        (engine_with_centers 2 3 centers_a)).map
      (fun e => (e.g.g_prune_init, e.g.g_converged, e.g.g_iter)) = some (false, false, 1) ∧
    (iteration (setting1 rows_a) (fun _ => false) [0, 1, 2]
        (engine_with_centers 2 3 centers_a)).map
      (fun e => (e.verts 1, e.g.g_clusters.means 0, e.g.g_clusters.prev_dist 0)) =
        some (⟨0, 0, false⟩, 0, 0) ∧
    (iteration (setting1 rows_a) (fun _ => false) [0, 1, 2]
        (engine_with_centers 2 3 centers_a)).map
      (fun e => (((e.verts 1).run e.g false).1.dist, ((e.verts 1).run e.g false).2.2)) =
        some (0, run_outcome.lemma1_skip) ∧
    (iteration (setting1 rows_a) (fun _ => false) [0, 1, 2]
        (engine_with_centers 2 3 centers_a)).map
      (fun e =>
        dist1 (rows_a 1) (e.g.g_clusters.means ((e.verts 1).run e.g false).1.cluster_id)) =
        some 3 := by
  refine ⟨?_, ?_, ?_, ?_⟩ <;> decide!

set_option maxRecDepth 100000 in
/-- C6, evaluated at a failing input. Rows `0` and `1`, caller-supplied centres `0`
and `100`, one thread. The pass with `g_prune_init` set assigns both rows to
cluster 0. In the M-step `clear_clusters` only calls `clear`, so the accumulator of
cluster 1 is `0` when `finalize` is reached; after the M-step cluster 0 has 2 members
and the mean `1/2`, cluster 1 has no member and its centroid is `0` (the accumulator
and the shadow are both `0`), not the centroid `100` it had before the M-step. -/
theorem C6_empty_cluster_centroid_after_first_mstep :
    centers_b 1 = 100 ∧
    ((List.range 1).foldl
      (fun g1 thd => merge_program g1
        ((estep_pass (setting1 rows_b) (fun _ => false) [0, 1]
          (engine_with_centers 2 2 centers_b)).progs thd))
      (clear_clusters (estep_pass (setting1 rows_b) (fun _ => false) [0, 1]
        (engine_with_centers 2 2 centers_b)).g)).g_clusters.means 1 = 0 ∧
    (iteration (setting1 rows_b) (fun _ => false) [0, 1]
        (engine_with_centers 2 2 centers_b)).map
      (fun e =>
        ((e.verts 0).cluster_id, (e.verts 1).cluster_id,
         e.g.g_num_members_v 0, e.g.g_num_members_v 1,
         e.g.g_clusters.means 0, e.g.g_clusters.means 1)) =
      some (0, 0, 2, 0, 1 / 2, 0) := by
  decide!

/-! ## Member counts along a run -/

section Counts

variable {α : Type} [LinearOrderedField α] {V : Type} [AddCommGroup V]

/-- Changing one entry of an array changes the sum over `0 .. K-1` by the difference. -/
theorem sum_range_update (K : Nat) (f : Nat → Int) (i : Nat) (hi : i < K) (b : Int) :
    ∑ c ∈ Finset.range K, Function.update f i b c = ∑ c ∈ Finset.range K, f c - f i + b := by
  have hmem : i ∈ Finset.range K := Finset.mem_range.mpr hi
  rw [Finset.sum_update_of_mem hmem, Finset.sum_eq_add_sum_diff_singleton hmem f]
  ring

theorem ptotal_add_member (K : Nat) (p : kmeans_vertex_program V) (id : Nat) (row : V)
    (hid : id < K) : ptotal K (p.add_member id row) = ptotal K p + 1 := by
  simp only [ptotal, kmeans_vertex_program.add_member, clusters.add_member]
  rw [sum_range_update K _ id hid]
  ring

theorem ptotal_swap_membership (K : Nat) (p : kmeans_vertex_program V) (row : V)
    (a b : Nat) (ha : a < K) (hb : b < K) :
    ptotal K (p.swap_membership row a b) = ptotal K p := by
  simp only [ptotal, kmeans_vertex_program.swap_membership, clusters.swap_membership,
    clusters.add_member, clusters.remove_member]
  rw [sum_range_update K _ b hb, sum_range_update K _ a ha]
  by_cases hab : b = a
  · subst hab
    simp
  · rw [Function.update_noteq hab]
    ring

theorem ptotal_create (K : Nat) :
    ptotal K (kmeans_vertex_program.create : kmeans_vertex_program V) = 0 := by
  simp [ptotal, kmeans_vertex_program.create, clusters.create]

theorem ptotal_reset (K : Nat) (p : kmeans_vertex_program V) : ptotal K p.reset = 0 := by
  simp [ptotal, kmeans_vertex_program.reset, clusters.clear, clusters.create]

omit [AddCommGroup V] in
/-- The pruned scan keeps the assignment below `K`. -/
theorem steady_scan_cid_lt (d : V → V → α) (K : Nat) (means : Nat → V)
    (get : Nat → Nat → α) (row : V) (v : kmeans_vertex α) (ha : v.cluster_id < K) :
    (scan d false K means get row v).cluster_id < K := by
  have key : ∀ j, j ≤ K →
      ((List.range j).foldl (steady_turn d means get row) v).cluster_id < K := by
    intro j
    induction j with
    | zero => intro _; exact ha
    | succ n ih =>
      intro hn
      have h := ih (by omega)
      rw [foldl_range_succ]
      generalize (List.range n).foldl (steady_turn d means get row) v = w at *
      simp only [steady_turn]
      split_ifs <;> first | exact h | (show n < K; omega)
  have hs : scan d false K means get row v =
      (List.range K).foldl (steady_turn d means get row) v := by simp [scan]
  rw [hs]
  exact key K (le_refl K)

omit [AddCommGroup V] in
/-- The full scan keeps an assignment below `K`. -/
theorem prune_init_scan_cid_lt (d : V → V → α) (K : Nat) (means : Nat → V)
    (get : Nat → Nat → α) (row : V) (v : kmeans_vertex α) (ha : v.cluster_id < K) :
    (scan d true K means get row v).cluster_id < K := by
  have key : ∀ j, j ≤ K →
      ((List.range j).foldl (prune_init_turn d means row) v).cluster_id < K := by
    intro j
    induction j with
    | zero => intro _; exact ha
    | succ n ih =>
      intro hn
      have h := ih (by omega)
      rw [foldl_range_succ]
      generalize (List.range n).foldl (prune_init_turn d means row) v = w at *
      simp only [prune_init_turn]
      split_ifs <;> first | exact h | (show n < K; omega)
  have hs : scan d true K means get row v =
      (List.range K).foldl (prune_init_turn d means row) v := by simp [scan]
  rw [hs]
  exact key K (le_refl K)

/-- A row handled by `run_distance` in steady state keeps a valid assignment, and the
member total of the program does not change. -/
theorem run_distance_steady_counts (d : V → V → α) (K : Nat) (means : Nat → V)
    (get : Nat → Nat → α) (row : V) (v : kmeans_vertex α) (p : kmeans_vertex_program V)
    (ha : v.cluster_id < K) :
    (run_distance d false K means get row (v, p)).1.cluster_id < K ∧
    ptotal K (run_distance d false K means get row (v, p)).2 = ptotal K p := by
  have h1 := steady_scan_cid_lt d K means get row v ha
  refine ⟨by rw [run_distance_fst]; exact h1, ?_⟩
  have hrd : run_distance d false K means get row (v, p) =
      if v.cluster_id ≠ (scan d false K means get row v).cluster_id then
        (scan d false K means get row v,
          p.pt_changed_pp.swap_membership row v.cluster_id
            (scan d false K means get row v).cluster_id)
      else (scan d false K means get row v, p) := by
    simp [run_distance]
  rw [hrd]
  split_ifs with h
  · exact ptotal_swap_membership K _ row _ _ ha h1
  · rfl

/-- A row handled by `run_distance` with `g_prune_init` set gets a valid assignment and
is added to the program once. -/
theorem run_distance_prune_init_counts (d : V → V → α) (K : Nat) (means : Nat → V)
    (get : Nat → Nat → α) (row : V) (v : kmeans_vertex α) (p : kmeans_vertex_program V)
    (hK : 0 < K)
    (hv : (∀ c, c < K → d row (means c) < v.dist) ∨ v.cluster_id < K) :
    (run_distance d true K means get row (v, p)).1.cluster_id < K ∧
    ptotal K (run_distance d true K means get row (v, p)).2 = ptotal K p + 1 := by
  have h1 : (scan d true K means get row v).cluster_id < K := by
    rcases hv with hv | hv
    · exact (prune_init_scan_argmin d K means get row v hK hv).1
    · exact prune_init_scan_cid_lt d K means get row v hv
  refine ⟨by rw [run_distance_fst]; exact h1, ?_⟩
  have hrd : run_distance d true K means get row (v, p) =
      (scan d true K means get row v,
        p.pt_changed_pp.add_member (scan d true K means get row v).cluster_id row) := by
    simp [run_distance]
  rw [hrd]
  exact ptotal_add_member K _ _ row h1

omit [AddCommGroup V] in
/-- A row that is not activated (converged, or iteration limit reached) is left alone. -/
theorem run_inactive (g : globals α V) (cache_hit : Bool) (v : kmeans_vertex α)
    (hkm : g.g_kmspp_stage = kmspp_stage_t.ADDMEAN) (hst : g.g_stage = stage_t.ESTEP)
    (hin : ¬ (g.g_converged = false ∧ g.g_iter < g.g_max_iters)) :
    v.run g cache_hit = (v, false, run_outcome.inactive) := by
  simp only [kmeans_vertex.run, hkm, hst]
  simp [hin]

omit [AddCommGroup V] in
/-- In the pass with `g_prune_init` set `run` clears `recalculated` and fetches the row. -/
theorem run_prune_init_fetch (g : globals α V) (cache_hit : Bool) (v : kmeans_vertex α)
    (hkm : g.g_kmspp_stage = kmspp_stage_t.ADDMEAN) (hst : g.g_stage = stage_t.ESTEP)
    (hconv : g.g_converged = false) (hit : g.g_iter < g.g_max_iters)
    (hpi : g.g_prune_init = true) :
    v.run g cache_hit =
      ({ cluster_id := v.cluster_id, dist := v.dist, recalculated := false }, true,
        run_fetch g cache_hit) := by
  simp [kmeans_vertex.run, hkm, hst, hconv, hit, hpi]

/-- A fetched row goes through `run_distance` with a program that holds the same
members. -/
theorem estep_row_fetch_counts (d : V → V → α) (g : globals α V) (cache_hit : Bool)
    (row : V) (v w : kmeans_vertex α) (p : kmeans_vertex_program V) (act : Bool)
    (hrun : v.run g cache_hit = (w, act, run_fetch g cache_hit)) :
    ∃ p', ptotal g.K p' = ptotal g.K p ∧
      estep_row d g cache_hit row (v, p) =
        run_distance d g.g_prune_init g.K g.g_clusters.means g.g_cluster_dist row (w, p') := by
  by_cases hc : g.cache.g_row_cache.isSome = true ∧ cache_hit = true
  · refine ⟨p, rfl, ?_⟩
    unfold estep_row
    simp only [hrun, run_fetch, if_pos hc]
  · by_cases hs : g.g_stage ≠ stage_t.INIT
    · refine ⟨p.num_requests_pp, rfl, ?_⟩
      unfold estep_row
      simp only [hrun, run_fetch, if_neg hc, if_pos hs]
    · refine ⟨p, rfl, ?_⟩
      unfold estep_row
      simp only [hrun, run_fetch, if_neg hc, if_neg hs]

/-- A row of a pass without `g_prune_init` (or of a pass after convergence) keeps a
valid assignment and leaves the member total of its program unchanged. -/
theorem estep_row_steady_counts (d : V → V → α) (g : globals α V) (cache_hit : Bool)
    (row : V) (v : kmeans_vertex α) (p : kmeans_vertex_program V)
    (hkm : g.g_kmspp_stage = kmspp_stage_t.ADDMEAN) (hst : g.g_stage = stage_t.ESTEP)
    (hflag : g.g_prune_init = true → g.g_converged = true) (ha : v.cluster_id < g.K) :
    (estep_row d g cache_hit row (v, p)).1.cluster_id < g.K ∧
    ptotal g.K (estep_row d g cache_hit row (v, p)).2 = ptotal g.K p := by
  by_cases hact : g.g_converged = false ∧ g.g_iter < g.g_max_iters
  · obtain ⟨hconv, hit⟩ := hact
    have hpi : g.g_prune_init = false := by
      by_contra h
      have h' : g.g_prune_init = true := by simpa using h
      rw [hflag h'] at hconv
      exact absurd hconv (by decide)
    by_cases hskip : v.dist + g.g_clusters.prev_dist v.cluster_id ≤
        g.g_clusters.s_val v.cluster_id
    · have hrun := run_steady_skip g cache_hit v hkm hst hconv hit hpi hskip
      unfold estep_row
      simp only [hrun]
      exact ⟨ha, trivial⟩
    · have hrun := run_steady_fetch g cache_hit v hkm hst hconv hit hpi hskip
      obtain ⟨p', hp', he⟩ := estep_row_fetch_counts d g cache_hit row v _ p _ hrun
      rw [he, hpi]
      have h := run_distance_steady_counts d g.K g.g_clusters.means g.g_cluster_dist row
        { cluster_id := v.cluster_id
          dist := v.dist + g.g_clusters.prev_dist v.cluster_id
          recalculated := false } p' ha
      exact ⟨h.1, h.2.trans hp'⟩
  · have hrun := run_inactive g cache_hit v hkm hst hact
    unfold estep_row
    simp only [hrun]
    exact ⟨ha, trivial⟩

/-- A row of the pass with `g_prune_init` set gets a valid assignment and is added
once to its program. -/
theorem estep_row_prune_init_counts (d : V → V → α) (g : globals α V) (cache_hit : Bool)
    (row : V) (v : kmeans_vertex α) (p : kmeans_vertex_program V) (hK : 0 < g.K)
    (hkm : g.g_kmspp_stage = kmspp_stage_t.ADDMEAN) (hst : g.g_stage = stage_t.ESTEP)
    (hconv : g.g_converged = false) (hit : g.g_iter < g.g_max_iters)
    (hpi : g.g_prune_init = true)
    (hv : (∀ c, c < g.K → d row (g.g_clusters.means c) < v.dist) ∨ v.cluster_id < g.K) :
    (estep_row d g cache_hit row (v, p)).1.cluster_id < g.K ∧
    ptotal g.K (estep_row d g cache_hit row (v, p)).2 = ptotal g.K p + 1 := by
  have hrun := run_prune_init_fetch g cache_hit v hkm hst hconv hit hpi
  obtain ⟨p', hp', he⟩ := estep_row_fetch_counts d g cache_hit row v _ p _ hrun
  rw [he, hpi]
  have h := run_distance_prune_init_counts d g.K g.g_clusters.means g.g_cluster_dist row
    { cluster_id := v.cluster_id, dist := v.dist, recalculated := false } p' hK hv
  exact ⟨h.1, by rw [h.2, hp']⟩

omit [LinearOrderedField α] in
/-- A row of the random initialisation gets a valid assignment and is added once to
its program. -/
theorem run_init_random_counts (rnd K : Nat) (row : V) (v : kmeans_vertex α)
    (p : kmeans_vertex_program V) (hK : 0 < K) :
    (run_init_random rnd K row (v, p)).1.cluster_id < K ∧
    ptotal K (run_init_random rnd K row (v, p)).2 = ptotal K p + 1 :=
  ⟨Nat.mod_lt rnd hK, ptotal_add_member K p _ row (Nat.mod_lt rnd hK)⟩

omit [LinearOrderedField α] [AddCommGroup V] in
/-- A pass over the rows of `l`, generically: when the row handler gives every
admissible vertex (`ok`) a valid assignment and changes the member total of the
program by `δ`, the pass keeps the globals, leaves every row admissible, gives every
row of `l` a valid assignment, and changes the member total over all threads by
`δ` per row. -/
theorem pass_fold
    (F : globals α V → Nat → kmeans_vertex α × kmeans_vertex_program V →
      kmeans_vertex α × kmeans_vertex_program V)
    (owner : Nat → Nat) (K N W : Nat) (ok : Nat → kmeans_vertex α → Prop) (δ : Int)
    (g0 : globals α V)
    (hF : ∀ r v p, r < N → ok r v →
      (F g0 r (v, p)).1.cluster_id < K ∧ ptotal K (F g0 r (v, p)).2 = ptotal K p + δ)
    (hok : ∀ r v, v.cluster_id < K → ok r v) (hown : ∀ r, r < N → owner r < W)
    (l : List Nat) :
    ∀ e : engine α V, (∀ r, r ∈ l → r < N) → e.g = g0 →
      (∀ r, r < N → ok r (e.verts r)) →
      (l.foldl (pass_step F owner) e).g = g0 ∧
      (∀ r, r < N → ok r ((l.foldl (pass_step F owner) e).verts r)) ∧
      (∀ r, r < N → (r ∈ l ∨ (e.verts r).cluster_id < K) →
        ((l.foldl (pass_step F owner) e).verts r).cluster_id < K) ∧
      ∑ t ∈ Finset.range W, ptotal K ((l.foldl (pass_step F owner) e).progs t) =
        ∑ t ∈ Finset.range W, ptotal K (e.progs t) + δ * l.length := by
  induction l with
  | nil =>
    intro e _ hg hv
    refine ⟨hg, hv, ?_, by simp⟩
    intro r _ h
    rcases h with h | h
    · exact absurd h (List.not_mem_nil r)
    · exact h
  | cons a t ih =>
    intro e hl hg hv
    have ha : a < N := hl a (List.mem_cons_self a t)
    obtain ⟨hF1, hF2⟩ := hF a (e.verts a) (e.progs (owner a)) ha (hv a ha)
    have hg1 : (pass_step F owner e a).g = g0 := hg
    have hva : ((pass_step F owner e a).verts a).cluster_id < K := by
      simp only [pass_step, Function.update_same, hg]
      exact hF1
    have hvne : ∀ r, r ≠ a → (pass_step F owner e a).verts r = e.verts r := by
      intro r hr
      simp only [pass_step, Function.update_noteq hr]
    have hv1 : ∀ r, r < N → ok r ((pass_step F owner e a).verts r) := by
      intro r hr
      by_cases hra : r = a
      · subst hra; exact hok r _ hva
      · rw [hvne r hra]; exact hv r hr
    have hsum : ∑ t ∈ Finset.range W, ptotal K ((pass_step F owner e a).progs t) =
        ∑ t ∈ Finset.range W, ptotal K (e.progs t) + δ := by
      have hcomp : (fun t => ptotal K ((pass_step F owner e a).progs t)) =
          Function.update (fun t => ptotal K (e.progs t)) (owner a)
            (ptotal K (F g0 a (e.verts a, e.progs (owner a))).2) := by
        funext t
        by_cases hto : t = owner a
        · subst hto; simp [pass_step, hg]
        · simp [pass_step, Function.update_noteq hto]
      rw [hcomp, sum_range_update W _ (owner a) (hown a ha), hF2]
      ring
    obtain ⟨i1, i2, i3, i4⟩ := ih (pass_step F owner e a)
      (fun r hr => hl r (List.mem_cons_of_mem a hr)) hg1 hv1
    rw [List.foldl_cons]
    refine ⟨i1, i2, ?_, ?_⟩
    · intro r hr h
      apply i3 r hr
      by_cases hra : r = a
      · right; subst hra; exact hva
      · rcases h with h | h
        · left
          rcases List.mem_cons.mp h with h | h
          · exact absurd h hra
          · exact h
        · right; rw [hvne r hra]; exact h
    · rw [i4, hsum, List.length_cons]
      push_cast
      ring

end Counts

section MStepCounts

variable {α : Type} [LinearOrderedField α] {V : Type} [AddCommGroup V] [Module α V]

theorem unfinalize_num_members (g : prune_clusters α V) (c : Nat) :
    (g.unfinalize c).num_members = g.num_members := by
  unfold prune_clusters.unfinalize
  split_ifs <;> rfl

theorem finalize_num_members (g : prune_clusters α V) (c : Nat) :
    (g.finalize c).num_members = g.num_members := by
  unfold prune_clusters.finalize
  split_ifs <;> rfl

theorem finalize_cluster_num_members (ed : V → V → α) (g : globals α V) (cl : Nat) :
    (finalize_cluster ed g cl).g_clusters.num_members = g.g_clusters.num_members :=
  finalize_num_members g.g_clusters cl

/-- `clear_clusters` zeroes the member counts when `g_prune_init` is set and keeps
them otherwise. -/
theorem clear_clusters_num_members (g : globals α V) (c : Nat) :
    (clear_clusters g).g_clusters.num_members c =
      if g.g_prune_init = true then 0 else g.g_clusters.num_members c := by
  unfold clear_clusters
  split_ifs with h
  · rfl
  · show ((List.range g.K).foldl (fun c cl => c.unfinalize cl)
      g.g_clusters.set_prev_means).num_members c = _
    rw [foldl_proj (fun c : prune_clusters α V => c.num_members)
      (fun c cl => c.unfinalize cl) unfinalize_num_members]
    rfl

omit [LinearOrderedField α] [Module α V] in
/-- The merge loop adds the member counts of the programs of all threads. -/
theorem merge_num_members (progs : Nat → kmeans_vertex_program V) (g : globals α V)
    (c W : Nat) :
    ((List.range W).foldl (fun g1 thd => merge_program g1 (progs thd))
        g).g_clusters.num_members c =
      g.g_clusters.num_members c +
        ∑ t ∈ Finset.range W, (progs t).pt_clusters.num_members c := by
  induction W with
  | zero => simp
  | succ n ih =>
    rw [foldl_range_succ, Finset.sum_range_succ]
    show _ + (progs n).pt_clusters.num_members c = _
    rw [ih]
    ring

/-- The finalize loop copies the member counts of the clusters `0 .. j-1` to
`g_num_members_v`. -/
theorem finalize_loop_num_members_v (ed : V → V → α) (g : globals α V) (j : Nat) :
    ∀ c, c < j →
      ((List.range j).foldl (finalize_cluster ed) g).g_num_members_v c =
        g.g_clusters.num_members c := by
  induction j with
  | zero => intro c hc; exact absurd hc (Nat.not_lt_zero c)
  | succ n ih =>
    intro c hc
    rw [foldl_range_succ]
    have hnm : ((List.range n).foldl (finalize_cluster ed) g).g_clusters.num_members =
        g.g_clusters.num_members :=
      foldl_proj (fun g1 : globals α V => g1.g_clusters.num_members) (finalize_cluster ed)
        (finalize_cluster_num_members ed) _ _
    show Function.update _ n _ c = _
    by_cases hcn : c = n
    · subst hcn
      rw [Function.update_same, finalize_num_members, hnm]
    · rw [Function.update_noteq hcn]
      exact ih c (by omega)

/-- The member counts after `update_clusters`: the counts kept by `clear_clusters`
plus the counts of all programs; they are copied to `g_num_members_v`. -/
theorem update_clusters_counts (ed : V → V → α) (W : Nat) (g : globals α V)
    (progs : Nat → kmeans_vertex_program V) :
    (∀ c, (update_clusters ed W g progs).1.g_clusters.num_members c =
      (if g.g_prune_init = true then 0 else g.g_clusters.num_members c) +
        ∑ t ∈ Finset.range W, (progs t).pt_clusters.num_members c) ∧
    (∀ c, c < g.K →
      (update_clusters ed W g progs).1.g_num_members_v c =
        (update_clusters ed W g progs).1.g_clusters.num_members c) := by
  have hnm : ∀ g2 : globals α V,
      ((List.range g.K).foldl (finalize_cluster ed) g2).g_clusters.num_members =
        g2.g_clusters.num_members := fun g2 =>
    foldl_proj (fun g1 : globals α V => g1.g_clusters.num_members) (finalize_cluster ed)
      (finalize_cluster_num_members ed) _ _
  constructor
  · intro c
    show ((List.range g.K).foldl (finalize_cluster ed) _).g_clusters.num_members c = _
    rw [hnm, merge_num_members, clear_clusters_num_members]
  · intro c hc
    show ((List.range g.K).foldl (finalize_cluster ed) _).g_num_members_v c =
      ((List.range g.K).foldl (finalize_cluster ed) _).g_clusters.num_members c
    rw [hnm, finalize_loop_num_members_v ed _ g.K c hc]

/-- What `update_clusters` leaves unchanged. -/
theorem update_clusters_consts (ed : V → V → α) (W : Nat) (g : globals α V)
    (progs : Nat → kmeans_vertex_program V) :
    (update_clusters ed W g progs).1.K = g.K ∧
    (update_clusters ed W g progs).1.NUM_ROWS = g.NUM_ROWS ∧
    (update_clusters ed W g progs).1.g_stage = g.g_stage ∧
    (update_clusters ed W g progs).1.g_kmspp_stage = g.g_kmspp_stage ∧
    (update_clusters ed W g progs).1.iter_barrier = g.iter_barrier ∧
    (update_clusters ed W g progs).1.g_prune_init = g.g_prune_init ∧
    (update_clusters ed W g progs).1.g_converged = g.g_converged ∧
    (update_clusters ed W g progs).1.cache = g.cache := by
  obtain ⟨c1, c2, _, _, _, _, c7, c8, c9, c10, c11, c12, _⟩ := clear_clusters_frame g
  unfold update_clusters
  simp only
  refine ⟨?_, ?_, ?_, ?_, ?_, ?_, ?_, ?_⟩
  · exact (foldl_proj globals.K (finalize_cluster ed) (fun _ _ => rfl) _ _).trans
      ((foldl_proj globals.K (fun g1 thd => merge_program g1 (progs thd))
        (fun _ _ => rfl) _ _).trans c1)
  · exact (foldl_proj globals.NUM_ROWS (finalize_cluster ed) (fun _ _ => rfl) _ _).trans
      ((foldl_proj globals.NUM_ROWS (fun g1 thd => merge_program g1 (progs thd))
        (fun _ _ => rfl) _ _).trans c2)
  · exact (foldl_proj globals.g_stage (finalize_cluster ed) (fun _ _ => rfl) _ _).trans
      ((foldl_proj globals.g_stage (fun g1 thd => merge_program g1 (progs thd))
        (fun _ _ => rfl) _ _).trans c10)
  · exact (foldl_proj globals.g_kmspp_stage (finalize_cluster ed) (fun _ _ => rfl) _ _).trans
      ((foldl_proj globals.g_kmspp_stage (fun g1 thd => merge_program g1 (progs thd))
        (fun _ _ => rfl) _ _).trans c11)
  · exact (foldl_proj globals.iter_barrier (finalize_cluster ed) (fun _ _ => rfl) _ _).trans
      ((foldl_proj globals.iter_barrier (fun g1 thd => merge_program g1 (progs thd))
        (fun _ _ => rfl) _ _).trans c12)
  · exact (foldl_proj globals.g_prune_init (finalize_cluster ed) (fun _ _ => rfl) _ _).trans
      ((foldl_proj globals.g_prune_init (fun g1 thd => merge_program g1 (progs thd))
        (fun _ _ => rfl) _ _).trans c9)
  · exact (foldl_proj globals.g_converged (finalize_cluster ed) (fun _ _ => rfl) _ _).trans
      ((foldl_proj globals.g_converged (fun g1 thd => merge_program g1 (progs thd))
        (fun _ _ => rfl) _ _).trans c7)
  · exact (foldl_proj globals.cache (finalize_cluster ed) (fun _ _ => rfl) _ _).trans
      ((foldl_proj globals.cache (fun g1 thd => merge_program g1 (progs thd))
        (fun _ _ => rfl) _ _).trans c8)

/-- What the M-step leaves unchanged, where the member counts come from, and the
flags after it. -/
theorem mstep_props (ed : V → V → α) (DBL_MAX : α) (W : Nat) (g g' : globals α V)
    (progs progs' : Nat → kmeans_vertex_program V)
    (h : mstep ed DBL_MAX W g progs = some (g', progs')) :
    g'.K = g.K ∧ g'.NUM_ROWS = g.NUM_ROWS ∧ g'.g_stage = g.g_stage ∧
    g'.g_kmspp_stage = g.g_kmspp_stage ∧ g'.iter_barrier = g.iter_barrier ∧
    (g'.g_prune_init = true → g'.g_converged = true) ∧
    g'.g_clusters.num_members = (update_clusters ed W g progs).1.g_clusters.num_members ∧
    g'.g_num_members_v = (update_clusters ed W g progs).1.g_num_members_v ∧
    progs' = (update_clusters ed W g progs).2 ∧
    (g.g_prune_init = false → g'.g_prune_init = false) := by
  obtain ⟨u1, u2, u3, u4, u5, u6, _, _⟩ := update_clusters_consts ed W g progs
  simp only [mstep, Option.map_eq_some'] at h
  obtain ⟨c, _, heq⟩ := h
  split_ifs at heq with ht
  · obtain ⟨h1, h2⟩ := Prod.mk.inj heq
    subst h1 h2
    exact ⟨u1, u2, u3, u4, u5, fun _ => rfl, rfl, rfl, rfl, fun h => u6.trans h⟩
  · obtain ⟨h1, h2⟩ := Prod.mk.inj heq
    subst h1 h2
    exact ⟨u1, u2, u3, u4, u5, fun h => Bool.noConfusion h, rfl, rfl, rfl, fun _ => rfl⟩

/-- A call of `run_on_iteration_end` that is not the last to arrive only counts. -/
theorem run_on_iteration_end_early (ed : V → V → α) (DBL_MAX : α) (W' : Nat)
    (g : globals α V) (progs : Nat → kmeans_vertex_program V) (k W : Nat)
    (hb : g.iter_barrier = { ncomplete := k, nmembers := W }) (hk : k + 1 < W)
    (hW : W < UINT_MOD) :
    run_on_iteration_end ed DBL_MAX W' g progs =
      some ({ g with iter_barrier := { ncomplete := k + 1, nmembers := W } }, progs) := by
  have hm : (k + 1) % UINT_MOD = k + 1 := Nat.mod_eq_of_lt (by omega)
  have hne : ¬ W = k + 1 := by omega
  simp [run_on_iteration_end, barrier.ping, hb, hm, hne]

/-- The call of `run_on_iteration_end` that is the last to arrive rearms the barrier
and runs the M-step unless `g_converged` is set. -/
theorem run_on_iteration_end_last (ed : V → V → α) (DBL_MAX : α) (W' : Nat)
    (g : globals α V) (progs : Nat → kmeans_vertex_program V) (k W : Nat)
    (hb : g.iter_barrier = { ncomplete := k, nmembers := W }) (hk : k + 1 = W)
    (hW : W < UINT_MOD) :
    run_on_iteration_end ed DBL_MAX W' g progs =
      if g.g_converged = false then
        mstep ed DBL_MAX W' { g with iter_barrier := barrier.create W } progs
      else some ({ g with iter_barrier := barrier.create W }, progs) := by
  subst hk
  have hm : (k + 1) % UINT_MOD = k + 1 := Nat.mod_eq_of_lt hW
  simp [run_on_iteration_end, barrier.ping, hb, hm, barrier.create]

/-- The hooks at the end of an iteration, started with a rearmed barrier: the first
`nthread - 1` calls only count, the last one runs the M-step unless `g_converged` is
set. -/
theorem end_of_pass_eq (cfg : setting α V) (e : engine α V) (hW1 : 1 ≤ cfg.nthread)
    (hW2 : cfg.nthread < UINT_MOD) (hbar : e.g.iter_barrier = barrier.create cfg.nthread) :
    end_of_pass cfg e =
      if e.g.g_converged = false then
        (mstep cfg.eucl_dist cfg.DBL_MAX cfg.nthread
          { e.g with iter_barrier := barrier.create cfg.nthread } e.progs).map
          fun gp => { e with g := gp.1, progs := gp.2 }
      else some { e with g := { e.g with iter_barrier := barrier.create cfg.nthread } } := by
  have early : ∀ k, k < cfg.nthread →
      (List.range k).foldl (fun oe (_ : Nat) =>
        oe.bind fun e1 =>
          (run_on_iteration_end cfg.eucl_dist cfg.DBL_MAX cfg.nthread e1.g e1.progs).map
            fun gp => { e1 with g := gp.1, progs := gp.2 }) (some e) =
        some { e with g :=
          { e.g with iter_barrier := { ncomplete := k, nmembers := cfg.nthread } } } := by
    intro k
    induction k with
    | zero =>
      intro _
      simp only [List.range_zero, List.foldl_nil]
      congr 1
      obtain ⟨g, verts, progs⟩ := e
      simp only at hbar
      simp only [engine.mk.injEq, and_true]
      cases g
      simp only at hbar
      simp only [globals.mk.injEq, true_and]
      exact hbar
    | succ n ih =>
      intro hn
      rw [foldl_range_succ, ih (by omega)]
      simp only [Option.some_bind]
      rw [run_on_iteration_end_early cfg.eucl_dist cfg.DBL_MAX cfg.nthread _ _ n cfg.nthread
        rfl hn hW2]
      rfl
  obtain ⟨n, hn⟩ : ∃ n, cfg.nthread = n + 1 := ⟨cfg.nthread - 1, by omega⟩
  unfold end_of_pass
  rw [hn, foldl_range_succ, ← hn, early n (by omega)]
  simp only [Option.some_bind]
  rw [run_on_iteration_end_last cfg.eucl_dist cfg.DBL_MAX cfg.nthread _ _ n cfg.nthread
    rfl hn.symm hW2]
  by_cases h1 : e.g.g_converged = false
  · simp only [if_pos h1]
  · simp only [if_neg h1, Option.map_some']

omit [AddCommGroup V] in
/-- The member total of the programs of all threads, by cluster first. -/
theorem sum_counts_comm (K W : Nat) (progs : Nat → kmeans_vertex_program V) :
    ∑ c ∈ Finset.range K, ∑ t ∈ Finset.range W, (progs t).pt_clusters.num_members c =
      ∑ t ∈ Finset.range W, ptotal K (progs t) := by
  unfold ptotal
  exact Finset.sum_comm

/-- The effect of the end-of-iteration hooks on what the invariant speaks about. -/
theorem end_of_pass_counts (cfg : setting α V) (e1 e : engine α V)
    (hW1 : 1 ≤ cfg.nthread) (hW2 : cfg.nthread < UINT_MOD)
    (hbar : e1.g.iter_barrier = barrier.create cfg.nthread)
    (h : end_of_pass cfg e1 = some e) :
    e.verts = e1.verts ∧ e.g.K = e1.g.K ∧ e.g.NUM_ROWS = e1.g.NUM_ROWS ∧
    e.g.g_stage = e1.g.g_stage ∧ e.g.g_kmspp_stage = e1.g.g_kmspp_stage ∧
    e.g.iter_barrier = barrier.create cfg.nthread ∧
    (e1.g.g_prune_init = false → e.g.g_prune_init = false) ∧
    ((e1.g.g_converged = true ∧ e.g.g_converged = true ∧
        e.g.g_clusters.num_members = e1.g.g_clusters.num_members ∧
        e.g.g_num_members_v = e1.g.g_num_members_v ∧ e.progs = e1.progs) ∨
      (e1.g.g_converged = false ∧ (e.g.g_prune_init = true → e.g.g_converged = true) ∧
        (∀ c, e.g.g_clusters.num_members c =
          (if e1.g.g_prune_init = true then 0 else e1.g.g_clusters.num_members c) +
            ∑ t ∈ Finset.range cfg.nthread, (e1.progs t).pt_clusters.num_members c) ∧
        (∀ c, c < e1.g.K → e.g.g_num_members_v c = e.g.g_clusters.num_members c) ∧
        ∑ t ∈ Finset.range cfg.nthread, ptotal e1.g.K (e.progs t) = 0)) := by
  rw [end_of_pass_eq cfg e1 hW1 hW2 hbar] at h
  by_cases hc : e1.g.g_converged = false
  · rw [if_pos hc, Option.map_eq_some'] at h
    obtain ⟨⟨g', progs'⟩, hm, he⟩ := h
    subst he
    obtain ⟨m1, m2, m3, m4, m5, m6, m7, m8, m9, m10⟩ :=
      mstep_props cfg.eucl_dist cfg.DBL_MAX cfg.nthread _ g' e1.progs progs' hm
    obtain ⟨k1, k2⟩ := update_clusters_counts cfg.eucl_dist cfg.nthread
      { e1.g with iter_barrier := barrier.create cfg.nthread } e1.progs
    refine ⟨rfl, m1, m2, m3, m4, m5, m10, Or.inr ⟨hc, m6, ?_, ?_, ?_⟩⟩
    · intro c
      show g'.g_clusters.num_members c = _
      rw [m7, k1 c]
    · intro c hcK
      show g'.g_num_members_v c = g'.g_clusters.num_members c
      rw [m7, m8]
      exact k2 c hcK
    · show ∑ t ∈ Finset.range cfg.nthread, ptotal e1.g.K (progs' t) = 0
      apply Finset.sum_eq_zero
      intro t ht
      rw [m9]
      have htl : t < cfg.nthread := Finset.mem_range.mp ht
      simp only [update_clusters, if_pos htl]
      exact ptotal_reset _ _
  · rw [if_neg hc, Option.some.injEq] at h
    subst h
    have hc' : e1.g.g_converged = true := by simpa using hc
    exact ⟨rfl, rfl, rfl, rfl, rfl, rfl, fun h => h, Or.inl ⟨hc', hc', rfl, rfl, rfl⟩⟩

/-- An iteration of the E-step run keeps the invariant. -/
theorem iteration_inv (cfg : setting α V) (e0 e : engine α V) (cache_hit : Nat → Bool)
    (order : List Nat) (hinv : run_inv cfg e0)
    (hperm : order.Perm (List.range e0.g.NUM_ROWS))
    (h : iteration cfg cache_hit order e0 = some e) : run_inv cfg e := by
  obtain ⟨hwf, hK, hst, hkm, hbar, hflag, hcid, hT, hsum, hv⟩ := hinv
  obtain ⟨hW1, hW2, hown⟩ := hwf
  have hmem : ∀ r, r ∈ order → r < e0.g.NUM_ROWS := fun r hr =>
    List.mem_range.mp (hperm.mem_iff.mp hr)
  obtain ⟨p1, _, p3, p4⟩ := pass_fold
    (fun g r vp => estep_row cfg.dist_comp_raw g (cache_hit r) (cfg.data r) vp) cfg.owner
    e0.g.K e0.g.NUM_ROWS cfg.nthread (fun _ v => v.cluster_id < e0.g.K) 0 e0.g
    (fun r v p _ hv => by
      have := estep_row_steady_counts cfg.dist_comp_raw e0.g (cache_hit r) (cfg.data r) v p
        hkm hst hflag hv
      exact ⟨this.1, by rw [this.2, add_zero]⟩)
    (fun _ _ h => h) hown order e0 hmem rfl hcid
  have h' : end_of_pass cfg (estep_pass cfg cache_hit order e0) = some e := h
  have hg1 : (estep_pass cfg cache_hit order e0).g = e0.g := p1
  obtain ⟨q1, q2, q3, q4, q5, q6, _, q8⟩ := end_of_pass_counts cfg _ e hW1 hW2
    (by rw [hg1]; exact hbar) h'
  rw [hg1] at q2 q3 q4 q5 q8
  have hT1 : ∑ t ∈ Finset.range cfg.nthread,
      ptotal e0.g.K ((estep_pass cfg cache_hit order e0).progs t) = 0 := by
    have := p4
    rw [hT] at this
    simpa [estep_pass] using this
  have hcid1 : ∀ r, r < e0.g.NUM_ROWS → (e.verts r).cluster_id < e0.g.K := by
    intro r hr
    rw [q1]
    exact p3 r hr (Or.inr (hcid r hr))
  unfold run_inv
  rw [q2, q3]
  refine ⟨⟨hW1, hW2, hown⟩, hK, q4.trans hst, q5.trans hkm, q6, ?_, hcid1, ?_, ?_, ?_⟩
  · rcases q8 with ⟨_, c2, _, _, _⟩ | ⟨_, c2, _, _, _⟩
    · exact fun _ => c2
    · exact c2
  · rcases q8 with ⟨_, _, _, _, c5⟩ | ⟨_, _, _, _, c5⟩
    · rw [c5]; exact hT1
    · exact c5
  · rcases q8 with ⟨_, _, c3, _, _⟩ | ⟨c1, _, c3, _, _⟩
    · rw [c3]; exact hsum
    · have hpi : ¬ e0.g.g_prune_init = true := by
        intro hp
        rw [hflag hp] at c1
        exact Bool.noConfusion c1
      simp only [c3, if_neg hpi, Finset.sum_add_distrib, hsum, sum_counts_comm, hT1,
        add_zero]
  · rcases q8 with ⟨_, _, c3, c4, _⟩ | ⟨_, _, _, c4, _⟩
    · intro c hc
      rw [c3, c4]
      exact hv c hc
    · exact c4

/-- The first iteration of the E-step run after a Forgy or k-means++ initialisation or
with caller-supplied centres establishes the invariant. -/
theorem first_iteration_inv (cfg : setting α V) (e0 e : engine α V)
    (cache_hit : Nat → Bool) (order : List Nat) (hent : prune_init_entry cfg e0)
    (hperm : order.Perm (List.range e0.g.NUM_ROWS))
    (h : iteration cfg cache_hit order e0 = some e) : run_inv cfg e := by
  obtain ⟨hwf, hK, hst, hkm, hpi, hconv, hit0, hmax, hbar, hprogs, hverts⟩ := hent
  obtain ⟨hW1, hW2, hown⟩ := hwf
  have hmem : ∀ r, r ∈ order → r < e0.g.NUM_ROWS := fun r hr =>
    List.mem_range.mp (hperm.mem_iff.mp hr)
  have hmem' : ∀ r, r < e0.g.NUM_ROWS → r ∈ order := fun r hr =>
    hperm.mem_iff.mpr (List.mem_range.mpr hr)
  have hlen : order.length = e0.g.NUM_ROWS := by
    rw [hperm.length_eq, List.length_range]
  obtain ⟨p1, _, p3, p4⟩ := pass_fold
    (fun g r vp => estep_row cfg.dist_comp_raw g (cache_hit r) (cfg.data r) vp) cfg.owner
    e0.g.K e0.g.NUM_ROWS cfg.nthread
    (fun r v => (v.dist = cfg.DBL_MAX ∧
        ∀ c, c < e0.g.K →
          cfg.dist_comp_raw (cfg.data r) (e0.g.g_clusters.means c) < cfg.DBL_MAX) ∨
      v.cluster_id < e0.g.K) 1 e0.g
    (fun r v p _ hv =>
      estep_row_prune_init_counts cfg.dist_comp_raw e0.g (cache_hit r) (cfg.data r) v p hK
        hkm hst hconv (by rw [hit0]; exact hmax) hpi
        (by
          rcases hv with ⟨hd, hfin⟩ | hv
          · left; intro c hc; rw [hd]; exact hfin c hc
          · right; exact hv))
    (fun _ _ h => Or.inr h) hown order e0 hmem rfl hverts
  have h' : end_of_pass cfg (estep_pass cfg cache_hit order e0) = some e := h
  have hg1 : (estep_pass cfg cache_hit order e0).g = e0.g := p1
  obtain ⟨q1, q2, q3, q4, q5, q6, _, q8⟩ := end_of_pass_counts cfg _ e hW1 hW2
    (by rw [hg1]; exact hbar) h'
  rw [hg1] at q2 q3 q4 q5 q8
  have hT0 : ∑ t ∈ Finset.range cfg.nthread, ptotal e0.g.K (e0.progs t) = 0 := by
    apply Finset.sum_eq_zero
    intro t _
    rw [hprogs t]
    exact ptotal_create _
  have hT1 : ∑ t ∈ Finset.range cfg.nthread,
      ptotal e0.g.K ((estep_pass cfg cache_hit order e0).progs t) = (e0.g.NUM_ROWS : Int) := by
    have := p4
    rw [hT0, hlen] at this
    simpa [estep_pass] using this
  have hcid1 : ∀ r, r < e0.g.NUM_ROWS → (e.verts r).cluster_id < e0.g.K := by
    intro r hr
    rw [q1]
    exact p3 r hr (Or.inl (hmem' r hr))
  rcases q8 with ⟨c1, _⟩ | ⟨_, c2, c3, c4, c5⟩
  · rw [hconv] at c1
    exact Bool.noConfusion c1
  · unfold run_inv
    rw [q2, q3]
    refine ⟨⟨hW1, hW2, hown⟩, hK, q4.trans hst, q5.trans hkm, q6, c2, hcid1, c5, ?_, c4⟩
    simp only [c3, if_pos hpi, Finset.sum_add_distrib, Finset.sum_const_zero, zero_add,
      sum_counts_comm, hT1]

/-- The random initialisation establishes the invariant. -/
theorem random_init_inv (cfg : setting α V) (e0 e : engine α V) (hooks : Bool)
    (rnd : Nat → Nat) (order : List Nat) (hent : random_fresh cfg e0)
    (hperm : order.Perm (List.range e0.g.NUM_ROWS))
    (h : random_init cfg hooks rnd order e0 = some e) : run_inv cfg e := by
  obtain ⟨hwf, hK, _, hkm, hpi, hcnt, hbar, hprogs⟩ := hent
  obtain ⟨hW1, hW2, hown⟩ := hwf
  have hmem : ∀ r, r ∈ order → r < e0.g.NUM_ROWS := fun r hr =>
    List.mem_range.mp (hperm.mem_iff.mp hr)
  have hmem' : ∀ r, r < e0.g.NUM_ROWS → r ∈ order := fun r hr =>
    hperm.mem_iff.mpr (List.mem_range.mpr hr)
  have hlen : order.length = e0.g.NUM_ROWS := by
    rw [hperm.length_eq, List.length_range]
  obtain ⟨p1, _, p3, p4⟩ := pass_fold
    (fun g r vp => run_init_random (rnd r) g.K (cfg.data r) vp) cfg.owner
    e0.g.K e0.g.NUM_ROWS cfg.nthread (fun _ _ => True) 1 e0.g
    (fun r v p _ _ => run_init_random_counts (rnd r) e0.g.K (cfg.data r) v p hK)
    (fun _ _ _ => trivial) hown order e0 hmem rfl (fun _ _ => trivial)
  have hg1 : (random_init_pass cfg rnd order e0).g = e0.g := p1
  have hT0 : ∑ t ∈ Finset.range cfg.nthread, ptotal e0.g.K (e0.progs t) = 0 := by
    apply Finset.sum_eq_zero
    intro t _
    rw [hprogs t]
    exact ptotal_create _
  have hT1 : ∑ t ∈ Finset.range cfg.nthread,
      ptotal e0.g.K ((random_init_pass cfg rnd order e0).progs t) =
        (e0.g.NUM_ROWS : Int) := by
    have := p4
    rw [hT0, hlen] at this
    simpa [random_init_pass] using this
  have hcid1 : ∀ r, r < e0.g.NUM_ROWS →
      ((random_init_pass cfg rnd order e0).verts r).cluster_id < e0.g.K := fun r hr =>
    p3 r hr (Or.inl (hmem' r hr))
  simp only [random_init, Option.bind_eq_some, Option.map_eq_some'] at h
  obtain ⟨e2, he2, c, _, he⟩ := h
  have key : e2.verts = (random_init_pass cfg rnd order e0).verts ∧ e2.g.K = e0.g.K ∧
      e2.g.NUM_ROWS = e0.g.NUM_ROWS ∧ e2.g.g_kmspp_stage = kmspp_stage_t.ADDMEAN ∧
      e2.g.iter_barrier = barrier.create cfg.nthread ∧ e2.g.g_prune_init = false ∧
      ∑ c ∈ Finset.range e0.g.K, e2.g.g_clusters.num_members c +
        ∑ t ∈ Finset.range cfg.nthread, ptotal e0.g.K (e2.progs t) =
          (e0.g.NUM_ROWS : Int) := by
    have hzero : ∑ c ∈ Finset.range e0.g.K, e0.g.g_clusters.num_members c = 0 :=
      Finset.sum_eq_zero (fun c _ => hcnt c)
    cases hooks with
    | false =>
      simp only [Bool.false_eq_true, if_false, Option.some.injEq] at he2
      subst he2
      refine ⟨rfl, by rw [hg1], by rw [hg1], by rw [hg1]; exact hkm,
        by rw [hg1]; exact hbar, by rw [hg1]; exact hpi, ?_⟩
      rw [hg1, hzero, hT1, zero_add]
    | true =>
      simp only [if_true] at he2
      obtain ⟨q1, q2, q3, _, q5, q6, q7, q8⟩ := end_of_pass_counts cfg _ e2 hW1 hW2
        (by rw [hg1]; exact hbar) he2
      rw [hg1] at q2 q3 q5 q7 q8
      refine ⟨q1, q2, q3, q5.trans hkm, q6, q7 hpi, ?_⟩
      rcases q8 with ⟨_, _, c3, _, c5⟩ | ⟨_, _, c3, _, c5⟩
      · rw [c3, c5, hzero, hT1, zero_add]
      · have hpi' : ¬ e0.g.g_prune_init = true := by rw [hpi]; exact Bool.noConfusion
        simp only [c3, if_neg hpi', Finset.sum_add_distrib, hzero, sum_counts_comm, hT1, c5,
          zero_add, add_zero]
  obtain ⟨k1, k2, k3, k4, k5, k6, k7⟩ := key
  obtain ⟨u1, u2, _, u4, u5, u6, _, _⟩ := update_clusters_consts cfg.eucl_dist cfg.nthread
    { e2.g with cache := c, g_io_reqs := (e2.g.g_io_reqs + e2.g.NUM_ROWS) % 2 ^ 64 } e2.progs
  obtain ⟨n1, n2⟩ := update_clusters_counts cfg.eucl_dist cfg.nthread
    { e2.g with cache := c, g_io_reqs := (e2.g.g_io_reqs + e2.g.NUM_ROWS) % 2 ^ 64 } e2.progs
  subst he
  have hKe : (update_clusters cfg.eucl_dist cfg.nthread
      { e2.g with cache := c, g_io_reqs := (e2.g.g_io_reqs + e2.g.NUM_ROWS) % 2 ^ 64 }
      e2.progs).1.K = e0.g.K := u1.trans k2
  have hNe : (update_clusters cfg.eucl_dist cfg.nthread
      { e2.g with cache := c, g_io_reqs := (e2.g.g_io_reqs + e2.g.NUM_ROWS) % 2 ^ 64 }
      e2.progs).1.NUM_ROWS = e0.g.NUM_ROWS := u2.trans k3
  have hpi2 : ¬ e2.g.g_prune_init = true := by rw [k6]; exact Bool.noConfusion
  unfold run_inv
  simp only [hKe, hNe]
  refine ⟨⟨hW1, hW2, hown⟩, hK, trivial, u4.trans k4, u5.trans k5, ?_, ?_, ?_, ?_, ?_⟩
  · intro hp
    have : e2.g.g_prune_init = true := u6.symm.trans hp
    exact absurd this hpi2
  · intro r hr
    rw [k1]
    exact hcid1 r hr
  · apply Finset.sum_eq_zero
    intro t _
    exact ptotal_create _
  · simp only [n1, if_neg hpi2, Finset.sum_add_distrib, sum_counts_comm]
    exact k7
  · intro c' hc'
    exact n2 c' (by rw [k2]; exact hc')

/-- Every engine state after an M-step satisfies the invariant. -/
theorem after_mstep_inv (cfg : setting α V) (e : engine α V) (h : after_mstep cfg e) :
    run_inv cfg e := by
  induction h with
  | random e0 e hooks rnd order hent hperm hrun =>
    exact random_init_inv cfg e0 e hooks rnd order hent hperm hrun
  | first e0 e cache_hit order hent hperm hrun =>
    exact first_iteration_inv cfg e0 e cache_hit order hent hperm hrun
  | next e0 e cache_hit order _ hperm hrun ih =>
    exact iteration_inv cfg e0 e cache_hit order ih hperm hrun

/-- C7. In every engine state that a run reaches after an M-step (the M-step of the
random initialisation, of the first pass with `g_prune_init` set, or of a later
steady-state pass; each row handled by exactly one worker in every pass), the
member counts written to `g_num_members_v` for the clusters `0 .. K-1` sum to the
number of rows. -/
theorem C7_member_counts_sum_to_rows (cfg : setting α V) (e : engine α V)
    (h : after_mstep cfg e) :
    ∑ c ∈ Finset.range e.g.K, e.g.g_num_members_v c = (e.g.NUM_ROWS : Int) := by
  obtain ⟨_, _, _, _, _, _, _, _, hsum, hv⟩ := after_mstep_inv cfg e h
  rw [← hsum]
  exact Finset.sum_congr rfl (fun c hc => hv c (Finset.mem_range.mp hc))

end MStepCounts

theorem some_getD_of_isSome {β : Type} (o : Option β) (d : β) (h : o.isSome = true) :
    o = some (o.getD d) := by
  cases o with
  | none => exact Bool.noConfusion h
  | some x => rfl

/-- The engine with caller-supplied centres `0`, `100` and rows `0`, `1` is at the
start of an E-step run. -/
theorem engine_b_entry :
    prune_init_entry (setting1 rows_b) (engine_with_centers 2 2 centers_b) := by
  refine ⟨⟨by decide, by decide, fun _ _ => Nat.zero_lt_one⟩, by decide, rfl, rfl, rfl, rfl,
    rfl,
    by decide, rfl, fun _ => rfl, ?_⟩
  intro r hr
  left
  refine ⟨rfl, ?_⟩
  intro c hc
  have hr2 : r < 2 := hr
  have hc2 : c < 2 := hc
  interval_cases r <;> interval_cases c <;> decide!

set_option maxRecDepth 100000 in
/-- Witness of C7: the state after the first iteration of the run on the rows `0`, `1`
with the centres `0`, `100`. -/
theorem C7_member_counts_sum_to_rows_witness :
    after_mstep (setting1 rows_b) engine_b_after ∧
    ∑ c ∈ Finset.range engine_b_after.g.K, engine_b_after.g.g_num_members_v c =
      (engine_b_after.g.NUM_ROWS : Int) :=
  have h : after_mstep (setting1 rows_b) engine_b_after :=
    after_mstep.first (engine_with_centers 2 2 centers_b) engine_b_after (fun _ => false)
      (List.range 2) engine_b_entry (List.Perm.refl _)
      (some_getD_of_isSome _ _ (by decide!))
  ⟨h, C7_member_counts_sum_to_rows (setting1 rows_b) engine_b_after h⟩

/-! ## The regeneration schedule of the row cache -/

/-- The regenerations seen in the first `a + b` calls start with those seen in the
first `a` calls. -/
theorem regeneration_log_add (a b : Nat) (s : CacheGlobals) :
    ∃ l, regeneration_log (a + b) s = regeneration_log a s ++ l := by
  unfold regeneration_log
  rw [List.range_add, List.filterMap_append]
  exact ⟨_, rfl⟩

set_option maxRecDepth 100000 in
/-- The regenerations of the first 46 calls, started with `U = 5`. -/
theorem regeneration_log_46 :
    regeneration_log 46 (CacheGlobals.start 5) = [(5, 15), (15, 45), (45, 135)] := by
  decide

set_option maxRecDepth 100000 in
/-- Counterexample to C11 as stated: started from `g_io_iter = 0` with `U = 5`, the
regenerations among the first 46 calls of `manage_cache` are the calls with
`g_io_iter` 5, 15 and 45, which leave `U` at 15, 45 and 135; the call with
`g_io_iter = 35` keeps the cache of generation 2 and `U = 45`. -/
theorem C11_counterexample :
    regeneration_log 46 (CacheGlobals.start 5) = [(5, 15), (15, 45), (45, 135)] ∧
    manage_cache_n 35 (CacheGlobals.start 5) = some ⟨some ⟨false, 2⟩, 35, 45⟩ ∧
    manage_cache_n 36 (CacheGlobals.start 5) = some ⟨some ⟨false, 2⟩, 36, 45⟩ ∧
    (regeneration_log 46 (CacheGlobals.start 5)).map Prod.fst ≠ [5, 15, 35] ∧
    ((regeneration_log 46 (CacheGlobals.start 5)).map Prod.snd).take 2 ≠ [10, 25] := by
  decide

/-- C11 (amended). Started from `g_io_iter = 0` with the cache enabled and `U = 5`,
and with `manage_cache` called `n ≥ 46` times, the first three regenerations of the
cache are the calls with `g_io_iter` equal to 5, 15 and 45, with `U = 15` after the
first, `U = 45` after the second and `U = 135` after the third. -/
theorem C11_regeneration_schedule (n : Nat) (hn : 46 ≤ n) :
    (regeneration_log n (CacheGlobals.start 5)).take 3 = [(5, 15), (15, 45), (45, 135)] := by
  obtain ⟨k, rfl⟩ : ∃ k, n = 46 + k := ⟨n - 46, by omega⟩
  obtain ⟨l, hl⟩ := regeneration_log_add 46 k (CacheGlobals.start 5)
  rw [hl, regeneration_log_46]
  rfl

/-- Witness of C11 (amended): 100 calls. -/
theorem C11_regeneration_schedule_witness :
    (46 : Nat) ≤ 100 ∧
    (regeneration_log 100 (CacheGlobals.start 5)).take 3 = [(5, 15), (15, 45), (45, 135)] :=
  ⟨by decide, C11_regeneration_schedule 100 (by decide)⟩

/-! ## The counter `g_io_iter` -/

/-- With the cache enabled, a call of `manage_cache` that does not divide by zero
returns, keeps the cache enabled and increments `g_io_iter`. -/
theorem manage_cache_io_iter (s : CacheGlobals) (rc : partition_cache)
    (hrc : s.g_row_cache = some rc)
    (hU : 0 < s.g_io_iter → 0 < s.g_cache_update_iter) :
    ∃ c, manage_cache s = some c ∧ c.g_io_iter = (s.g_io_iter + 1) % UINT_MOD ∧
      c.g_row_cache.isSome = true := by
  have hn : ¬ (0 < s.g_io_iter ∧ s.g_cache_update_iter = 0) := by
    intro ⟨h1, h2⟩
    have := hU h1
    omega
  unfold manage_cache
  rw [hrc]
  simp only [hn, if_false]
  split_ifs <;> exact ⟨_, rfl, rfl, rfl⟩

section IoIter

variable {α : Type} [LinearOrderedField α] {V : Type} [AddCommGroup V] [Module α V]

/-- With the cache enabled, the M-step returns and increments `g_io_iter`. -/
theorem mstep_io_iter (ed : V → V → α) (DBL_MAX : α) (W : Nat) (g : globals α V)
    (progs : Nat → kmeans_vertex_program V) (rc : partition_cache)
    (hrc : g.cache.g_row_cache = some rc)
    (hU : 0 < g.cache.g_io_iter → 0 < g.cache.g_cache_update_iter) :
    ∃ gp, mstep ed DBL_MAX W g progs = some gp ∧
      gp.1.cache.g_io_iter = (g.cache.g_io_iter + 1) % UINT_MOD := by
  obtain ⟨_, _, _, _, _, _, _, u8⟩ := update_clusters_consts ed W g progs
  obtain ⟨c, hc, hio, _⟩ := manage_cache_io_iter g.cache rc hrc hU
  have hsome : g.cache.g_row_cache.isSome = true := by
    rw [hrc]
    rfl
  unfold mstep
  simp only [u8, hsome, if_true, hc, Option.map_some']
  refine ⟨_, rfl, ?_⟩
  dsimp only
  split_ifs <;> exact hio

omit [Module α V] in
/-- The pass over the rows does not write the globals. -/
theorem estep_pass_g (cfg : setting α V) (cache_hit : Nat → Bool) (order : List Nat)
    (e : engine α V) : (estep_pass cfg cache_hit order e).g = e.g := by
  unfold estep_pass
  exact foldl_proj engine.g
    (pass_step (fun g r vp => estep_row cfg.dist_comp_raw g (cache_hit r) (cfg.data r) vp)
      cfg.owner) (fun _ _ => rfl) order e

/-- C12 (amended). With the cache enabled, every iteration of the E-step run at whose
end the M-step runs (`g_converged` is not set when the barrier is crossed, and
`manage_cache` does not divide by zero) returns and advances `g_io_iter` by one
(modulo `2^32`), whichever rows are active (`order`), whichever of them are served
from the cache (`cache_hit`) and whichever are skipped by lemma 1: the counter does
not depend on whether a row fetch occurred. -/
theorem C12_io_iter_advances_every_iteration (cfg : setting α V) (e : engine α V)
    (cache_hit : Nat → Bool) (order : List Nat) (rc : partition_cache)
    (hW1 : 1 ≤ cfg.nthread) (hW2 : cfg.nthread < UINT_MOD)
    (hbar : e.g.iter_barrier = barrier.create cfg.nthread)
    (hconv : e.g.g_converged = false) (hrc : e.g.cache.g_row_cache = some rc)
    (hU : 0 < e.g.cache.g_io_iter → 0 < e.g.cache.g_cache_update_iter) :
    ∃ e', iteration cfg cache_hit order e = some e' ∧
      e'.g.cache.g_io_iter = (e.g.cache.g_io_iter + 1) % UINT_MOD := by
  have hg := estep_pass_g cfg cache_hit order e
  unfold iteration
  rw [end_of_pass_eq cfg _ hW1 hW2 (by rw [hg]; exact hbar), hg, if_pos hconv]
  obtain ⟨gp, hgp, hio⟩ := mstep_io_iter cfg.eucl_dist cfg.DBL_MAX cfg.nthread
    { e.g with iter_barrier := barrier.create cfg.nthread }
    (estep_pass cfg cache_hit order e).progs rc hrc hU
  rw [hgp]
  exact ⟨_, rfl, hio⟩

end IoIter

set_option maxRecDepth 100000 in
/-- Counterexample to C12 as stated: the run with the row cache enabled on the rows
`-1`, `1` with the centres `-1`, `1` (one thread, tolerance 0). After the first
iteration `g_io_iter = 1` and `g_converged` is not set; in the second iteration both
rows are skipped by lemma 1 and no row is requested, and the iteration ends with
`g_io_iter = 2`. -/
theorem C12_counterexample :
    (iteration (setting1 means_pm1) (fun _ => false) (List.range 2)
      (engine_cached 2 2 means_pm1)).isSome = true ∧
    engine_pm1_after.g.g_converged = false ∧
    engine_pm1_after.g.cache.g_io_iter = 1 ∧
    ((engine_pm1_after.verts 0).run engine_pm1_after.g false).2.2 =
      run_outcome.lemma1_skip ∧
    ((engine_pm1_after.verts 1).run engine_pm1_after.g false).2.2 =
      run_outcome.lemma1_skip ∧
    ((estep_pass (setting1 means_pm1) (fun _ => false) (List.range 2)
      engine_pm1_after).progs 0).num_reqs = (engine_pm1_after.progs 0).num_reqs ∧
    (iteration (setting1 means_pm1) (fun _ => false) (List.range 2) engine_pm1_after).map
      (fun e => e.g.cache.g_io_iter) = some 2 := by
  refine ⟨?_, ?_, ?_, ?_, ?_, ?_, ?_⟩ <;> decide!

/-- Witness of C12 (amended): an iteration started in `engine_cached 2 2 means_pm1`
in which no row is active at all. -/
theorem C12_io_iter_advances_every_iteration_witness :
    ∃ e', iteration (setting1 means_pm1) (fun _ => true) [] (engine_cached 2 2 means_pm1) =
        some e' ∧
      e'.g.cache.g_io_iter = ((engine_cached 2 2 means_pm1).g.cache.g_io_iter + 1) % UINT_MOD :=
  C12_io_iter_advances_every_iteration (setting1 means_pm1) (engine_cached 2 2 means_pm1)
    (fun _ => true) [] ⟨true, 0⟩ (by decide) (by decide) rfl rfl rfl
    (fun h => absurd h (by decide))

/-! ## Selection of the next k-means++ centre -/

section KmeansPPTheorems

variable {α : Type} [LinearOrderedField α]

/-- The row returned by the scan is the first row at which the running value
`cuml_sum - (dist[row] + ... + dist[r])` is `≤ 0`. -/
theorem kmspp_scan_some (dist : Nat → α) (n row : Nat) (T : α) (r : Nat)
    (h : kmspp_scan dist n row T = some r) :
    row ≤ r ∧ r < row + n ∧ T - ∑ i ∈ Finset.Ico row (r + 1), dist i ≤ 0 ∧
    ∀ r', row ≤ r' → r' < r → 0 < T - ∑ i ∈ Finset.Ico row (r' + 1), dist i := by
  induction n generalizing row T with
  | zero => simp [kmspp_scan] at h
  | succ n ih =>
    unfold kmspp_scan at h
    by_cases hle : T - dist row ≤ 0
    · rw [if_pos hle] at h
      obtain rfl := Option.some.inj h
      refine ⟨le_refl _, by omega, ?_, fun r' h1 h2 => absurd h2 (by omega)⟩
      simpa using hle
    · rw [if_neg hle] at h
      obtain ⟨h1, h2, h3, h4⟩ := ih (row + 1) (T - dist row) h
      have hsplit : ∀ r', row ≤ r' →
          ∑ i ∈ Finset.Ico row (r' + 1), dist i =
            dist row + ∑ i ∈ Finset.Ico (row + 1) (r' + 1), dist i := fun r' hr =>
        Finset.sum_eq_sum_Ico_succ_bot (by omega) dist
      refine ⟨by omega, by omega, ?_, ?_⟩
      · rw [hsplit r (by omega)]
        linarith
      · intro r' hr1 hr2
        rcases Nat.eq_or_lt_of_le hr1 with heq | hlt
        · subst heq
          have : 0 < T - dist row := not_le.mp hle
          simpa using this
        · have := h4 r' hlt hr2
          rw [hsplit r' hr1]
          linarith

/-- When the scan ends without a row, the running value is positive at every row. -/
theorem kmspp_scan_none (dist : Nat → α) (n row : Nat) (T : α)
    (h : kmspp_scan dist n row T = none) :
    ∀ r', row ≤ r' → r' < row + n → 0 < T - ∑ i ∈ Finset.Ico row (r' + 1), dist i := by
  induction n generalizing row T with
  | zero => intro r' h1 h2; omega
  | succ n ih =>
    unfold kmspp_scan at h
    by_cases hle : T - dist row ≤ 0
    · rw [if_pos hle] at h
      exact Option.noConfusion h
    · rw [if_neg hle] at h
      intro r' hr1 hr2
      rcases Nat.eq_or_lt_of_le hr1 with heq | hlt
      · subst heq
        have : 0 < T - dist row := not_le.mp hle
        simpa using this
      · have := ih (row + 1) (T - dist row) h r' hlt (by omega)
        rw [Finset.sum_eq_sum_Ico_succ_bot (by omega) dist]
        linarith

end KmeansPPTheorems

/-- The row returned by `kmeanspp_get_next_cluster_id` is the smallest row `r` at
which the threshold `S * u / (RAND_MAX - 1)` minus `dist[0] + ... + dist[r]` is
`≤ 0`. -/
theorem kmeanspp_row_first {α : Type} [LinearOrderedField α] (NDEBUG : Bool)
    (RAND_MAX NUM_ROWS : Nat) (dist : Nat → α) (pt_cuml_sums : List α) (u : α) (r : Nat)
    (h : kmeanspp_get_next_cluster_id NDEBUG RAND_MAX NUM_ROWS dist pt_cuml_sums u =
      kmspp_pick.row r) :
    r < NUM_ROWS ∧
    kmspp_threshold RAND_MAX pt_cuml_sums u - ∑ i ∈ Finset.range (r + 1), dist i ≤ 0 ∧
    ∀ r', r' < r →
      0 < kmspp_threshold RAND_MAX pt_cuml_sums u - ∑ i ∈ Finset.range (r' + 1), dist i := by
  unfold kmeanspp_get_next_cluster_id at h
  split_ifs at h
  cases hs : kmspp_scan dist NUM_ROWS 0 (kmspp_threshold RAND_MAX pt_cuml_sums u) with
  | none =>
    rw [hs] at h
    exact kmspp_pick.noConfusion h
  | some r0 =>
    rw [hs] at h
    have hr : r0 = r := kmspp_pick.row.inj h
    subst hr
    obtain ⟨_, h2, h3, h4⟩ := kmspp_scan_some dist NUM_ROWS 0 _ r0 hs
    simp only [← Finset.range_eq_Ico] at h3 h4
    exact ⟨by omega, h3, fun r' hr' => h4 r' (Nat.zero_le _) hr'⟩

set_option maxRecDepth 100000 in
/-- C13, the code at the failing input: three rows with stored distances 0, 1, 1 (row
0 is the first centre), one partition with sum `S = 2`, the draw `u = 3/4`,
`RAND_MAX = 2147483647`. The threshold is `S * u / (RAND_MAX - 1) =
(3/2) / 2147483646` and row 1 is returned; the scan started from the threshold
`S * u = 3/2` returns row 2. -/
theorem C13_next_cluster_id_threshold :
    kmspp_threshold 2147483647 [(2 : ℚ)] (3 / 4) = (2 * (3 / 4)) / 2147483646 ∧
    kmeanspp_get_next_cluster_id false 2147483647 3
      (fun r => if r = 0 then (0 : ℚ) else 1) [2] (3 / 4) = kmspp_pick.row 1 ∧
    kmspp_scan (fun r => if r = 0 then (0 : ℚ) else 1) 3 0 (2 * (3 / 4)) = some 2 := by
  refine ⟨?_, ?_, ?_⟩ <;> decide!

/-! ## The parameter checks of the entry points -/

/-- The parameter checks stop with a fatal exit when `k < 2` or `k > NUM_ROWS`. -/
theorem check_params_bad_k (NDEBUG : Bool) (k : Nat) (init : String) (centers : Bool)
    (max_vertex_id num_cols : Nat) (h : k < 2 ∨ (max_vertex_id + 1) % UINT_MOD < k) :
    check_params NDEBUG k init centers max_vertex_id num_cols =
        Except.error fatal_exit.init_name ∨
      check_params NDEBUG k init centers max_vertex_id num_cols =
        Except.error fatal_exit.k_range := by
  unfold check_params
  by_cases h1 : centers = false ∧ init ≠ "random" ∧ init ≠ "kmeanspp" ∧ init ≠ "forgy"
  · left
    rw [if_pos h1]
  · right
    have h2 : (max_vertex_id + 1) % UINT_MOD < k ∨ k < 2 ∨ k = UINT_MOD - 1 := by
      rcases h with h | h
      · exact Or.inr (Or.inl h)
      · exact Or.inl h
    rw [if_neg h1, if_pos h2]

/-- The check of `k` passes for `2 ≤ k ≤ NUM_ROWS`, `k ≠ 2^32 - 1`. -/
theorem check_params_good_k (NDEBUG : Bool) (k : Nat) (init : String) (centers : Bool)
    (max_vertex_id num_cols : Nat) (h2 : 2 ≤ k) (hN : k ≤ (max_vertex_id + 1) % UINT_MOD)
    (hk : k ≠ UINT_MOD - 1) :
    check_params NDEBUG k init centers max_vertex_id num_cols ≠
      Except.error fatal_exit.k_range := by
  have h3 : ¬ ((max_vertex_id + 1) % UINT_MOD < k ∨ k < 2 ∨ k = UINT_MOD - 1) := by
    intro h
    rcases h with h | h | h
    · omega
    · omega
    · exact hk h
  unfold check_params
  split_ifs <;> simp

/-- When the name of the initialisation is accepted, `k` is in range and `num_cols`
is accepted, the checks return `K = k` and `NUM_ROWS`. -/
theorem check_params_ok (NDEBUG : Bool) (k : Nat) (init : String) (centers : Bool)
    (max_vertex_id num_cols : Nat)
    (hi : centers = true ∨ init = "random" ∨ init = "kmeanspp" ∨ init = "forgy")
    (h2 : 2 ≤ k) (hN : k ≤ (max_vertex_id + 1) % UINT_MOD) (hk : k ≠ UINT_MOD - 1)
    (hc : NDEBUG = true ∨ 0 < num_cols) :
    check_params NDEBUG k init centers max_vertex_id num_cols =
      Except.ok (k, (max_vertex_id + 1) % UINT_MOD) := by
  have h1 : ¬ (centers = false ∧ init ≠ "random" ∧ init ≠ "kmeanspp" ∧ init ≠ "forgy") := by
    intro ⟨a, b, c, d⟩
    rcases hi with hi | hi | hi | hi
    · rw [a] at hi
      exact Bool.noConfusion hi
    · exact b hi
    · exact c hi
    · exact d hi
  have h3 : ¬ ((max_vertex_id + 1) % UINT_MOD < k ∨ k < 2 ∨ k = UINT_MOD - 1) := by
    intro h
    rcases h with h | h | h
    · omega
    · omega
    · exact hk h
  have h4 : ¬ (NDEBUG = false ∧ num_cols = 0) := by
    intro ⟨a, b⟩
    rcases hc with hc | hc
    · rw [a] at hc
      exact Bool.noConfusion hc
    · omega
  unfold check_params
  rw [if_neg h1, if_neg h3, if_neg h4]

section EntryTheorems

variable {α : Type} [LinearOrderedField α] {V : Type} [AddCommGroup V]

/-- A fatal exit of the parameter checks is the result of
`compute_min_triangle_sem_kmeans`, whatever the runs of the engine would do. -/
theorem compute_min_triangle_fatal (cfg : setting α V) (NDEBUG log_info : Bool)
    (max_vertex_id : Nat) (prev0 : Nat → V) (table0 : Nat → Nat → α)
    (k : Nat) (init : String) (max_iters : Nat) (tolerance : α) (num_cols : Nat)
    (centers : Option (Nat → V)) (cache_size_gb : α) (rc_update_start_interval : Nat)
    (init_passes start_all : engine α V → Option (engine α V)) (f : fatal_exit)
    (h : check_params NDEBUG k init centers.isSome max_vertex_id num_cols = Except.error f) :
    compute_min_triangle_sem_kmeans cfg NDEBUG log_info max_vertex_id prev0 table0 k init
      max_iters tolerance num_cols centers cache_size_gb rc_update_start_interval
      init_passes start_all = Except.error f := by
  unfold compute_min_triangle_sem_kmeans
  rw [h]

/-- When the parameter checks pass, `compute_min_triangle_sem_kmeans` reports no
fatal exit. -/
theorem compute_min_triangle_ok (cfg : setting α V) (NDEBUG log_info : Bool)
    (max_vertex_id : Nat) (prev0 : Nat → V) (table0 : Nat → Nat → α)
    (k : Nat) (init : String) (max_iters : Nat) (tolerance : α) (num_cols : Nat)
    (centers : Option (Nat → V)) (cache_size_gb : α) (rc_update_start_interval : Nat)
    (init_passes start_all : engine α V → Option (engine α V)) (kn : Nat × Nat)
    (h : check_params NDEBUG k init centers.isSome max_vertex_id num_cols = Except.ok kn) :
    compute_min_triangle_sem_kmeans cfg NDEBUG log_info max_vertex_id prev0 table0 k init
      max_iters tolerance num_cols centers cache_size_gb rc_update_start_interval
      init_passes start_all =
    Except.ok
      ((match centers with
        | some _ =>
          some (var_init cfg kn.1 kn.2 max_iters tolerance centers cache_size_gb
            rc_update_start_interval prev0 table0)
        | none =>
          init_passes (var_init cfg kn.1 kn.2 max_iters tolerance centers cache_size_gb
            rc_update_start_interval prev0 table0)).bind fun e1 =>
        (if 0 < max_iters then start_all (estep_entry init centers.isSome e1)
         else some (estep_entry init centers.isSome e1)).map
          (cluster_result log_info num_cols)) := by
  unfold compute_min_triangle_sem_kmeans
  rw [h]

end EntryTheorems

/-- A fatal exit of the parameter checks is the result of
`compute_triangle_sem_kmeans`, whatever the rest of the function would do. -/
theorem compute_triangle_fatal {R : Type} (NDEBUG : Bool) (max_vertex_id : Nat)
    (k : Nat) (init : String) (num_cols : Nat) (centers : Bool) (run : Nat → Nat → R)
    (f : fatal_exit)
    (h : check_params NDEBUG k init centers max_vertex_id num_cols = Except.error f) :
    compute_triangle_sem_kmeans NDEBUG max_vertex_id k init num_cols centers run =
      Except.error f := by
  unfold compute_triangle_sem_kmeans
  rw [h]

section EntryClaims

variable {α : Type} [LinearOrderedField α] {V : Type} [AddCommGroup V]

/-- C15. For every `k` with `k < 2` or `k > NUM_ROWS`, both
`compute_min_triangle_sem_kmeans` and `compute_triangle_sem_kmeans` end in a fatal
exit of the parameter checks (the check of the name of the initialisation or the
check of `k`), the same whatever the initialisation and E-step runs would do: no run
is started. For every `k` with `2 ≤ k ≤ NUM_ROWS` and `k ≠ 2^32 - 1`, neither
function ends in the fatal exit of the check of `k`. -/
theorem C15_k_check (cfg : setting α V) (NDEBUG log_info : Bool)
    (max_vertex_id : Nat) (prev0 : Nat → V) (table0 : Nat → Nat → α)
    (k : Nat) (init : String) (max_iters : Nat) (tolerance : α) (num_cols : Nat)
    (centers : Option (Nat → V)) (cache_size_gb : α) (rc_update_start_interval : Nat) :
    ((k < 2 ∨ (max_vertex_id + 1) % UINT_MOD < k) →
      ∃ f, (f = fatal_exit.init_name ∨ f = fatal_exit.k_range) ∧
        (∀ init_passes start_all,
          compute_min_triangle_sem_kmeans cfg NDEBUG log_info max_vertex_id prev0 table0 k
            init max_iters tolerance num_cols centers cache_size_gb
            rc_update_start_interval init_passes start_all = Except.error f) ∧
        (∀ (R : Type) (run : Nat → Nat → R),
          compute_triangle_sem_kmeans NDEBUG max_vertex_id k init num_cols centers.isSome
            run = Except.error f)) ∧
    (2 ≤ k → k ≤ (max_vertex_id + 1) % UINT_MOD → k ≠ UINT_MOD - 1 →
      (∀ init_passes start_all,
        compute_min_triangle_sem_kmeans cfg NDEBUG log_info max_vertex_id prev0 table0 k
          init max_iters tolerance num_cols centers cache_size_gb
          rc_update_start_interval init_passes start_all ≠
            Except.error fatal_exit.k_range) ∧
      (∀ (R : Type) (run : Nat → Nat → R),
        compute_triangle_sem_kmeans NDEBUG max_vertex_id k init num_cols centers.isSome
          run ≠ Except.error fatal_exit.k_range)) := by
  constructor
  · intro h
    rcases check_params_bad_k NDEBUG k init centers.isSome max_vertex_id num_cols h with
      hc | hc
    · exact ⟨_, Or.inl rfl,
        fun ip sa => compute_min_triangle_fatal cfg NDEBUG log_info max_vertex_id prev0
          table0 k init max_iters tolerance num_cols centers cache_size_gb
          rc_update_start_interval ip sa _ hc,
        fun R run => compute_triangle_fatal NDEBUG max_vertex_id k init num_cols _ run _ hc⟩
    · exact ⟨_, Or.inr rfl,
        fun ip sa => compute_min_triangle_fatal cfg NDEBUG log_info max_vertex_id prev0
          table0 k init max_iters tolerance num_cols centers cache_size_gb
          rc_update_start_interval ip sa _ hc,
        fun R run => compute_triangle_fatal NDEBUG max_vertex_id k init num_cols _ run _ hc⟩
  · intro h2 hN hk
    have hg := check_params_good_k NDEBUG k init centers.isSome max_vertex_id num_cols h2 hN hk
    constructor
    · intro ip sa heq
      cases hc : check_params NDEBUG k init centers.isSome max_vertex_id num_cols with
      | error f =>
        rw [compute_min_triangle_fatal cfg NDEBUG log_info max_vertex_id prev0 table0 k
          init max_iters tolerance num_cols centers cache_size_gb rc_update_start_interval
          ip sa f hc] at heq
        have hf : f = fatal_exit.k_range := Except.error.inj heq
        exact hg (hf ▸ hc)
      | ok kn =>
        rw [compute_min_triangle_ok cfg NDEBUG log_info max_vertex_id prev0 table0 k
          init max_iters tolerance num_cols centers cache_size_gb rc_update_start_interval
          ip sa kn hc] at heq
        exact Except.noConfusion heq
    · intro R run heq
      cases hc : check_params NDEBUG k init centers.isSome max_vertex_id num_cols with
      | error f =>
        rw [compute_triangle_fatal NDEBUG max_vertex_id k init num_cols centers.isSome run
          f hc] at heq
        have hf : f = fatal_exit.k_range := Except.error.inj heq
        exact hg (hf ▸ hc)
      | ok kn =>
        unfold compute_triangle_sem_kmeans at heq
        rw [hc] at heq
        exact Except.noConfusion heq

/-- C16 (amended). `compute_min_triangle_sem_kmeans` does not check the tolerance:
whenever the checks of the name of the initialisation, of `k` and of `num_cols`
pass, no fatal exit is reported for any tolerance, inside `[0, 1]` or not, and the
given value is stored in `g_tolerance` for the run. -/
theorem C16_tolerance_not_checked (cfg : setting α V) (NDEBUG log_info : Bool)
    (max_vertex_id : Nat) (prev0 : Nat → V) (table0 : Nat → Nat → α)
    (k : Nat) (init : String) (max_iters : Nat) (tolerance : α) (num_cols : Nat)
    (centers : Option (Nat → V)) (cache_size_gb : α) (rc_update_start_interval : Nat)
    (kn : Nat × Nat)
    (hchk : check_params NDEBUG k init centers.isSome max_vertex_id num_cols =
      Except.ok kn) :
    (∀ init_passes start_all, ∃ r,
      compute_min_triangle_sem_kmeans cfg NDEBUG log_info max_vertex_id prev0 table0 k
        init max_iters tolerance num_cols centers cache_size_gb rc_update_start_interval
        init_passes start_all = Except.ok r) ∧
    (var_init cfg kn.1 kn.2 max_iters tolerance centers cache_size_gb
      rc_update_start_interval prev0 table0).g.g_tolerance = tolerance ∧
    ∀ e : engine α V, (estep_entry init centers.isSome e).g.g_tolerance = e.g.g_tolerance :=
  ⟨fun ip sa => ⟨_, compute_min_triangle_ok cfg NDEBUG log_info max_vertex_id prev0 table0
      k init max_iters tolerance num_cols centers cache_size_gb rc_update_start_interval
      ip sa kn hchk⟩, rfl, fun _ => rfl⟩

/-- With caller centres and `max_iters = 0` no run is started: the result holds the
caller centres, the assignment `INVALID_CLUST_ID` for every row, zero sizes and zero
iterations. -/
theorem max_iters_zero_result (cfg : setting α V) (NDEBUG log_info : Bool)
    (max_vertex_id : Nat) (prev0 : Nat → V) (table0 : Nat → Nat → α)
    (k : Nat) (init : String) (tolerance : α) (num_cols : Nat)
    (centers : Nat → V) (cache_size_gb : α) (rc_update_start_interval : Nat)
    (init_passes start_all : engine α V → Option (engine α V)) (kn : Nat × Nat)
    (hchk : check_params NDEBUG k init true max_vertex_id num_cols = Except.ok kn) :
    compute_min_triangle_sem_kmeans cfg NDEBUG log_info max_vertex_id prev0 table0 k init 0
      tolerance num_cols (some centers) cache_size_gb rc_update_start_interval
      init_passes start_all =
    Except.ok (some
      { nrow := kn.2
        ncol := num_cols
        iters := 0
        k := kn.1
        assignments := fun _ => INVALID_CLUST_ID
        assignment_count := fun _ => 0
        means := centers }) := by
  rw [compute_min_triangle_ok cfg NDEBUG log_info max_vertex_id prev0 table0 k init 0
    tolerance num_cols (some centers) cache_size_gb rc_update_start_interval init_passes
    start_all kn hchk]
  simp [cluster_result, estep_entry, var_init, kmeans_vertex.create]

/-- C17 (amended). For every dataset and every caller-supplied centroid set,
`compute_min_triangle_sem_kmeans` called with `max_iters = 0` and parameters that
pass the checks starts no run of the engine and returns those centroids unchanged,
zero iterations, zero cluster sizes and, for every row `r`, the assignment
`INVALID_CLUST_ID = 2^32 - 1` that the vertex was constructed with. -/
theorem C17_max_iters_zero_returns_centers (cfg : setting α V) (NDEBUG log_info : Bool)
    (max_vertex_id : Nat) (prev0 : Nat → V) (table0 : Nat → Nat → α)
    (k : Nat) (init : String) (tolerance : α) (num_cols : Nat)
    (centers : Nat → V) (cache_size_gb : α) (rc_update_start_interval : Nat)
    (h2 : 2 ≤ k) (hN : k ≤ (max_vertex_id + 1) % UINT_MOD) (hk : k ≠ UINT_MOD - 1)
    (hc : NDEBUG = true ∨ 0 < num_cols) :
    ∀ init_passes start_all, ∃ res : cluster_t V,
      compute_min_triangle_sem_kmeans cfg NDEBUG log_info max_vertex_id prev0 table0 k init
        0 tolerance num_cols (some centers) cache_size_gb rc_update_start_interval
        init_passes start_all = Except.ok (some res) ∧
      res.means = centers ∧ (∀ r, res.assignments r = INVALID_CLUST_ID) ∧
      res.iters = 0 ∧ (∀ c, res.assignment_count c = 0) ∧
      res.nrow = (max_vertex_id + 1) % UINT_MOD ∧ res.k = k :=
  fun ip sa => ⟨_, max_iters_zero_result cfg NDEBUG log_info max_vertex_id prev0 table0 k
    init tolerance num_cols centers cache_size_gb rc_update_start_interval ip sa _
    (check_params_ok NDEBUG k init true max_vertex_id num_cols (Or.inl rfl) h2 hN hk hc),
    rfl, fun _ => rfl, rfl, fun _ => rfl, rfl, rfl⟩

end EntryClaims

/-- Witness of C15: three rows (`max_vertex_id = 2`), random initialisation; `k = 1` is
rejected and `k = 2` passes the check of `k`. -/
theorem C15_k_check_witness :
    (∃ f, (f = fatal_exit.init_name ∨ f = fatal_exit.k_range) ∧
      (∀ init_passes start_all,
        compute_min_triangle_sem_kmeans (setting1 rows_a) false true 2 (fun _ => 0)
          (fun _ _ => 0) 1 "random" 10 0 1 none 0 5 init_passes start_all =
            Except.error f) ∧
      (∀ (R : Type) (run : Nat → Nat → R),
        compute_triangle_sem_kmeans false 2 1 "random" 1 false run = Except.error f)) ∧
    ((∀ init_passes start_all,
        compute_min_triangle_sem_kmeans (setting1 rows_a) false true 2 (fun _ => 0)
          (fun _ _ => 0) 2 "random" 10 0 1 none 0 5 init_passes start_all ≠
            Except.error fatal_exit.k_range) ∧
      (∀ (R : Type) (run : Nat → Nat → R),
        compute_triangle_sem_kmeans false 2 2 "random" 1 false run ≠
          Except.error fatal_exit.k_range)) :=
  ⟨(C15_k_check (setting1 rows_a) false true 2 (fun _ => 0) (fun _ _ => 0) 1 "random" 10 0
      1 none 0 5).1 (Or.inl (by decide)),
    (C15_k_check (setting1 rows_a) false true 2 (fun _ => 0) (fun _ _ => 0) 2 "random" 10 0
      1 none 0 5).2 (by decide) (by decide) (by decide)⟩

/-- Counterexample to C16 as stated: three rows, `K = 2`, random initialisation, one
column; with the tolerance `-1` and with the tolerance `2` the parameter checks pass
and `compute_min_triangle_sem_kmeans` reports no fatal exit. -/
theorem C16_counterexample :
    check_params false 2 "random" false 2 1 = Except.ok (2, 3) ∧
    (∀ init_passes start_all, ∃ r,
      compute_min_triangle_sem_kmeans (setting1 rows_a) false true 2 (fun _ => 0)
        (fun _ _ => 0) 2 "random" 10 (-1) 1 none 0 5 init_passes start_all =
          Except.ok r) ∧
    (∀ init_passes start_all, ∃ r,
      compute_min_triangle_sem_kmeans (setting1 rows_a) false true 2 (fun _ => 0)
        (fun _ _ => 0) 2 "random" 10 2 1 none 0 5 init_passes start_all =
          Except.ok r) ∧
    ¬ ((0 : ℚ) ≤ -1) ∧ ¬ ((2 : ℚ) ≤ 1) :=
  ⟨check_params_ok false 2 "random" false 2 1 (Or.inr (Or.inl rfl)) (by decide) (by decide)
      (by decide) (Or.inr (by decide)),
    fun ip sa => ⟨_, compute_min_triangle_ok (setting1 rows_a) false true 2 (fun _ => 0)
      (fun _ _ => 0) 2 "random" 10 (-1) 1 none 0 5 ip sa (2, 3)
      (check_params_ok false 2 "random" false 2 1 (Or.inr (Or.inl rfl)) (by decide) (by decide)
      (by decide) (Or.inr (by decide)))⟩,
    fun ip sa => ⟨_, compute_min_triangle_ok (setting1 rows_a) false true 2 (fun _ => 0)
      (fun _ _ => 0) 2 "random" 10 2 1 none 0 5 ip sa (2, 3)
      (check_params_ok false 2 "random" false 2 1 (Or.inr (Or.inl rfl)) (by decide) (by decide)
      (by decide) (Or.inr (by decide)))⟩,
    by decide!, by decide!⟩

/-- Witness of C16 (amended): the tolerance `-1` on three rows with `K = 2`. -/
theorem C16_tolerance_not_checked_witness :
    check_params false 2 "random" false 2 1 = Except.ok (2, 3) ∧
    (∀ init_passes start_all, ∃ r,
      compute_min_triangle_sem_kmeans (setting1 rows_a) false true 2 (fun _ => 0)
        (fun _ _ => 0) 2 "random" 10 (-1) 1 none 0 5 init_passes start_all =
          Except.ok r) ∧
    (var_init (setting1 rows_a) 2 3 10 (-1) none 0 5 (fun _ => 0)
      (fun _ _ => 0)).g.g_tolerance = -1 ∧
    ∀ e : engine ℚ ℚ, (estep_entry "random" false e).g.g_tolerance = e.g.g_tolerance :=
  ⟨check_params_ok false 2 "random" false 2 1 (Or.inr (Or.inl rfl)) (by decide) (by decide)
      (by decide) (Or.inr (by decide)),
    C16_tolerance_not_checked (setting1 rows_a) false true 2 (fun _ => 0) (fun _ _ => 0) 2
      "random" 10 (-1) 1 none 0 5 (2, 3)
      (check_params_ok false 2 "random" false 2 1 (Or.inr (Or.inl rfl)) (by decide) (by decide)
      (by decide) (Or.inr (by decide)))⟩

/-- Counterexample to C17 as stated: the rows `0`, `1` with the caller centres `0`,
`100`, `K = 2`, `max_iters = 0`. The centres are returned unchanged, but both rows
get the assignment `4294967295`, while the centre nearest to either row is centre
0. -/
theorem C17_counterexample :
    (∀ init_passes start_all,
      compute_min_triangle_sem_kmeans (setting1 rows_b) false true 1 (fun _ => 0)
        (fun _ _ => 0) 2 "random" 0 0 1 (some centers_b) 0 5 init_passes start_all =
      Except.ok (some
        { nrow := 2
          ncol := 1
          iters := 0
          k := 2
          assignments := fun _ => 4294967295
          assignment_count := fun _ => 0
          means := centers_b })) ∧
    dist1 (rows_b 0) (centers_b 0) < dist1 (rows_b 0) (centers_b 1) ∧
    dist1 (rows_b 1) (centers_b 0) < dist1 (rows_b 1) (centers_b 1) ∧
    (4294967295 : Nat) ≠ 0 :=
  ⟨fun ip sa => max_iters_zero_result (setting1 rows_b) false true 1 (fun _ => 0)
      (fun _ _ => 0) 2 "random" 0 1 centers_b 0 5 ip sa (2, 2)
      (check_params_ok false 2 "random" true 1 1 (Or.inl rfl) (by decide) (by decide)
        (by decide) (Or.inr (by decide))),
    by decide!, by decide!, by decide⟩

/-- Witness of C17 (amended): the rows `0`, `1` with the caller centres `0`, `100`. -/
theorem C17_max_iters_zero_returns_centers_witness :
    (2 ≤ 2 ∧ 2 ≤ (1 + 1) % UINT_MOD ∧ 2 ≠ UINT_MOD - 1 ∧ 0 < 1) ∧
    ∀ init_passes start_all, ∃ res : cluster_t ℚ,
      compute_min_triangle_sem_kmeans (setting1 rows_b) false true 1 (fun _ => 0)
        (fun _ _ => 0) 2 "random" 0 0 1 (some centers_b) 0 5 init_passes start_all =
          Except.ok (some res) ∧
      res.means = centers_b ∧ (∀ r, res.assignments r = INVALID_CLUST_ID) ∧
      res.iters = 0 ∧ (∀ c, res.assignment_count c = 0) ∧
      res.nrow = (1 + 1) % UINT_MOD ∧ res.k = 2 :=
  ⟨by decide,
    C17_max_iters_zero_returns_centers (setting1 rows_b) false true 1 (fun _ => 0)
      (fun _ _ => 0) 2 "random" 0 1 centers_b 0 5 (by decide) (by decide) (by decide)
      (Or.inr (by decide))⟩

/-! ## Forgy initialisation -/

set_option maxRecDepth 100000 in
/-- C18, the code at the failing input: three rows `-3`, `3`, `100`, `K = 2`, and the
draws `1`, `1` of `uniform_int_distribution(0, 2)`. The ids selected are `1`, `1`;
`g_init_hash` maps row 1 to cluster 1 and no row to cluster 0; after the run centroid
1 is row 1 and centroid 0 is still the zero vector of the new `g_clusters`. -/
theorem C18_forgy_duplicate_draw :
    (forgy_select 2 (fun _ => 1) (fun _ => none)).2 = [1, 1] ∧
    (forgy_select 2 (fun _ => 1) (fun _ => none)).1 0 = none ∧
    (forgy_select 2 (fun _ => 1) (fun _ => none)).1 1 = some 1 ∧
    (forgy_select 2 (fun _ => 1) (fun _ => none)).1 2 = none ∧
    (forgy_init (setting1 rows_a) (fun _ => 1)
      (var_init (setting1 rows_a) 2 3 10 0 none 0 5 (fun _ => 0)
        (fun _ _ => 0))).g.g_clusters.means 1 = 3 ∧
    (forgy_init (setting1 rows_a) (fun _ => 1)
      (var_init (setting1 rows_a) 2 3 10 0 none 0 5 (fun _ => 0)
        (fun _ _ => 0))).g.g_clusters.means 0 = 0 := by
  refine ⟨?_, ?_, ?_, ?_, ?_, ?_⟩ <;> decide!

/-- The ids selected by the Forgy loop are the draws themselves, in order: a draw
that repeats an earlier one is kept. -/
theorem forgy_select_ids (K : Nat) (draw : Nat → Nat) (h0 : Nat → Option Nat) :
    (forgy_select K draw h0).2 = (List.range K).map draw := by
  unfold forgy_select
  induction K with
  | zero => rfl
  | succ n ih =>
    rw [foldl_range_succ, List.range_succ, List.map_append, ← ih]
    rfl

/-- One more turn of the Forgy loop. -/
theorem forgy_select_succ (n : Nat) (draw : Nat → Nat) (h0 : Nat → Option Nat) :
    forgy_select (n + 1) draw h0 =
      (Function.update (forgy_select n draw h0).1 (draw n) (some n),
        (forgy_select n draw h0).2 ++ [draw n]) := by
  unfold forgy_select
  rw [foldl_range_succ]

/-- The map `g_init_hash` after the Forgy loop, started empty: a row is mapped to the
cluster of the last turn in which it was drawn. -/
theorem forgy_select_hash (K : Nat) (draw : Nat → Nat) (id cl : Nat) :
    (forgy_select K draw (fun _ => none)).1 id = some cl ↔
      cl < K ∧ draw cl = id ∧ ∀ cl', cl < cl' → cl' < K → draw cl' ≠ id := by
  induction K with
  | zero =>
    constructor
    · intro h
      exact Option.noConfusion h
    · intro ⟨h, _, _⟩
      omega
  | succ n ih =>
    rw [forgy_select_succ]
    by_cases hid : id = draw n
    · subst hid
      simp only [Function.update_same, Option.some.injEq]
      constructor
      · intro h
        subst h
        exact ⟨by omega, rfl, fun cl' h1 h2 => absurd h2 (by omega)⟩
      · intro ⟨h1, _, h3⟩
        by_contra hne
        exact h3 n (by omega) (by omega) rfl
    · simp only [Function.update_noteq hid]
      rw [ih]
      constructor
      · intro ⟨h1, h2, h3⟩
        refine ⟨by omega, h2, fun cl' h4 h5 => ?_⟩
        rcases Nat.eq_or_lt_of_le (Nat.le_of_lt_succ h5) with h6 | h6
        · subst h6
          exact fun h => hid h.symm
        · exact h3 cl' h4 h6
      · intro ⟨h1, h2, h3⟩
        have hne : cl ≠ n := by
          intro h
          subst h
          exact hid h2.symm
        exact ⟨by omega, h2, fun cl' h4 h5 => h3 cl' h4 (by omega)⟩

/-- When a later turn of the Forgy loop draws the id of an earlier turn, no row is
mapped to the cluster of the earlier turn. -/
theorem forgy_repeated_draw (K : Nat) (draw : Nat → Nat) (cl1 cl2 : Nat) (h12 : cl1 < cl2)
    (h2 : cl2 < K) (hd : draw cl1 = draw cl2) (id : Nat) :
    (forgy_select K draw (fun _ => none)).1 id ≠ some cl1 := by
  intro h
  obtain ⟨_, h3, h4⟩ := (forgy_select_hash K draw id cl1).mp h
  exact h4 cl2 h12 h2 (hd.symm.trans h3)

/-! ## The s-values and the minimum of the distance table -/

section MinDist

variable {α : Type} [LinearOrderedField α]

/-- A running minimum is the seed or one of the values. -/
theorem foldl_min_mem {β : Type} (f : β → α) (l : List β) (m : α) :
    l.foldl (fun m j => min m (f j)) m = m ∨
      ∃ j, j ∈ l ∧ l.foldl (fun m j => min m (f j)) m = f j := by
  induction l generalizing m with
  | nil => exact Or.inl rfl
  | cons a t ih =>
    rw [List.foldl_cons]
    rcases ih (min m (f a)) with h | ⟨j, hj, h⟩
    · rcases min_choice m (f a) with hm | hm
      · exact Or.inl (h.trans hm)
      · exact Or.inr ⟨a, List.mem_cons_self a t, h.trans hm⟩
    · exact Or.inr ⟨j, List.mem_cons_of_mem a hj, h⟩

/-- With at least two clusters and no half distance above the seed, `min_half_dist`
is attained at a cluster other than `i`. -/
theorem min_half_dist_attained (DBL_MAX : α) (get : Nat → Nat → α) (K i : Nat)
    (hK : 2 ≤ K) (hmax : ∀ j, j < K → j ≠ i → get i j ≤ DBL_MAX) :
    ∃ j, j < K ∧ j ≠ i ∧ min_half_dist DBL_MAX get K i = get i j := by
  have hmem : ∀ j, j ∈ (List.range K).filter (fun j => decide (j ≠ i)) ↔ j < K ∧ j ≠ i := by
    intro j
    simp [List.mem_filter]
  rcases foldl_min_mem (fun j => get i j)
      ((List.range K).filter (fun j => decide (j ≠ i))) DBL_MAX with h | ⟨j, hj, h⟩
  · obtain ⟨j0, hj0, hne⟩ : ∃ j0, j0 < K ∧ j0 ≠ i := by
      rcases Nat.eq_zero_or_pos i with h0 | h0
      · exact ⟨1, by omega, by omega⟩
      · exact ⟨0, by omega, by omega⟩
    refine ⟨j0, hj0, hne, ?_⟩
    have h1 := min_half_dist_le DBL_MAX get K i j0 hj0 hne
    have h2 := hmax j0 hj0 hne
    unfold min_half_dist at h1 ⊢
    rw [h] at h1 ⊢
    exact le_antisymm h1 h2
  · obtain ⟨h1, h2⟩ := (hmem j).mp hj
    exact ⟨j, h1, h2, h⟩

end MinDist

section SValClaims

variable {α : Type} [LinearOrderedField α] {V : Type}

/-- C19. After `compute_dist` on `K ≥ 2` centroids, for every cluster `i` the s-value
`get_s_val(i)` equals the minimum `get_min_dist(i)` of the distance table, and this
value is the minimum over `j ≠ i` of `dist(mu_i, mu_j) / 2`: it is below every such
half distance and, when no half distance exceeds the maximum double, it is one of
them. The centroids are those given to `compute_dist`. -/
theorem C19_s_val_eq_min_dist (eucl_dist : V → V → α) (DBL_MAX : α) (K : Nat)
    (c : prune_clusters α V) (i : Nat) (hK : 2 ≤ K)
    (hmax : ∀ j, j < K → j ≠ i → eucl_dist (c.means i) (c.means j) / 2 ≤ DBL_MAX) :
    (compute_dist eucl_dist DBL_MAX K c).2.get_s_val i =
      get_min_dist DBL_MAX (compute_dist eucl_dist DBL_MAX K c).1 K i ∧
    (compute_dist eucl_dist DBL_MAX K c).2.means = c.means ∧
    (∀ j, j < K → j ≠ i →
      (compute_dist eucl_dist DBL_MAX K c).2.get_s_val i ≤
        eucl_dist (c.means i) (c.means j) / 2) ∧
    ∃ j, j < K ∧ j ≠ i ∧
      (compute_dist eucl_dist DBL_MAX K c).2.get_s_val i =
        eucl_dist (c.means i) (c.means j) / 2 :=
  ⟨rfl, rfl,
    fun j hj hne =>
      min_half_dist_le DBL_MAX (fun a b => eucl_dist (c.means a) (c.means b) / 2) K i j hj hne,
    min_half_dist_attained DBL_MAX (fun a b => eucl_dist (c.means a) (c.means b) / 2) K i
      hK hmax⟩

end SValClaims

/-- Witness of C19: the centroids `-1` and `1` on a line, cluster 0. -/
theorem C19_s_val_eq_min_dist_witness :
    (compute_dist dist1 DBL_MAX1 2 (globals1 2 2 means_pm1 (fun _ => 0) false).g_clusters).2.get_s_val
        0 =
      get_min_dist DBL_MAX1
        (compute_dist dist1 DBL_MAX1 2
          (globals1 2 2 means_pm1 (fun _ => 0) false).g_clusters).1 2 0 ∧
    (compute_dist dist1 DBL_MAX1 2
      (globals1 2 2 means_pm1 (fun _ => 0) false).g_clusters).2.means = means_pm1 ∧
    (∀ j, j < 2 → j ≠ 0 →
      (compute_dist dist1 DBL_MAX1 2
        (globals1 2 2 means_pm1 (fun _ => 0) false).g_clusters).2.get_s_val 0 ≤
          dist1 (means_pm1 0) (means_pm1 j) / 2) ∧
    ∃ j, j < 2 ∧ j ≠ 0 ∧
      (compute_dist dist1 DBL_MAX1 2
        (globals1 2 2 means_pm1 (fun _ => 0) false).g_clusters).2.get_s_val 0 =
          dist1 (means_pm1 0) (means_pm1 j) / 2 :=
  C19_s_val_eq_min_dist dist1 DBL_MAX1 2 (globals1 2 2 means_pm1 (fun _ => 0) false).g_clusters
    0 (by decide) (fun j hj hne => by
      have h1 : j = 1 := by omega
      subst h1
      decide!)

/-! ## The distance `dist_comp` -/

section DistCompTheorems

variable {α : Type} [LinearOrderedField α]

/-- The loop of `dist_comp` started in the state `(d, n)`: the sum of the squared
differences is added to `d`, the index advances by the length of the row. -/
theorem dist_comp_loop_from (vertex : List α) (mean : Nat → α) (d : α) (n : Nat) :
    vertex.foldl (fun st e => (st.1 + (e - mean st.2) * (e - mean st.2), st.2 + 1)) (d, n) =
      (d + ∑ i ∈ Finset.range vertex.length, (vertex.getD i 0 - mean (n + i)) ^ 2,
        n + vertex.length) := by
  induction vertex generalizing d n with
  | nil => simp
  | cons a t ih =>
    rw [List.foldl_cons, ih, List.length_cons, Finset.sum_range_succ']
    simp only [List.getD_cons_succ, List.getD_cons_zero, Nat.add_zero]
    refine Prod.ext ?_ ?_
    · simp only
      have hs : ∀ i, n + 1 + i = n + (i + 1) := fun i => by omega
      simp only [hs]
      ring
    · simp only
      omega

/-- The value under the square root of `dist_comp` is the sum of the squared
coordinate differences. -/
theorem dist_comp_loop_sum (vertex mean : List α) :
    (dist_comp_loop vertex (fun nid => mean.getD nid 0)).1 =
      ∑ i ∈ Finset.range vertex.length, (vertex.getD i 0 - mean.getD i 0) ^ 2 := by
  unfold dist_comp_loop
  rw [dist_comp_loop_from vertex (fun nid => mean.getD nid 0) 0 0]
  simp

/-- C20. For every square-root function and all vectors `a`, `b` of the same length
`D`, the distance `dist_comp` is the square root of the sum over the coordinates of
the squared differences and is symmetric; on `(1,2,3,4,5)` and `(6,7,8,9,10)` it is
the square root of 125. -/
theorem C20_dist_comp_euclidean_symmetric (sqrt : α → α) (a b : List α)
    (h : a.length = b.length) :
    dist_comp sqrt a b =
      sqrt (∑ i ∈ Finset.range a.length, (a.getD i 0 - b.getD i 0) ^ 2) ∧
    dist_comp sqrt a b = dist_comp sqrt b a ∧
    dist_comp sqrt [1, 2, 3, 4, 5] [6, 7, 8, 9, 10] = sqrt 125 ∧
    dist_comp sqrt [6, 7, 8, 9, 10] [1, 2, 3, 4, 5] = sqrt 125 := by
  refine ⟨?_, ?_, ?_, ?_⟩
  · unfold dist_comp
    rw [dist_comp_loop_sum]
  · unfold dist_comp
    rw [dist_comp_loop_sum, dist_comp_loop_sum, h]
    congr 1
    refine Finset.sum_congr rfl (fun i _ => ?_)
    ring
  · unfold dist_comp
    rw [dist_comp_loop_sum]
    congr 1
    simp [Finset.sum_range_succ]
    norm_num
  · unfold dist_comp
    rw [dist_comp_loop_sum]
    congr 1
    simp [Finset.sum_range_succ]
    norm_num

end DistCompTheorems

/-- Witness of C20: the vectors of `test_eucl` over the reals, with the real square
root. -/
theorem C20_dist_comp_euclidean_symmetric_witness :
    ([1, 2, 3, 4, 5] : List ℝ).length = ([6, 7, 8, 9, 10] : List ℝ).length ∧
    (dist_comp Real.sqrt [1, 2, 3, 4, 5] [6, 7, 8, 9, 10] =
      Real.sqrt (∑ i ∈ Finset.range ([1, 2, 3, 4, 5] : List ℝ).length,
        (([1, 2, 3, 4, 5] : List ℝ).getD i 0 - ([6, 7, 8, 9, 10] : List ℝ).getD i 0) ^ 2) ∧
    dist_comp Real.sqrt [1, 2, 3, 4, 5] [6, 7, 8, 9, 10] =
      dist_comp Real.sqrt [6, 7, 8, 9, 10] [1, 2, 3, 4, 5] ∧
    dist_comp Real.sqrt [1, 2, 3, 4, 5] [6, 7, 8, 9, 10] = Real.sqrt 125 ∧
    dist_comp Real.sqrt [6, 7, 8, 9, 10] [1, 2, 3, 4, 5] = Real.sqrt 125) :=
  ⟨rfl, C20_dist_comp_euclidean_symmetric Real.sqrt [1, 2, 3, 4, 5] [6, 7, 8, 9, 10] rfl⟩

/-! ## The partition state after `run_distance` -/

section PartitionRule

variable {α : Type} [LinearOrderedField α] {V : Type} [AddCommGroup V]

/-- C21. The partition program after `run_distance`, where `final` is the cluster of
the row after the scan and the changed-count does not wrap: with `g_prune_init` set,
`pt_changed` grows by 1 and the row is added to the accumulator of `final`, whether
or not the assignment changed; with `g_prune_init` not set and an assignment that
changed, `pt_changed` grows by 1 and `swap_membership(row, old, final)` is applied;
with `g_prune_init` not set and the same assignment, the program is left as it
was. `num_reqs` is never written. -/
theorem C21_run_distance_partition_rule (d : V → V → α) (pi : Bool) (K : Nat)
    (means : Nat → V) (get : Nat → Nat → α) (row : V) (v : kmeans_vertex α)
    (p : kmeans_vertex_program V) (hlt : p.pt_changed + 1 < UINT_MOD) :
    (run_distance d pi K means get row (v, p)).1 = scan d pi K means get row v ∧
    (pi = true →
      (run_distance d pi K means get row (v, p)).2 =
        { pt_changed := p.pt_changed + 1
          pt_clusters :=
            p.pt_clusters.add_member row (run_distance d pi K means get row (v, p)).1.cluster_id
          num_reqs := p.num_reqs }) ∧
    (pi = false → v.cluster_id ≠ (run_distance d pi K means get row (v, p)).1.cluster_id →
      (run_distance d pi K means get row (v, p)).2 =
        { pt_changed := p.pt_changed + 1
          pt_clusters :=
            p.pt_clusters.swap_membership row v.cluster_id
              (run_distance d pi K means get row (v, p)).1.cluster_id
          num_reqs := p.num_reqs }) ∧
    (pi = false → v.cluster_id = (run_distance d pi K means get row (v, p)).1.cluster_id →
      (run_distance d pi K means get row (v, p)).2 = p) := by
  have hmod : (p.pt_changed + 1) % UINT_MOD = p.pt_changed + 1 := Nat.mod_eq_of_lt hlt
  have hfst := run_distance_fst d pi K means get row (v, p)
  refine ⟨hfst, ?_, ?_, ?_⟩
  · intro hpi
    subst hpi
    rw [hfst]
    simp [run_distance, kmeans_vertex_program.pt_changed_pp,
      kmeans_vertex_program.add_member, hmod]
  · intro hpi hne
    subst hpi
    rw [hfst] at hne ⊢
    have hne' : v.cluster_id ≠ (scan d false K means get row v).cluster_id := hne
    simp [run_distance, hne', kmeans_vertex_program.pt_changed_pp,
      kmeans_vertex_program.swap_membership, hmod]
  · intro hpi heq
    subst hpi
    rw [hfst] at heq
    have heq' : v.cluster_id = (scan d false K means get row v).cluster_id := heq
    simp [run_distance, ← heq']

end PartitionRule

/-- Witness of C21: the row `1` assigned to the centroid `-1` (cluster 0) with the
bound `5`, centroids `-1` and `1`, a new program, each mode. -/
theorem C21_run_distance_partition_rule_witness :
    (kmeans_vertex_program.create : kmeans_vertex_program ℚ).pt_changed + 1 < UINT_MOD ∧
    ((run_distance dist1 false 2 means_pm1 (half_table means_pm1) 1
        (⟨0, 5, false⟩, kmeans_vertex_program.create)).1 =
      scan dist1 false 2 means_pm1 (half_table means_pm1) 1 ⟨0, 5, false⟩ ∧
    (false = true →
      (run_distance dist1 false 2 means_pm1 (half_table means_pm1) 1
        (⟨0, 5, false⟩, kmeans_vertex_program.create)).2 =
        { pt_changed := (kmeans_vertex_program.create : kmeans_vertex_program ℚ).pt_changed + 1
          pt_clusters :=
            (kmeans_vertex_program.create : kmeans_vertex_program ℚ).pt_clusters.add_member 1
              (run_distance dist1 false 2 means_pm1 (half_table means_pm1) 1
                (⟨0, 5, false⟩, kmeans_vertex_program.create)).1.cluster_id
          num_reqs := (kmeans_vertex_program.create : kmeans_vertex_program ℚ).num_reqs }) ∧
    (false = false →
      (0 : Nat) ≠ (run_distance dist1 false 2 means_pm1 (half_table means_pm1) 1
        (⟨0, 5, false⟩, kmeans_vertex_program.create)).1.cluster_id →
      (run_distance dist1 false 2 means_pm1 (half_table means_pm1) 1
        (⟨0, 5, false⟩, kmeans_vertex_program.create)).2 =
        { pt_changed := (kmeans_vertex_program.create : kmeans_vertex_program ℚ).pt_changed + 1
          pt_clusters :=
            (kmeans_vertex_program.create : kmeans_vertex_program ℚ).pt_clusters.swap_membership
              1 0
              (run_distance dist1 false 2 means_pm1 (half_table means_pm1) 1
                (⟨0, 5, false⟩, kmeans_vertex_program.create)).1.cluster_id
          num_reqs := (kmeans_vertex_program.create : kmeans_vertex_program ℚ).num_reqs }) ∧
    (false = false →
      (0 : Nat) = (run_distance dist1 false 2 means_pm1 (half_table means_pm1) 1
        (⟨0, 5, false⟩, kmeans_vertex_program.create)).1.cluster_id →
      (run_distance dist1 false 2 means_pm1 (half_table means_pm1) 1
        (⟨0, 5, false⟩, kmeans_vertex_program.create)).2 = kmeans_vertex_program.create)) ∧
    (run_distance dist1 false 2 means_pm1 (half_table means_pm1) 1
      (⟨0, 5, false⟩, kmeans_vertex_program.create)).1.cluster_id = 1 ∧
    (run_distance dist1 false 2 means_pm1 (half_table means_pm1) 1
      (⟨0, 5, false⟩, kmeans_vertex_program.create)).2.pt_changed = 1 :=
  ⟨by decide,
    C21_run_distance_partition_rule dist1 false 2 means_pm1 (half_table means_pm1) 1
      ⟨0, 5, false⟩ kmeans_vertex_program.create (by decide),
    by decide!, by decide!⟩

/-! ## The scan of `kmeanspp_get_next_cluster_id` under a threshold within the total -/

/-- C29. Whenever the scaled threshold `T = S * u / (RAND_MAX - 1)` satisfies
`0 < T ≤ kmspp_dist[0] + ... + kmspp_dist[N-1]`, `kmeanspp_get_next_cluster_id`
returns a row `r < N` with `kmspp_dist[r] > 0`; it ends neither in the assertion on a
zero sum nor in the trailing assertion after the loop. The hypothesis that every
stored distance is `≥ 0` is not needed. -/
theorem C29_scan_returns_positive_row {α : Type} [LinearOrderedField α] (NDEBUG : Bool)
    (RAND_MAX NUM_ROWS : Nat) (dist : Nat → α) (pt_cuml_sums : List α) (u : α)
    (hT0 : 0 < kmspp_threshold RAND_MAX pt_cuml_sums u)
    (hT1 : kmspp_threshold RAND_MAX pt_cuml_sums u ≤ ∑ r ∈ Finset.range NUM_ROWS, dist r) :
    (∃ r, kmeanspp_get_next_cluster_id NDEBUG RAND_MAX NUM_ROWS dist pt_cuml_sums u =
        kmspp_pick.row r ∧ r < NUM_ROWS ∧ 0 < dist r) ∧
    kmeanspp_get_next_cluster_id NDEBUG RAND_MAX NUM_ROWS dist pt_cuml_sums u ≠
      kmspp_pick.exit_failure ∧
    kmeanspp_get_next_cluster_id NDEBUG RAND_MAX NUM_ROWS dist pt_cuml_sums u ≠
      kmspp_pick.assert_cuml_sum_zero := by
  have hne : ¬ (NDEBUG = false ∧ kmspp_threshold RAND_MAX pt_cuml_sums u = 0) :=
    fun h => (ne_of_gt hT0) h.2
  have hN : 0 < NUM_ROWS := by
    rcases Nat.eq_zero_or_pos NUM_ROWS with h | h
    · subst h
      simp only [Finset.range_zero, Finset.sum_empty] at hT1
      exact absurd hT0 (not_lt.mpr hT1)
    · exact h
  cases hs : kmspp_scan dist NUM_ROWS 0 (kmspp_threshold RAND_MAX pt_cuml_sums u) with
  | none =>
    have h := kmspp_scan_none dist NUM_ROWS 0 _ hs (NUM_ROWS - 1) (Nat.zero_le _) (by omega)
    rw [← Finset.range_eq_Ico, Nat.sub_add_cancel hN] at h
    exact absurd hT1 (not_le.mpr (by linarith))
  | some r =>
    have hres : kmeanspp_get_next_cluster_id NDEBUG RAND_MAX NUM_ROWS dist pt_cuml_sums u =
        kmspp_pick.row r := by
      unfold kmeanspp_get_next_cluster_id
      rw [if_neg hne, hs]
    obtain ⟨_, h2, h3, h4⟩ := kmspp_scan_some dist NUM_ROWS 0 _ r hs
    simp only [← Finset.range_eq_Ico] at h3 h4
    have hpos : 0 < dist r := by
      rw [Finset.sum_range_succ] at h3
      rcases Nat.eq_zero_or_pos r with h0 | h0
      · subst h0
        simp only [Finset.range_zero, Finset.sum_empty] at h3
        linarith
      · have h5 := h4 (r - 1) (Nat.zero_le _) (by omega)
        rw [Nat.sub_add_cancel h0] at h5
        linarith
    refine ⟨⟨r, hres, by omega, hpos⟩, ?_, ?_⟩
    · rw [hres]
      exact fun h => kmspp_pick.noConfusion h
    · rw [hres]
      exact fun h => kmspp_pick.noConfusion h

set_option maxRecDepth 100000 in
/-- Witness of C29: four rows with the stored distances 0, 0, 3, 1 (sum 4), one
partition with sum 4, the draw `1/2` and `RAND_MAX = 2147483647`, so that
`T = 2 / 2147483646`; the row returned is row 2. -/
theorem C29_scan_returns_positive_row_witness :
    ((0 : ℚ) < kmspp_threshold 2147483647 [4] (1 / 2) ∧
      kmspp_threshold 2147483647 [(4 : ℚ)] (1 / 2) ≤
        ∑ r ∈ Finset.range 4, (fun r => if r < 2 then (0 : ℚ) else if r = 2 then 3 else 1) r) ∧
    ((∃ r, kmeanspp_get_next_cluster_id false 2147483647 4
        (fun r => if r < 2 then (0 : ℚ) else if r = 2 then 3 else 1) [4] (1 / 2) =
          kmspp_pick.row r ∧ r < 4 ∧
        0 < (fun r => if r < 2 then (0 : ℚ) else if r = 2 then 3 else 1) r) ∧
      kmeanspp_get_next_cluster_id false 2147483647 4
        (fun r => if r < 2 then (0 : ℚ) else if r = 2 then 3 else 1) [4] (1 / 2) ≠
          kmspp_pick.exit_failure ∧
      kmeanspp_get_next_cluster_id false 2147483647 4
        (fun r => if r < 2 then (0 : ℚ) else if r = 2 then 3 else 1) [4] (1 / 2) ≠
          kmspp_pick.assert_cuml_sum_zero) ∧
    kmeanspp_get_next_cluster_id false 2147483647 4
      (fun r => if r < 2 then (0 : ℚ) else if r = 2 then 3 else 1) [4] (1 / 2) =
        kmspp_pick.row 2 :=
  ⟨⟨by decide!, by decide!⟩,
    C29_scan_returns_positive_row false 2147483647 4
      (fun r => if r < 2 then (0 : ℚ) else if r = 2 then 3 else 1) [4] (1 / 2)
      (by decide!) (by decide!),
    by decide!⟩

/-! ## The regeneration schedule for every start interval -/

/-- A call of `manage_cache` that does not regenerate the cache: the index is built
if it was empty, and only `g_io_iter` advances. -/
theorem manage_cache_keep (s : CacheGlobals) (rc : partition_cache)
    (hrc : s.g_row_cache = some rc) (hU : 0 < s.g_cache_update_iter)
    (hreg : s.g_io_iter = 0 ∨ s.g_io_iter % s.g_cache_update_iter ≠ 0) :
    manage_cache s = some
      { g_row_cache := some { index_empty := false, generation := rc.generation }
        g_io_iter := (s.g_io_iter + 1) % UINT_MOD
        g_cache_update_iter := s.g_cache_update_iter } := by
  have h1 : ¬ (0 < s.g_io_iter ∧ s.g_cache_update_iter = 0) := by
    intro ⟨_, h⟩
    omega
  have h2 : ¬ (0 < s.g_io_iter ∧ s.g_io_iter % s.g_cache_update_iter = 0) := by
    intro ⟨ha, hb⟩
    rcases hreg with h | h
    · omega
    · exact h hb
  unfold manage_cache
  rw [hrc]
  simp only [h1, h2, if_false]
  obtain ⟨ie, gen⟩ := rc
  obtain ⟨c, io, u⟩ := s
  simp only at hrc
  subst hrc
  cases ie <;> simp [partition_cache.build_index]

/-- The state after `n ≥ 1` calls of `manage_cache`, started from `g_io_iter = 0` with
the interval `U0 ≥ 1`, as long as nothing wraps around: `g_io_iter = n`, the cache has
been regenerated `k` times, `U = U0 * 3^k`, the regenerations were the calls with
`g_io_iter = U0 * 3^j` for `j < k`, and `n ≤ U`. -/
theorem manage_cache_n_state (U0 : Nat) (hU0 : 1 ≤ U0) (n : Nat)
    (hn : 1 ≤ n) (hno : 3 * n < UINT_MOD) :
    ∃ k, manage_cache_n n (CacheGlobals.start U0) = some
        { g_row_cache := some { index_empty := decide (n = U0 * 3 ^ (k - 1) + 1 ∧ 1 ≤ k),
                                generation := k }
          g_io_iter := n
          g_cache_update_iter := U0 * 3 ^ k } ∧
      n ≤ U0 * 3 ^ k ∧ ∀ j, j < k → U0 * 3 ^ j < n := by
  induction n with
  | zero => omega
  | succ m ih =>
    rcases Nat.eq_zero_or_pos m with hm | hm
    · subst hm
      refine ⟨0, ?_, by simpa using hU0, fun j hj => absurd hj (by omega)⟩
      simp [manage_cache_n, manage_cache, CacheGlobals.start, partition_cache.build_index,
        UINT_MOD]
    · obtain ⟨k, hk, hle, hprev⟩ := ih hm (by omega)
      have hUpos : 0 < U0 * 3 ^ k := Nat.mul_pos (by omega) (pow_pos (by omega) k)
      have hio : (m + 1) % UINT_MOD = m + 1 := Nat.mod_eq_of_lt (by omega)
      simp only [manage_cache_n, hk, Option.some_bind]
      rcases Nat.eq_or_lt_of_le hle with heq | hlt'
      · -- the call with `g_io_iter = U` regenerates the cache
        refine ⟨k + 1, ?_, ?_, ?_⟩
        · rw [manage_cache_regen _ _ rfl hm hUpos (by
            show m % (U0 * 3 ^ k) = 0
            rw [heq]
            exact Nat.mod_self _)]
          have h1 : (m + U0 * 3 ^ k) % UINT_MOD = m + U0 * 3 ^ k :=
            Nat.mod_eq_of_lt (by omega)
          have h2 : (U0 * 3 ^ k + (m + U0 * 3 ^ k)) % UINT_MOD =
              U0 * 3 ^ k + (m + U0 * 3 ^ k) := Nat.mod_eq_of_lt (by omega)
          have h3 : U0 * 3 ^ k + (m + U0 * 3 ^ k) = U0 * 3 ^ (k + 1) := by
            rw [heq, pow_succ]
            ring
          have h4 : U0 * 3 ^ (k + 1) % UINT_MOD = U0 * 3 ^ (k + 1) := by
            rw [← h3]
            exact h2
          have hd : decide (m + 1 = U0 * 3 ^ (k + 1 - 1) + 1 ∧ 1 ≤ k + 1) = true := by
            simp [heq]
          simp only [if_pos heq, h1, h3, h4, hio, hd]
        · have h5 : U0 * 3 ^ (k + 1) = 3 * (U0 * 3 ^ k) := by
            rw [pow_succ]
            ring
          omega
        · intro j hj
          rcases Nat.eq_or_lt_of_le (Nat.le_of_lt_succ hj) with h | h
          · rw [h, ← heq]
            omega
          · have := hprev j h
            omega
      · -- any other call keeps the cache
        refine ⟨k, ?_, by omega, fun j hj => by have := hprev j hj; omega⟩
        rw [manage_cache_keep _ _ rfl hUpos (Or.inr (by
          show m % (U0 * 3 ^ k) ≠ 0
          rw [Nat.mod_eq_of_lt hlt']
          omega))]
        have hd : decide (m + 1 = U0 * 3 ^ (k - 1) + 1 ∧ 1 ≤ k) = false := by
          rw [decide_eq_false_iff_not]
          intro ⟨h1, h2⟩
          have := hprev (k - 1) (by omega)
          omega
        simp only [hio, hd]


/-- The exponent of the current interval is determined by the number of calls. -/
theorem pow3_eq_of_bounds (U0 i k k' : Nat) (hU0 : 1 ≤ U0) (hle : i ≤ U0 * 3 ^ k)
    (hprev : ∀ j, j < k → U0 * 3 ^ j < i) (h : i = U0 * 3 ^ k') : k' = k := by
  rcases Nat.lt_trichotomy k' k with h1 | h1 | h1
  · have := hprev k' h1
    omega
  · exact h1
  · have h2 : 3 ^ k < 3 ^ k' := Nat.pow_lt_pow_right (by omega) h1
    have h3 : U0 * 3 ^ k < U0 * 3 ^ k' := Nat.mul_lt_mul_of_pos_left h2 (by omega)
    omega

/-- The call of `manage_cache` made with `g_io_iter = i`, in a run started from
`g_io_iter = 0` with the interval `U0 ≥ 1` and without wrap-around: the state before
the call and the state after it. -/
theorem manage_cache_call (U0 i : Nat) (hU0 : 1 ≤ U0) (hno : 3 * (i + 1) < UINT_MOD) :
    ∃ k ie, manage_cache_n i (CacheGlobals.start U0) = some
        { g_row_cache := some { index_empty := ie, generation := k }
          g_io_iter := i
          g_cache_update_iter := U0 * 3 ^ k } ∧
      i ≤ U0 * 3 ^ k ∧ (∀ j, j < k → U0 * 3 ^ j < i) ∧
      manage_cache
        { g_row_cache := some { index_empty := ie, generation := k }
          g_io_iter := i
          g_cache_update_iter := U0 * 3 ^ k } = some
        (if i = U0 * 3 ^ k then
          { g_row_cache := some { index_empty := true, generation := k + 1 }
            g_io_iter := i + 1
            g_cache_update_iter := U0 * 3 ^ (k + 1) }
        else
          { g_row_cache := some { index_empty := false, generation := k }
            g_io_iter := i + 1
            g_cache_update_iter := U0 * 3 ^ k }) := by
  have hio : (i + 1) % UINT_MOD = i + 1 := Nat.mod_eq_of_lt (by omega)
  rcases Nat.eq_zero_or_pos i with hi | hi
  · subst hi
    have hne : ¬ (0 = U0 * 3 ^ 0) := by simp; omega
    refine ⟨0, true, by simp [manage_cache_n, CacheGlobals.start], Nat.zero_le _,
      fun j hj => absurd hj (by omega), ?_⟩
    rw [manage_cache_keep _ _ rfl (by simp; omega) (Or.inl rfl), if_neg hne]
    simp only [hio]
  · obtain ⟨k, hk, hle, hprev⟩ := manage_cache_n_state U0 hU0 i hi (by omega)
    have hUpos : 0 < U0 * 3 ^ k := Nat.mul_pos (by omega) (pow_pos (by omega) k)
    refine ⟨k, _, hk, hle, hprev, ?_⟩
    by_cases heq : i = U0 * 3 ^ k
    · rw [manage_cache_regen _ _ rfl hi hUpos (by
        show i % (U0 * 3 ^ k) = 0
        rw [← heq]
        exact Nat.mod_self _)]
      have h5 : U0 * 3 ^ (k + 1) = 3 * (U0 * 3 ^ k) := by
        rw [pow_succ]
        ring
      have h1 : (i + U0 * 3 ^ k) % UINT_MOD = i + U0 * 3 ^ k := Nat.mod_eq_of_lt (by omega)
      have h3 : U0 * 3 ^ k + (i + U0 * 3 ^ k) = U0 * 3 ^ (k + 1) := by omega
      have h4 : U0 * 3 ^ (k + 1) % UINT_MOD = U0 * 3 ^ (k + 1) := Nat.mod_eq_of_lt (by omega)
      simp only [if_pos heq, h1, h3, h4, hio]
    · rw [manage_cache_keep _ _ rfl hUpos (Or.inr (by
        show i % (U0 * 3 ^ k) ≠ 0
        rw [Nat.mod_eq_of_lt (by omega)]
        omega))]
      simp only [if_neg heq, hio]


/-- C27. Started from `g_io_iter = 0` with the cache enabled and the interval
`U0 ≥ 1`, and as long as nothing wraps around (`3 * (i + 1) < 2^32`), the call of
`manage_cache` made with `g_io_iter = i` regenerates the cache if and only if
`i = U0 * 3^k` for some `k`; in that call `g_io_iter` equals the current interval
`U`, it is regeneration number `k` (the cache has been regenerated `k` times before)
and it leaves `U = U0 * 3^(k+1)`; every other call keeps the cache and `U`. -/
theorem C27_regenerations_at_powers_of_three (U0 i : Nat) (hU0 : 1 ≤ U0)
    (hno : 3 * (i + 1) < UINT_MOD) :
    ∃ a b, manage_cache_n i (CacheGlobals.start U0) = some a ∧
      manage_cache_n (i + 1) (CacheGlobals.start U0) = some b ∧
      a.g_io_iter = i ∧
      (a.g_row_cache.map partition_cache.generation ≠
          b.g_row_cache.map partition_cache.generation ↔ ∃ k, i = U0 * 3 ^ k) ∧
      (∀ k, i = U0 * 3 ^ k →
        a.g_cache_update_iter = i ∧
        a.g_row_cache.map partition_cache.generation = some k ∧
        b.g_row_cache = some { index_empty := true, generation := k + 1 } ∧
        b.g_cache_update_iter = U0 * 3 ^ (k + 1)) ∧
      ((¬ ∃ k, i = U0 * 3 ^ k) →
        b.g_cache_update_iter = a.g_cache_update_iter ∧
        b.g_row_cache.map partition_cache.generation =
          a.g_row_cache.map partition_cache.generation) := by
  obtain ⟨k, ie, ha, hle, hprev, hb⟩ := manage_cache_call U0 i hU0 hno
  have hb' : manage_cache_n (i + 1) (CacheGlobals.start U0) =
      (manage_cache_n i (CacheGlobals.start U0)).bind manage_cache := rfl
  rw [ha, Option.some_bind, hb] at hb'
  refine ⟨_, _, ha, hb', rfl, ?_, ?_, ?_⟩
  · by_cases heq : i = U0 * 3 ^ k
    · simp only [if_pos heq, Option.map_some', ne_eq, Option.some.injEq]
      exact ⟨fun _ => ⟨k, heq⟩, fun _ => by omega⟩
    · simp only [if_neg heq, Option.map_some', ne_eq, not_true_eq_false, false_iff]
      intro ⟨k', hk'⟩
      have := pow3_eq_of_bounds U0 i k k' hU0 hle hprev hk'
      subst this
      exact heq hk'
  · intro k' hk'
    have hkk := pow3_eq_of_bounds U0 i k k' hU0 hle hprev hk'
    subst hkk
    rw [if_pos hk']
    exact ⟨hk'.symm, rfl, rfl, rfl⟩
  · intro hnot
    have heq : ¬ i = U0 * 3 ^ k := fun h => hnot ⟨k, h⟩
    rw [if_neg heq]
    exact ⟨rfl, rfl⟩

/-- Witness of C27: the call with `g_io_iter = 15` in the run started with
`U0 = 5`. -/
theorem C27_regenerations_at_powers_of_three_witness :
    (1 ≤ 5 ∧ 3 * (15 + 1) < UINT_MOD) ∧
    ∃ a b, manage_cache_n 15 (CacheGlobals.start 5) = some a ∧
      manage_cache_n (15 + 1) (CacheGlobals.start 5) = some b ∧
      a.g_io_iter = 15 ∧
      (a.g_row_cache.map partition_cache.generation ≠
          b.g_row_cache.map partition_cache.generation ↔ ∃ k, 15 = 5 * 3 ^ k) ∧
      (∀ k, 15 = 5 * 3 ^ k →
        a.g_cache_update_iter = 15 ∧
        a.g_row_cache.map partition_cache.generation = some k ∧
        b.g_row_cache = some { index_empty := true, generation := k + 1 } ∧
        b.g_cache_update_iter = 5 * 3 ^ (k + 1)) ∧
      ((¬ ∃ k, 15 = 5 * 3 ^ k) →
        b.g_cache_update_iter = a.g_cache_update_iter ∧
        b.g_row_cache.map partition_cache.generation =
          a.g_row_cache.map partition_cache.generation) :=
  ⟨by decide, C27_regenerations_at_powers_of_three 5 15 (by decide) (by decide)⟩

/-- C28. Started from `g_io_iter = 0` with the cache enabled and the interval
`U0 ≥ 1`, and as long as nothing wraps around (`3 * (n + 1) < 2^32`), after any
number `n` of calls of `manage_cache` the interval `g_cache_update_iter` is at least
`U0 ≥ 1`, the next call returns (its modulo does not divide by zero) and does not
decrease the interval. -/
theorem C28_update_interval_positive (U0 n : Nat) (hU0 : 1 ≤ U0)
    (hno : 3 * (n + 1) < UINT_MOD) :
    ∃ a b, manage_cache_n n (CacheGlobals.start U0) = some a ∧
      manage_cache a = some b ∧
      manage_cache_n (n + 1) (CacheGlobals.start U0) = some b ∧
      1 ≤ a.g_cache_update_iter ∧ U0 ≤ a.g_cache_update_iter ∧
      a.g_cache_update_iter ≤ b.g_cache_update_iter := by
  obtain ⟨k, ie, ha, _, _, hb⟩ := manage_cache_call U0 n hU0 hno
  have hb' : manage_cache_n (n + 1) (CacheGlobals.start U0) =
      (manage_cache_n n (CacheGlobals.start U0)).bind manage_cache := rfl
  rw [ha, Option.some_bind, hb] at hb'
  have h3 : 1 ≤ 3 ^ k := Nat.one_le_pow k 3 (by decide)
  have hU : U0 ≤ U0 * 3 ^ k := Nat.le_mul_of_pos_right U0 h3
  refine ⟨_, _, ha, hb, hb', le_trans hU0 hU, hU, ?_⟩
  by_cases heq : n = U0 * 3 ^ k
  · simp only [if_pos heq]
    show U0 * 3 ^ k ≤ U0 * 3 ^ (k + 1)
    rw [pow_succ]
    have : U0 * (3 ^ k * 3) = 3 * (U0 * 3 ^ k) := by ring
    omega
  · simp only [if_neg heq]
    exact le_refl _

/-- Witness of C28: 45 calls in the run started with `U0 = 5`. -/
theorem C28_update_interval_positive_witness :
    (1 ≤ 5 ∧ 3 * (45 + 1) < UINT_MOD) ∧
    ∃ a b, manage_cache_n 45 (CacheGlobals.start 5) = some a ∧
      manage_cache a = some b ∧
      manage_cache_n (45 + 1) (CacheGlobals.start 5) = some b ∧
      1 ≤ a.g_cache_update_iter ∧ 5 ≤ a.g_cache_update_iter ∧
      a.g_cache_update_iter ≤ b.g_cache_update_iter :=
  ⟨by decide, C28_update_interval_positive 5 45 (by decide) (by decide)⟩

/-! ## The drift `prev_dist` after an M-step -/

section PrevDist

variable {α : Type} [LinearOrderedField α] {V : Type} [AddCommGroup V] [Module α V]

theorem unfinalize_prev_means (g : prune_clusters α V) (c : Nat) :
    (g.unfinalize c).prev_means = g.prev_means := by
  unfold prune_clusters.unfinalize
  split_ifs <;> rfl

theorem finalize_prev_means (g : prune_clusters α V) (c : Nat) :
    (g.finalize c).prev_means = g.prev_means := by
  unfold prune_clusters.finalize
  split_ifs <;> rfl

theorem finalize_prev_dist (g : prune_clusters α V) (c : Nat) :
    (g.finalize c).prev_dist = g.prev_dist := by
  unfold prune_clusters.finalize
  split_ifs <;> rfl

theorem finalize_means_ne (g : prune_clusters α V) (c cl : Nat) (h : c ≠ cl) :
    (g.finalize cl).means c = g.means c := by
  unfold prune_clusters.finalize
  split_ifs <;> first | rfl | exact Function.update_noteq h _ _

theorem finalize_cluster_prev_dist_same (ed : V → V → α) (s : globals α V) (n : Nat) :
    (finalize_cluster ed s n).g_clusters.prev_dist n =
      ed ((finalize_cluster ed s n).g_clusters.means n) (s.g_clusters.prev_means n) := by
  simp only [finalize_cluster, prune_clusters.set_prev_dist, Function.update_same,
    finalize_prev_means]

theorem finalize_cluster_prev_dist_ne (ed : V → V → α) (s : globals α V) (c n : Nat)
    (h : c ≠ n) :
    (finalize_cluster ed s n).g_clusters.prev_dist c = s.g_clusters.prev_dist c := by
  simp only [finalize_cluster, prune_clusters.set_prev_dist, Function.update_noteq h,
    finalize_prev_dist]

theorem finalize_cluster_means_ne (ed : V → V → α) (s : globals α V) (c n : Nat)
    (h : c ≠ n) :
    (finalize_cluster ed s n).g_clusters.means c = s.g_clusters.means c :=
  finalize_means_ne s.g_clusters c n h

/-- The shadow after `clear_clusters`: the shadow as it was when `g_prune_init` is
set (only `clear()` is called), the centroids otherwise (`set_prev_means()`). -/
theorem clear_clusters_prev_means (g : globals α V) :
    (clear_clusters g).g_clusters.prev_means =
      if g.g_prune_init = true then g.g_clusters.prev_means else g.g_clusters.means := by
  unfold clear_clusters
  split_ifs with h
  · rfl
  · show ((List.range g.K).foldl (fun c cl => c.unfinalize cl)
      g.g_clusters.set_prev_means).prev_means = _
    rw [foldl_proj (fun c : prune_clusters α V => c.prev_means)
      (fun c cl => c.unfinalize cl) unfinalize_prev_means]
    rfl

omit [LinearOrderedField α] [Module α V] in
/-- The merge loop does not write the shadow. -/
theorem merge_prev_means (progs : Nat → kmeans_vertex_program V) (g : globals α V) (W : Nat) :
    ((List.range W).foldl (fun g1 thd => merge_program g1 (progs thd))
      g).g_clusters.prev_means = g.g_clusters.prev_means :=
  foldl_proj (fun g1 : globals α V => g1.g_clusters.prev_means)
    (fun g1 thd => merge_program g1 (progs thd)) (fun _ _ => rfl) _ _

/-- The finalize loop does not write the shadow. -/
theorem finalize_loop_prev_means (ed : V → V → α) (g : globals α V) (j : Nat) :
    ((List.range j).foldl (finalize_cluster ed) g).g_clusters.prev_means =
      g.g_clusters.prev_means :=
  foldl_proj (fun g1 : globals α V => g1.g_clusters.prev_means) (finalize_cluster ed)
    (fun g1 cl => finalize_prev_means g1.g_clusters cl) _ _

/-- The finalize loop sets the drift of the clusters `0 .. j-1` to the distance between
the finalized centroid and the shadow. -/
theorem finalize_loop_prev_dist (ed : V → V → α) (g : globals α V) (j : Nat) :
    ∀ c, c < j →
      ((List.range j).foldl (finalize_cluster ed) g).g_clusters.prev_dist c =
        ed (((List.range j).foldl (finalize_cluster ed) g).g_clusters.means c)
          (g.g_clusters.prev_means c) := by
  induction j with
  | zero => intro c hc; exact absurd hc (Nat.not_lt_zero c)
  | succ n ih =>
    intro c hc
    rw [foldl_range_succ]
    have hpm := finalize_loop_prev_means ed g n
    by_cases hcn : c = n
    · subst hcn
      rw [finalize_cluster_prev_dist_same, hpm]
    · rw [finalize_cluster_prev_dist_ne ed _ c n hcn, finalize_cluster_means_ne ed _ c n hcn]
      exact ih c (by omega)

/-- The drift after `update_clusters`: the distance between the new centroid and the
shadow, which holds the centroid of the pass just completed only when
`g_prune_init` is not set. -/
theorem update_clusters_prev_dist (ed : V → V → α) (W : Nat) (g : globals α V)
    (progs : Nat → kmeans_vertex_program V) (c : Nat) (hc : c < g.K) :
    (update_clusters ed W g progs).1.g_clusters.prev_dist c =
      ed ((update_clusters ed W g progs).1.g_clusters.means c)
        (if g.g_prune_init = true then g.g_clusters.prev_means c
         else g.g_clusters.means c) := by
  have h := finalize_loop_prev_dist ed
    ((List.range W).foldl (fun g1 thd => merge_program g1 (progs thd)) (clear_clusters g))
    g.K c hc
  rw [merge_prev_means, clear_clusters_prev_means] at h
  unfold update_clusters
  simp only
  rw [h]
  split_ifs <;> rfl

/-- The drift after an M-step that follows a pass without `g_prune_init`: for every
cluster the distance between the centroid after the M-step and the centroid of the
pass just completed. -/
theorem mstep_prev_dist_steady (ed : V → V → α) (DBL_MAX : α) (W : Nat) (g g' : globals α V)
    (progs progs' : Nat → kmeans_vertex_program V) (hpi : g.g_prune_init = false)
    (h : mstep ed DBL_MAX W g progs = some (g', progs')) (c : Nat) (hc : c < g.K) :
    g'.g_clusters.prev_dist c = ed (g'.g_clusters.means c) (g.g_clusters.means c) := by
  have hu := update_clusters_prev_dist ed W g progs c hc
  rw [hpi] at hu
  simp only [Bool.false_eq_true, if_false] at hu
  simp only [mstep, Option.map_eq_some'] at h
  obtain ⟨cg, _, heq⟩ := h
  split_ifs at heq with ht
  · obtain ⟨h1, _⟩ := Prod.mk.inj heq
    subst h1
    exact hu
  · obtain ⟨h1, _⟩ := Prod.mk.inj heq
    subst h1
    exact hu

end PrevDist

set_option maxRecDepth 100000 in
/-- C22, the code at the failing input. Rows `-3`, `3`, `100`, caller-supplied centres
`3` and `100`, one thread. During the first pass (`g_prune_init` set) centroid 0 is
`3`; the M-step moves it to `0`, the mean of the rows `-3` and `3`, and records
`prev_dist[0] = 0`, the distance to the shadow that was never set, while the distance
between the centroid after the M-step and the centroid of the pass is `3`. -/
theorem C22_prev_dist_after_first_mstep :
    (engine_with_centers 2 3 centers_a).g.g_prune_init = true ∧
    (engine_with_centers 2 3 centers_a).g.g_clusters.means 0 = 3 ∧
    (iteration (setting1 rows_a) (fun _ => false) [0, 1, 2]
        (engine_with_centers 2 3 centers_a)).map
      (fun e => (e.g.g_clusters.means 0, e.g.g_clusters.prev_dist 0)) = some (0, 0) ∧
    (iteration (setting1 rows_a) (fun _ => false) [0, 1, 2]
        (engine_with_centers 2 3 centers_a)).map
      (fun e => dist1 (e.g.g_clusters.means 0)
        ((engine_with_centers 2 3 centers_a).g.g_clusters.means 0)) = some 3 := by
  refine ⟨?_, ?_, ?_, ?_⟩ <;> decide!

/-! ## k-means++ initialisation: the `DIST` phase -/

section KmsppTheorems

variable {α : Type} [LinearOrderedField α] {V : Type} [AddCommGroup V] [Module α V]

omit [AddCommGroup V] [Module α V] in
/-- A row in stage `DIST`: the skip of `run`, else `run_init`, whether or not the row
is found in the cache. -/
theorem kmspp_dist_row_eq (d : V → V → α) (g : globals α V) (cache_hit : Bool) (row : V)
    (v : kmeans_vertex α) (kd s : α) (hst : g.g_kmspp_stage = kmspp_stage_t.DIST) :
    kmspp_dist_row d g cache_hit row (v, kd, s) =
      if v.cluster_id ≠ INVALID_CLUST_ID ∧
          v.dist ≤ g.g_cluster_dist v.cluster_id g.g_kmspp_cluster_idx then
        (v, kd, s + v.dist)
      else
        ((run_init_dist d g row (v, kd)).1.1, (run_init_dist d g row (v, kd)).1.2,
          s + (run_init_dist d g row (v, kd)).2) := by
  by_cases hc : v.cluster_id ≠ INVALID_CLUST_ID ∧
      v.dist ≤ g.g_cluster_dist v.cluster_id g.g_kmspp_cluster_idx
  · have hrun : v.run g cache_hit = (v, false, run_outcome.kmspp_skip v.dist) := by
      unfold kmeans_vertex.run
      rw [if_pos hst, if_pos hc]
    unfold kmspp_dist_row
    simp only [hrun, if_pos hc]
  · have hrun : v.run g cache_hit = (v, false, run_fetch g cache_hit) := by
      unfold kmeans_vertex.run
      rw [if_pos hst, if_neg hc]
    unfold kmspp_dist_row
    simp only [hrun, if_neg hc]
    unfold run_fetch
    split_ifs <;> rfl

omit [AddCommGroup V] [Module α V] in
/-- The value that `run_init` gives to `pt_cuml_sum_peq` in stage `DIST` is the new
`g_kmspp_distance[my_id]`. -/
theorem run_init_dist_added (d : V → V → α) (g : globals α V) (row : V)
    (vk : kmeans_vertex α × α) :
    (run_init_dist d g row vk).2 = (run_init_dist d g row vk).1.2 := by
  unfold run_init_dist
  split_ifs <;> rfl

omit [AddCommGroup V] [Module α V] in
/-- In stage `DIST`, `run_init` keeps the vertex field `dist` equal to
`g_kmspp_distance[my_id]` on an assigned row. -/
theorem run_init_dist_sync (d : V → V → α) (g : globals α V) (row : V)
    (vk : kmeans_vertex α × α)
    (h : vk.1.cluster_id ≠ INVALID_CLUST_ID → vk.1.dist = vk.2) :
    (run_init_dist d g row vk).1.1.cluster_id ≠ INVALID_CLUST_ID →
      (run_init_dist d g row vk).1.1.dist = (run_init_dist d g row vk).1.2 := by
  unfold run_init_dist
  split_ifs
  · exact h
  · intro _
    rfl
  · exact h

end KmsppTheorems

section KmsppPass

variable {α : Type} [LinearOrderedField α] {V : Type} [AddCommGroup V] [Module α V]

omit [AddCommGroup V] [Module α V] in
/-- The rows of a `DIST` iteration do not write the globals. -/
theorem kmspp_dist_pass_g (cfg : setting α V) (cache_hit : Nat → Bool) (order : List Nat)
    (e : kmspp_engine α V) : (kmspp_dist_pass cfg cache_hit order e).g = e.g := by
  unfold kmspp_dist_pass
  exact foldl_proj kmspp_engine.g (kmspp_dist_step cfg cache_hit) (fun _ _ => rfl) order e

omit [AddCommGroup V] [Module α V] in
/-- A row that is not run keeps its vertex and its `g_kmspp_distance`. -/
theorem kmspp_dist_pass_other (cfg : setting α V) (cache_hit : Nat → Bool) (order : List Nat)
    (e : kmspp_engine α V) (r : Nat) (hr : r ∉ order) :
    (kmspp_dist_pass cfg cache_hit order e).verts r = e.verts r ∧
    (kmspp_dist_pass cfg cache_hit order e).g_kmspp_distance r = e.g_kmspp_distance r := by
  unfold kmspp_dist_pass
  induction order generalizing e with
  | nil => exact ⟨rfl, rfl⟩
  | cons a t ih =>
    rw [List.foldl_cons]
    have hne : r ≠ a := fun h => hr (h ▸ List.mem_cons_self a t)
    obtain ⟨h1, h2⟩ := ih (kmspp_dist_step cfg cache_hit e a)
      (fun h => hr (List.mem_cons_of_mem a h))
    rw [h1, h2]
    exact ⟨Function.update_noteq hne _ _, Function.update_noteq hne _ _⟩

end KmsppPass

section KmsppRun

variable {α : Type} [LinearOrderedField α] {V : Type} [AddCommGroup V] [Module α V]

omit [Module α V] in
/-- In stage `ADDMEAN` of the initialisation the active row always reaches `run_init`. -/
theorem kmspp_addmean_eq (cfg : setting α V) (cache_hit : Bool) (e : kmspp_engine α V)
    (r : Nat) (hst : e.g.g_kmspp_stage = kmspp_stage_t.ADDMEAN)
    (hinit : e.g.g_stage = stage_t.INIT) :
    kmspp_addmean cfg cache_hit e r = run_init_addmean (cfg.data r) e r := by
  have hrun : ((e.verts r).run e.g cache_hit).2.2 = run_fetch e.g cache_hit := by
    unfold kmeans_vertex.run
    rw [if_neg (by rw [hst]; decide), if_neg (by rw [hinit]; exact fun h => h rfl)]
  unfold kmspp_addmean
  rw [hrun]
  unfold run_fetch
  split_ifs <;> rfl

end KmsppRun

section KmsppRunInvariant

variable {α : Type} [LinearOrderedField α] {V : Type} [AddCommGroup V] [Module α V]

omit [AddCommGroup V] [Module α V] in
/-- What the hook at the end of a `DIST` iteration leaves when it activates a row: the
next centre index, the stage `ADDMEAN`, the sums of the programs reset, and the
centres, the vertices and `g_kmspp_distance` as they were. -/
theorem kmspp_end_dist_some (cfg : setting α V) (NDEBUG : Bool) (RAND_MAX : Nat) (u : α)
    (e : kmspp_engine α V) (en : kmspp_engine α V × Option Nat) (next : Nat)
    (h : kmspp_end_dist cfg NDEBUG RAND_MAX u e = some en) (hn : en.2 = some next) :
    (e.g.g_kmspp_cluster_idx + 1) % UINT_MOD < e.g.K ∧
    en.1.g.g_kmspp_stage = kmspp_stage_t.ADDMEAN ∧
    en.1.g.g_stage = e.g.g_stage ∧
    en.1.g.g_kmspp_cluster_idx = (e.g.g_kmspp_cluster_idx + 1) % UINT_MOD ∧
    en.1.g.K = e.g.K ∧
    en.1.g.g_clusters = e.g.g_clusters ∧
    en.1.verts = e.verts ∧
    en.1.g_kmspp_distance = e.g_kmspp_distance ∧
    (∀ t, t < cfg.nthread → en.1.pt_cuml_sum t = 0) ∧
    kmeanspp_get_next_cluster_id NDEBUG RAND_MAX e.g.NUM_ROWS e.g_kmspp_distance
      ((List.range cfg.nthread).map e.pt_cuml_sum) u = kmspp_pick.row next := by
  unfold kmspp_end_dist at h
  by_cases hc : (e.g.g_kmspp_cluster_idx + 1) % UINT_MOD < e.g.K
  · rw [if_pos hc] at h
    cases hm : (if e.g.cache.g_row_cache.isSome then manage_cache e.g.cache
        else some e.g.cache) with
    | none =>
      rw [hm] at h
      exact Option.noConfusion h
    | some c =>
      rw [hm, Option.some_bind] at h
      cases hp : kmeanspp_get_next_cluster_id NDEBUG RAND_MAX e.g.NUM_ROWS e.g_kmspp_distance
          ((List.range cfg.nthread).map e.pt_cuml_sum) u with
      | row r =>
        rw [hp] at h
        simp only [Option.some.injEq] at h
        subst h
        simp only [Option.some.injEq] at hn
        subst hn
        exact ⟨hc, rfl, rfl, rfl, rfl, rfl, rfl, rfl, fun t ht => if_pos ht, rfl⟩
      | assert_cuml_sum_zero =>
        rw [hp] at h
        exact Option.noConfusion h
      | exit_failure =>
        rw [hp] at h
        exact Option.noConfusion h
  · rw [if_neg hc] at h
    simp only [Option.some.injEq] at h
    subst h
    exact Option.noConfusion hn

end KmsppRunInvariant

section KmsppSums

variable {α : Type} [LinearOrderedField α] {V : Type} [AddCommGroup V] [Module α V]

/-- Adding `b` to one entry of a function adds `b` to its sum over a range that holds
the entry. -/
theorem sum_range_update_add {β : Type} [AddCommGroup β] (K : Nat) (f : Nat → β) (i : Nat)
    (hi : i < K) (b : β) :
    ∑ c ∈ Finset.range K, Function.update f i (f i + b) c = ∑ c ∈ Finset.range K, f c + b := by
  have hmem : i ∈ Finset.range K := Finset.mem_range.mpr hi
  rw [Finset.sum_update_of_mem hmem, Finset.sum_eq_add_sum_diff_singleton hmem f]
  abel

omit [AddCommGroup V] [Module α V] in
/-- C24 for one row: in stage `DIST`, on a row whose vertex field `dist` equals
`g_kmspp_distance[r]` when it is assigned, the value added to `pt_cuml_sum` is the new
`g_kmspp_distance[r]`, also on the skip path of `run`, and the two stay equal. -/
theorem kmspp_dist_row_sum (d : V → V → α) (g : globals α V) (cache_hit : Bool) (row : V)
    (v : kmeans_vertex α) (kd s : α) (hst : g.g_kmspp_stage = kmspp_stage_t.DIST)
    (hQ : v.cluster_id ≠ INVALID_CLUST_ID → v.dist = kd) :
    (kmspp_dist_row d g cache_hit row (v, kd, s)).2.2 =
      s + (kmspp_dist_row d g cache_hit row (v, kd, s)).2.1 ∧
    ((kmspp_dist_row d g cache_hit row (v, kd, s)).1.cluster_id ≠ INVALID_CLUST_ID →
      (kmspp_dist_row d g cache_hit row (v, kd, s)).1.dist =
        (kmspp_dist_row d g cache_hit row (v, kd, s)).2.1) := by
  rw [kmspp_dist_row_eq d g cache_hit row v kd s hst]
  by_cases hc : v.cluster_id ≠ INVALID_CLUST_ID ∧
      v.dist ≤ g.g_cluster_dist v.cluster_id g.g_kmspp_cluster_idx
  · rw [if_pos hc]
    exact ⟨by rw [hQ hc.1], hQ⟩
  · rw [if_neg hc]
    exact ⟨by rw [run_init_dist_added], run_init_dist_sync d g row (v, kd) hQ⟩

omit [AddCommGroup V] [Module α V] in
/-- The rows of a `DIST` iteration keep the vertex field `dist` of every assigned row
equal to its `g_kmspp_distance`. -/
theorem kmspp_dist_pass_sync (cfg : setting α V) (cache_hit : Nat → Bool) (order : List Nat)
    (e : kmspp_engine α V) (hst : e.g.g_kmspp_stage = kmspp_stage_t.DIST)
    (hQ : ∀ r, (e.verts r).cluster_id ≠ INVALID_CLUST_ID →
      (e.verts r).dist = e.g_kmspp_distance r) :
    ∀ r, ((kmspp_dist_pass cfg cache_hit order e).verts r).cluster_id ≠ INVALID_CLUST_ID →
      ((kmspp_dist_pass cfg cache_hit order e).verts r).dist =
        (kmspp_dist_pass cfg cache_hit order e).g_kmspp_distance r := by
  unfold kmspp_dist_pass
  induction order generalizing e with
  | nil => exact hQ
  | cons a t ih =>
    rw [List.foldl_cons]
    refine ih (kmspp_dist_step cfg cache_hit e a) hst ?_
    intro r
    by_cases hra : r = a
    · subst hra
      simp only [kmspp_dist_step, Function.update_same]
      exact (kmspp_dist_row_sum cfg.dist_comp_raw e.g (cache_hit r) (cfg.data r) (e.verts r)
        (e.g_kmspp_distance r) (e.pt_cuml_sum (cfg.owner r)) hst (hQ r)).2
    · simp only [kmspp_dist_step, Function.update_noteq hra]
      exact hQ r

omit [AddCommGroup V] [Module α V] in
/-- C24 for one iteration of stage `DIST`: the sums of the threads grow by the new
`g_kmspp_distance` of the rows that were run. -/
theorem kmspp_dist_pass_sum (cfg : setting α V) (cache_hit : Nat → Bool) (order : List Nat)
    (hnodup : order.Nodup) (e : kmspp_engine α V)
    (hst : e.g.g_kmspp_stage = kmspp_stage_t.DIST)
    (hown : ∀ r, r ∈ order → cfg.owner r < cfg.nthread)
    (hQ : ∀ r, (e.verts r).cluster_id ≠ INVALID_CLUST_ID →
      (e.verts r).dist = e.g_kmspp_distance r) :
    ∑ t ∈ Finset.range cfg.nthread, (kmspp_dist_pass cfg cache_hit order e).pt_cuml_sum t =
      ∑ t ∈ Finset.range cfg.nthread, e.pt_cuml_sum t +
        (order.map (kmspp_dist_pass cfg cache_hit order e).g_kmspp_distance).sum := by
  induction order generalizing e with
  | nil => simp [kmspp_dist_pass]
  | cons a t ih =>
    have hnd := List.nodup_cons.mp hnodup
    have hpass : kmspp_dist_pass cfg cache_hit (a :: t) e =
        kmspp_dist_pass cfg cache_hit t (kmspp_dist_step cfg cache_hit e a) := rfl
    have hrow := kmspp_dist_row_sum cfg.dist_comp_raw e.g (cache_hit a) (cfg.data a) (e.verts a)
      (e.g_kmspp_distance a) (e.pt_cuml_sum (cfg.owner a)) hst (hQ a)
    have hQ1 : ∀ r, ((kmspp_dist_step cfg cache_hit e a).verts r).cluster_id ≠
        INVALID_CLUST_ID →
        ((kmspp_dist_step cfg cache_hit e a).verts r).dist =
          (kmspp_dist_step cfg cache_hit e a).g_kmspp_distance r :=
      kmspp_dist_pass_sync cfg cache_hit [a] e hst hQ
    have hih := ih hnd.2 (kmspp_dist_step cfg cache_hit e a) hst
      (fun r hr => hown r (List.mem_cons_of_mem a hr)) hQ1
    have hother := (kmspp_dist_pass_other cfg cache_hit t (kmspp_dist_step cfg cache_hit e a)
      a hnd.1).2
    have hS1 : ∑ t ∈ Finset.range cfg.nthread, (kmspp_dist_step cfg cache_hit e a).pt_cuml_sum t =
        ∑ t ∈ Finset.range cfg.nthread, e.pt_cuml_sum t +
          (kmspp_dist_step cfg cache_hit e a).g_kmspp_distance a := by
      simp only [kmspp_dist_step, Function.update_same]
      rw [hrow.1]
      exact sum_range_update_add cfg.nthread e.pt_cuml_sum (cfg.owner a)
        (hown a (List.mem_cons_self a t)) _
    rw [hpass, hih, hS1, List.map_cons, List.sum_cons, hother]
    abel

end KmsppSums

section KmsppRunSums

variable {α : Type} [LinearOrderedField α] {V : Type} [AddCommGroup V] [Module α V]

/-- The sum over a list without repetition that holds exactly the numbers below `N` is
the sum over the range `N`. -/
theorem list_sum_eq_range {β : Type} [AddCommMonoid β] (l : List Nat) (N : Nat)
    (hnodup : l.Nodup) (hmem : ∀ r, r ∈ l ↔ r < N) (f : Nat → β) :
    (l.map f).sum = ∑ r ∈ Finset.range N, f r := by
  rw [← List.sum_toFinset f hnodup]
  congr 1
  ext r
  rw [List.mem_toFinset, Finset.mem_range]
  exact hmem r

omit [Module α V] in
/-- C24 for one phase: from a state before an `ADDMEAN` iteration with the sums of the
threads at zero, at the end of the rows of the `DIST` iteration the sums of the threads
add up to the sum of `g_kmspp_distance` over the rows. -/
theorem kmspp_phase_sum (cfg : setting α V) (cache_hit : Nat → Bool) (N : Nat)
    (order : List Nat) (e : kmspp_engine α V) (next : Nat) (hnodup : order.Nodup)
    (horder : ∀ r, r ∈ order ↔ r < N) (hown : ∀ r, r < N → cfg.owner r < cfg.nthread)
    (hst : e.g.g_kmspp_stage = kmspp_stage_t.ADDMEAN) (hinit : e.g.g_stage = stage_t.INIT)
    (hzero : ∀ t, t < cfg.nthread → e.pt_cuml_sum t = 0)
    (hQ : ∀ r, (e.verts r).cluster_id ≠ INVALID_CLUST_ID →
      (e.verts r).dist = e.g_kmspp_distance r) :
    (kmspp_phase cfg cache_hit order e next).g.g_kmspp_stage = kmspp_stage_t.DIST ∧
    (kmspp_phase cfg cache_hit order e next).g.g_stage = stage_t.INIT ∧
    (∀ r, ((kmspp_phase cfg cache_hit order e next).verts r).cluster_id ≠ INVALID_CLUST_ID →
      ((kmspp_phase cfg cache_hit order e next).verts r).dist =
        (kmspp_phase cfg cache_hit order e next).g_kmspp_distance r) ∧
    ∑ t ∈ Finset.range cfg.nthread, (kmspp_phase cfg cache_hit order e next).pt_cuml_sum t =
      ∑ r ∈ Finset.range N, (kmspp_phase cfg cache_hit order e next).g_kmspp_distance r := by
  unfold kmspp_phase
  rw [kmspp_addmean_eq cfg (cache_hit next) e next hst hinit]
  have hg := kmspp_dist_pass_g cfg cache_hit order
    (kmspp_end_addmean cfg (run_init_addmean (cfg.data next) e next))
  have hQ2 : ∀ r, ((kmspp_end_addmean cfg
      (run_init_addmean (cfg.data next) e next)).verts r).cluster_id ≠ INVALID_CLUST_ID →
      ((kmspp_end_addmean cfg (run_init_addmean (cfg.data next) e next)).verts r).dist =
        (kmspp_end_addmean cfg (run_init_addmean (cfg.data next) e next)).g_kmspp_distance r := by
    intro r
    by_cases hrn : r = next
    · subst hrn
      intro _
      show (Function.update e.verts r _ r).dist = Function.update e.g_kmspp_distance r 0 r
      rw [Function.update_same, Function.update_same]
    · show (Function.update e.verts next _ r).cluster_id ≠ INVALID_CLUST_ID →
        (Function.update e.verts next _ r).dist = Function.update e.g_kmspp_distance next 0 r
      rw [Function.update_noteq hrn, Function.update_noteq hrn]
      exact hQ r
  have hsum := kmspp_dist_pass_sum cfg cache_hit order hnodup
    (kmspp_end_addmean cfg (run_init_addmean (cfg.data next) e next)) rfl
    (fun r hr => hown r ((horder r).mp hr)) hQ2
  have hS0 : ∑ t ∈ Finset.range cfg.nthread,
      (kmspp_end_addmean cfg (run_init_addmean (cfg.data next) e next)).pt_cuml_sum t = 0 :=
    Finset.sum_eq_zero fun t ht => hzero t (Finset.mem_range.mp ht)
  refine ⟨by rw [hg]; rfl, by rw [hg]; exact hinit,
    kmspp_dist_pass_sync cfg cache_hit order _ rfl hQ2, ?_⟩
  rw [hsum, hS0, zero_add]
  exact list_sum_eq_range order N hnodup horder _

omit [Module α V] in
/-- C24 along the initialisation: at the end of the rows of every `DIST` iteration the
sums of the threads add up to the sum of `g_kmspp_distance` over the rows. -/
theorem kmspp_run_sum (cfg : setting α V) (NDEBUG : Bool) (RAND_MAX : Nat) (u : Nat → α)
    (cache_hit : Nat → Nat → Bool) (order : Nat → List Nat) (e : engine α V) (first N : Nat)
    (hverts : ∀ r, (e.verts r).cluster_id = INVALID_CLUST_ID)
    (hnodup : ∀ k, (order k).Nodup) (horder : ∀ k r, r ∈ order k ↔ r < N)
    (hown : ∀ r, r < N → cfg.owner r < cfg.nthread) (j : Nat) :
    ∀ ej, kmspp_run cfg NDEBUG RAND_MAX u cache_hit order (kmspp_start cfg e first) first j =
        some ej →
      ej.g.g_kmspp_stage = kmspp_stage_t.DIST ∧ ej.g.g_stage = stage_t.INIT ∧
      (∀ r, (ej.verts r).cluster_id ≠ INVALID_CLUST_ID →
        (ej.verts r).dist = ej.g_kmspp_distance r) ∧
      ∑ t ∈ Finset.range cfg.nthread, ej.pt_cuml_sum t =
        ∑ r ∈ Finset.range N, ej.g_kmspp_distance r := by
  induction j with
  | zero =>
    intro ej h
    have h0 : kmspp_phase cfg (cache_hit 0) (order 0) (kmspp_start cfg e first) first = ej :=
      Option.some.inj h
    have hp := kmspp_phase_sum cfg (cache_hit 0) N (order 0) (kmspp_start cfg e first) first
      (hnodup 0) (horder 0) hown rfl rfl (fun _ _ => rfl)
      (fun r hr => absurd (hverts r) hr)
    rw [h0] at hp
    exact hp
  | succ j ih =>
    intro ej h
    have hrun : kmspp_run cfg NDEBUG RAND_MAX u cache_hit order (kmspp_start cfg e first)
        first (j + 1) =
        (kmspp_run cfg NDEBUG RAND_MAX u cache_hit order (kmspp_start cfg e first)
          first j).bind fun e1 =>
          (kmspp_end_dist cfg NDEBUG RAND_MAX (u j) e1).bind fun en =>
            en.2.map fun next =>
              kmspp_phase cfg (cache_hit (j + 1)) (order (j + 1)) en.1 next := rfl
    rw [hrun] at h
    cases h1 : kmspp_run cfg NDEBUG RAND_MAX u cache_hit order (kmspp_start cfg e first)
        first j with
    | none =>
      rw [h1] at h
      exact Option.noConfusion h
    | some e1 =>
      rw [h1, Option.some_bind] at h
      obtain ⟨_, i2, i3, _⟩ := ih e1 h1
      cases h2 : kmspp_end_dist cfg NDEBUG RAND_MAX (u j) e1 with
      | none =>
        rw [h2] at h
        exact Option.noConfusion h
      | some en =>
        rw [h2, Option.some_bind] at h
        cases h3 : en.2 with
        | none =>
          rw [h3] at h
          exact Option.noConfusion h
        | some next =>
          rw [h3, Option.map_some'] at h
          have h0 := Option.some.inj h
          obtain ⟨_, d2, d3, _, _, _, d7, d8, d9, _⟩ :=
            kmspp_end_dist_some cfg NDEBUG RAND_MAX (u j) e1 en next h2 h3
          have hp := kmspp_phase_sum cfg (cache_hit (j + 1)) N (order (j + 1)) en.1 next
            (hnodup (j + 1)) (horder (j + 1)) hown d2 (by rw [d3]; exact i2) d9
            (by rw [d7, d8]; exact i3)
          rw [h0] at hp
          exact hp

end KmsppRunSums

/-! ## C23 and C24: the `DIST` phases of the k-means++ initialisation -/

/-- The run `kmspp_run_a` with two threads reaches the end of the `DIST` iteration for
the second centre. -/
theorem kmspp_run_a_some_two :
    kmspp_run_a (setting2 rows_a) 1 = some (kmspp_after (setting2 rows_a) 1) := by
  have h : (kmspp_run_a (setting2 rows_a) 1).isSome = true := by decide!
  obtain ⟨x, hx⟩ := Option.isSome_iff_exists.mp h
  unfold kmspp_after
  rw [hx]
  rfl

/-- C24: in the k-means++ initialisation with exact arithmetic, at the end of the rows
of every `DIST` iteration the sum over the threads of `pt_cuml_sum` is the sum over the
rows of `g_kmspp_distance[r]`; the skip path of `run`, which adds the vertex field
`dist`, adds the same value. Every row is run once per iteration and is owned by one
of the threads. -/
theorem C24_cuml_sum_is_sum_of_distances {α V : Type} [LinearOrderedField α] [AddCommGroup V]
    (cfg : setting α V) (NDEBUG : Bool) (RAND_MAX : Nat) (u : Nat → α)
    (cache_hit : Nat → Nat → Bool) (order : Nat → List Nat) (e : engine α V) (first N : Nat)
    (hverts : ∀ r, (e.verts r).cluster_id = INVALID_CLUST_ID)
    (hnodup : ∀ k, (order k).Nodup) (horder : ∀ k r, r ∈ order k ↔ r < N)
    (hown : ∀ r, r < N → cfg.owner r < cfg.nthread) (j : Nat) (ej : kmspp_engine α V)
    (hrun : kmspp_run cfg NDEBUG RAND_MAX u cache_hit order (kmspp_start cfg e first) first j =
      some ej) :
    ∑ t ∈ Finset.range cfg.nthread, ej.pt_cuml_sum t =
      ∑ r ∈ Finset.range N, ej.g_kmspp_distance r :=
  (kmspp_run_sum cfg NDEBUG RAND_MAX u cache_hit order e first N hverts hnodup horder hown j
    ej hrun).2.2.2

/-- Witness of C24: the rows `-3`, `3`, `100` on two threads with `K = 2` and the first
centre row 0; after the `DIST` iteration for the second centre, row 1, the threads hold
the sums 97 and 0 and the rows the distances 0, 0, 97. -/
theorem C24_cuml_sum_is_sum_of_distances_witness :
    ((∀ r, r < 3 → (setting2 rows_a).owner r < (setting2 rows_a).nthread) ∧
      kmspp_run_a (setting2 rows_a) 1 = some (kmspp_after (setting2 rows_a) 1)) ∧
    ∑ t ∈ Finset.range (setting2 rows_a).nthread, (kmspp_after (setting2 rows_a) 1).pt_cuml_sum t =
      ∑ r ∈ Finset.range 3, (kmspp_after (setting2 rows_a) 1).g_kmspp_distance r ∧
    (List.range 2).map (kmspp_after (setting2 rows_a) 1).pt_cuml_sum = [97, 0] ∧
    (List.range 3).map (kmspp_after (setting2 rows_a) 1).g_kmspp_distance = [0, 0, 97] :=
  ⟨⟨by decide, kmspp_run_a_some_two⟩,
    C24_cuml_sum_is_sum_of_distances (setting2 rows_a) false 2147483647 (fun _ => 1 / 2)
      (fun _ _ => false) (fun _ => List.range 3) (engine_kmspp (setting2 rows_a)) 0 3
      (fun _ => rfl) (fun _ => List.nodup_range 3) (fun _ _ => List.mem_range) (by decide) 1
      (kmspp_after (setting2 rows_a) 1) kmspp_run_a_some_two,
    by decide!, by decide!⟩

/-! ## The full triangle variant: validity of the lower bounds -/

section TriangleBounds

variable {α : Type} [LinearOrderedField α] {V : Type}

/-- The loosening loop of `run` writes only the lower bounds: the bound of a cluster
`c < K` with `prev_dist[c] > 0` becomes `max(lwr_bnd[c] - prev_dist[c], 0)`. -/
theorem loosen_fold (pd : Nat → α) (K : Nat) (v : triangle.kmeans_vertex α) :
    ((List.range K).foldl (triangle.loosen_turn pd) v).cluster_id = v.cluster_id ∧
    ((List.range K).foldl (triangle.loosen_turn pd) v).dist = v.dist ∧
    ((List.range K).foldl (triangle.loosen_turn pd) v).recalculated = v.recalculated ∧
    ∀ c, ((List.range K).foldl (triangle.loosen_turn pd) v).lwr_bnd c =
      if c < K ∧ pd c > 0 then max (v.lwr_bnd c - pd c) 0 else v.lwr_bnd c := by
  induction K with
  | zero =>
    refine ⟨rfl, rfl, rfl, fun c => ?_⟩
    rw [if_neg (fun h => Nat.not_lt_zero c h.1)]
    rfl
  | succ K ih =>
    rw [foldl_range_succ]
    obtain ⟨h1, h2, h3, h4⟩ := ih
    generalize (List.range K).foldl (triangle.loosen_turn pd) v = w at h1 h2 h3 h4 ⊢
    unfold triangle.loosen_turn
    by_cases hp : pd K > 0
    · rw [if_pos hp]
      refine ⟨h1, h2, h3, fun c => ?_⟩
      by_cases hc : c = K
      · subst hc
        show Function.update _ c _ c = _
        rw [Function.update_same, h4 c, if_neg (fun h => Nat.lt_irrefl c h.1),
          if_pos ⟨Nat.lt_succ_self c, hp⟩]
      · show Function.update _ K _ c = _
        rw [Function.update_noteq hc, h4 c]
        by_cases hcK : c < K
        · by_cases hpc : pd c > 0
          · rw [if_pos ⟨hcK, hpc⟩, if_pos ⟨Nat.lt_succ_of_lt hcK, hpc⟩]
          · rw [if_neg (fun h => hpc h.2), if_neg (fun h => hpc h.2)]
        · rw [if_neg (fun h => hcK h.1), if_neg (fun h => hcK (by omega))]
    · rw [if_neg hp]
      refine ⟨h1, h2, h3, fun c => ?_⟩
      rw [h4 c]
      by_cases hcK : c < K
      · by_cases hpc : pd c > 0
        · rw [if_pos ⟨hcK, hpc⟩, if_pos ⟨Nat.lt_succ_of_lt hcK, hpc⟩]
        · rw [if_neg (fun h => hpc h.2), if_neg (fun h => hpc h.2)]
      · rw [if_neg (fun h => hcK h.1)]
        by_cases hc : c = K
        · subst hc
          rw [if_neg (fun h => hp h.2)]
        · rw [if_neg (fun h => hcK (by omega))]

/-- In an iteration of stage `ESTEP` without `g_prune_init`, `run` leaves the cluster,
clears `recalculated`, loosens every lower bound and adds the drift of the assigned
cluster to `dist`. -/
theorem triangle_run_estep (g : triangle.globals α V) (v : triangle.kmeans_vertex α)
    (hst : g.g_kmspp_stage ≠ kmspp_stage_t.DIST) (hest : g.g_stage ≠ stage_t.INIT)
    (hpi : g.g_prune_init = false) :
    (v.run g).1.cluster_id = v.cluster_id ∧
    (v.run g).1.recalculated = false ∧
    (v.run g).1.dist = v.dist + g.g_clusters.prev_dist v.cluster_id ∧
    ∀ c, (v.run g).1.lwr_bnd c =
      if c < g.K ∧ g.g_clusters.prev_dist c > 0 then
        max (v.lwr_bnd c - g.g_clusters.prev_dist c) 0
      else v.lwr_bnd c := by
  obtain ⟨h1, h2, h3, h4⟩ := loosen_fold g.g_clusters.prev_dist g.K
    { v with recalculated := false }
  unfold triangle.kmeans_vertex.run
  rw [if_neg hst, if_pos hest]
  simp only [hpi, if_true]
  split_ifs
  · exact ⟨h1, h3, by show _ + _ = _; rw [h2, h1], h4⟩
  · exact ⟨h1, h3, by show _ + _ = _; rw [h2, h1], h4⟩

/-- With `g_prune_init` set, `run` in stage `ESTEP` only clears `recalculated` and
requests the row. -/
theorem triangle_run_prune_init (g : triangle.globals α V) (v : triangle.kmeans_vertex α)
    (hst : g.g_kmspp_stage ≠ kmspp_stage_t.DIST) (hest : g.g_stage ≠ stage_t.INIT)
    (hpi : g.g_prune_init = true) :
    v.run g = ({ v with recalculated := false }, run_outcome.request) := by
  unfold triangle.kmeans_vertex.run
  rw [if_neg hst, if_pos hest]
  simp [hpi]

/-- The loosening keeps the lower bounds valid for the new centroids when every bound
is at most the distance to the new centroid plus the drift used. -/
theorem loosen_valid (d : V → V → α) (hnn : ∀ a b, 0 ≤ d a b) (means : Nat → V) (row : V)
    (K : Nat) (pd : Nat → α) (v w : triangle.kmeans_vertex α)
    (hw : ∀ c, w.lwr_bnd c =
      if c < K ∧ pd c > 0 then max (v.lwr_bnd c - pd c) 0 else v.lwr_bnd c)
    (hv : ∀ c, c < K → 0 ≤ v.lwr_bnd c ∧ v.lwr_bnd c ≤ d row (means c) + pd c) :
    triangle.lwr_bnd_valid d means row K w ∧
    ∀ c, c < K → 0 ≤ pd c → w.lwr_bnd c = max 0 (v.lwr_bnd c - pd c) := by
  refine ⟨fun c hc => ?_, fun c hc hpd => ?_⟩
  · rw [hw c]
    obtain ⟨h0, h1⟩ := hv c hc
    by_cases hp : pd c > 0
    · rw [if_pos ⟨hc, hp⟩]
      exact ⟨le_max_right _ _, max_le (by linarith) (hnn _ _)⟩
    · rw [if_neg (fun h => hp h.2)]
      exact ⟨h0, by linarith [not_lt.mp hp]⟩
  · rw [hw c]
    obtain ⟨h0, _⟩ := hv c hc
    by_cases hp : pd c > 0
    · rw [if_pos ⟨hc, hp⟩, max_comm]
    · rw [if_neg (fun h => hp h.2)]
      have hz : pd c = 0 := le_antisymm (not_lt.mp hp) hpd
      rw [hz, sub_zero, max_eq_right h0]

/-- One turn of the steady-state scan keeps the lower bounds valid: the two
assignments store distances to the centroid of the index written. -/
theorem triangle_steady_turn_valid (d : V → V → α) (hnn : ∀ a b, 0 ≤ d a b)
    (means : Nat → V) (get : Nat → Nat → α) (row : V) (K : Nat)
    (v : triangle.kmeans_vertex α) (cl : Nat)
    (hv : triangle.lwr_bnd_valid d means row K v) :
    triangle.lwr_bnd_valid d means row K (triangle.steady_turn d means get row v cl) := by
  have hupd : ∀ (w : triangle.kmeans_vertex α) (i : Nat),
      triangle.lwr_bnd_valid d means row K w →
      ∀ c, c < K → 0 ≤ Function.update w.lwr_bnd i (d row (means i)) c ∧
        Function.update w.lwr_bnd i (d row (means i)) c ≤ d row (means c) := by
    intro w i hw c hc
    by_cases hci : c = i
    · subst hci
      rw [Function.update_same]
      exact ⟨hnn _ _, le_refl _⟩
    · rw [Function.update_noteq hci]
      exact hw c hc
  have hv1 : triangle.lwr_bnd_valid d means row K
      (if v.recalculated = false then
        { v with lwr_bnd := Function.update v.lwr_bnd v.cluster_id (d row (means v.cluster_id))
                 dist := d row (means v.cluster_id)
                 recalculated := true }
      else v) := by
    split_ifs
    · exact hupd v v.cluster_id hv
    · exact hv
  unfold triangle.steady_turn
  simp only
  split_ifs
  all_goals first
    | exact hv
    | exact hupd v v.cluster_id hv
    | exact hupd _ cl hv
    | exact hupd _ cl (hupd v v.cluster_id hv)

end TriangleBounds

section TriangleScan

variable {α : Type} [LinearOrderedField α] {V : Type}

/-- The scan of `run_distance` keeps the lower bounds valid after every turn, in either
mode: with `g_prune_init` it does not write them. -/
theorem triangle_scan_valid (d : V → V → α) (hnn : ∀ a b, 0 ≤ d a b) (means : Nat → V)
    (get : Nat → Nat → α) (row : V) (K : Nat) (pi : Bool) (j : Nat)
    (v : triangle.kmeans_vertex α) (hv : triangle.lwr_bnd_valid d means row K v) :
    triangle.lwr_bnd_valid d means row K (triangle.scan d pi j means get row v) := by
  unfold triangle.scan
  cases pi with
  | true =>
    rw [if_pos rfl]
    induction j with
    | zero => exact hv
    | succ j ih =>
      rw [foldl_range_succ]
      generalize (List.range j).foldl (triangle.prune_init_turn d means row) v = w at ih ⊢
      unfold triangle.prune_init_turn
      simp only
      split_ifs
      · exact ih
      · exact ih
  | false =>
    rw [if_neg Bool.false_ne_true]
    induction j with
    | zero => exact hv
    | succ j ih =>
      rw [foldl_range_succ]
      exact triangle_steady_turn_valid d hnn means get row K _ j ih

/-- The vertex returned by `run_distance` is the vertex after the scan. -/
theorem triangle_run_distance_fst [AddCommGroup V] (d : V → V → α) (pi : Bool) (K : Nat)
    (means : Nat → V) (get : Nat → Nat → α) (row : V)
    (vp : triangle.kmeans_vertex α × kmeans_vertex_program V) :
    (triangle.run_distance d pi K means get row vp).1 =
      triangle.scan d pi K means get row vp.1 := by
  unfold triangle.run_distance
  simp only
  split_ifs <;> rfl

/-- The vertex after `estep_row` is the vertex after `run`, or the scan of it. -/
theorem triangle_estep_row_fst [AddCommGroup V] (d : V → V → α) (g : triangle.globals α V)
    (row : V) (vp : triangle.kmeans_vertex α × kmeans_vertex_program V) :
    (triangle.estep_row d g row vp).1 = (vp.1.run g).1 ∨
    (triangle.estep_row d g row vp).1 =
      triangle.scan d g.g_prune_init g.K g.g_clusters.means g.g_cluster_dist row
        (vp.1.run g).1 := by
  unfold triangle.estep_row
  cases (vp.1.run g).2 with
  | request => exact Or.inr (triangle_run_distance_fst d _ _ _ _ row _)
  | kmspp_skip _ => exact Or.inl rfl
  | inactive => exact Or.inl rfl
  | lemma1_skip => exact Or.inl rfl
  | cache_row => exact Or.inl rfl

/-- A row of a steady-state iteration: lower bounds that are valid up to the drift
used by the loosening are valid for the new centroids after `run` and after the scan. -/
theorem triangle_estep_row_valid [AddCommGroup V] (d : V → V → α) (hnn : ∀ a b, 0 ≤ d a b)
    (g : triangle.globals α V) (row : V)
    (vp : triangle.kmeans_vertex α × kmeans_vertex_program V)
    (hst : g.g_kmspp_stage ≠ kmspp_stage_t.DIST) (hest : g.g_stage ≠ stage_t.INIT)
    (hpi : g.g_prune_init = false)
    (hv : ∀ c, c < g.K → 0 ≤ vp.1.lwr_bnd c ∧
      vp.1.lwr_bnd c ≤ d row (g.g_clusters.means c) + g.g_clusters.prev_dist c) :
    triangle.lwr_bnd_valid d g.g_clusters.means row g.K (vp.1.run g).1 ∧
    triangle.lwr_bnd_valid d g.g_clusters.means row g.K (triangle.estep_row d g row vp).1 := by
  have hrun := (loosen_valid d hnn g.g_clusters.means row g.K g.g_clusters.prev_dist vp.1
    (vp.1.run g).1 (triangle_run_estep g vp.1 hst hest hpi).2.2.2 hv).1
  refine ⟨hrun, ?_⟩
  rcases triangle_estep_row_fst d g row vp with h | h
  · rw [h]
    exact hrun
  · rw [h]
    exact triangle_scan_valid d hnn _ _ row g.K _ _ _ hrun

end TriangleScan

section TriangleFirstPasses

variable {α : Type} [LinearOrderedField α] {V : Type} [AddCommGroup V]

/-- The iteration with `g_prune_init` set does not write the lower bounds. -/
theorem triangle_prune_init_row_lwr_bnd (d : V → V → α) (g : triangle.globals α V) (row : V)
    (vp : triangle.kmeans_vertex α × kmeans_vertex_program V)
    (hst : g.g_kmspp_stage ≠ kmspp_stage_t.DIST) (hest : g.g_stage ≠ stage_t.INIT)
    (hpi : g.g_prune_init = true) :
    (triangle.estep_row d g row vp).1.lwr_bnd = vp.1.lwr_bnd := by
  have hrun := triangle_run_prune_init g vp.1 hst hest hpi
  have hscan : ∀ (j : Nat) (w : triangle.kmeans_vertex α),
      ((List.range j).foldl (triangle.prune_init_turn d g.g_clusters.means row) w).lwr_bnd =
        w.lwr_bnd := by
    intro j w
    induction j with
    | zero => rfl
    | succ j ih =>
      rw [foldl_range_succ]
      generalize (List.range j).foldl (triangle.prune_init_turn d g.g_clusters.means row) w =
        u at ih ⊢
      unfold triangle.prune_init_turn
      simp only
      split_ifs
      · exact ih
      · exact ih
  rcases triangle_estep_row_fst d g row vp with h | h
  · rw [h, hrun]
  · rw [h, hrun, hpi]
    unfold triangle.scan
    rw [if_pos rfl]
    exact hscan g.K _

/-- Lower bounds that are all zero stay valid in a steady-state iteration whatever
nonnegative values `prev_dist` holds: this is the state of a row in the first
iteration after the one with `g_prune_init` set. -/
theorem triangle_zero_bounds_valid (d : V → V → α) (hnn : ∀ a b, 0 ≤ d a b)
    (g : triangle.globals α V) (row : V)
    (vp : triangle.kmeans_vertex α × kmeans_vertex_program V)
    (hst : g.g_kmspp_stage ≠ kmspp_stage_t.DIST) (hest : g.g_stage ≠ stage_t.INIT)
    (hpi : g.g_prune_init = false) (hpd : ∀ c, c < g.K → 0 ≤ g.g_clusters.prev_dist c)
    (hz : ∀ c, c < g.K → vp.1.lwr_bnd c = 0) :
    triangle.lwr_bnd_valid d g.g_clusters.means row g.K (triangle.estep_row d g row vp).1 :=
  (triangle_estep_row_valid d hnn g row vp hst hest hpi (fun c hc => by
    rw [hz c hc]
    exact ⟨le_refl _, add_nonneg (hnn _ _) (hpd c hc)⟩)).2

end TriangleFirstPasses

section TriangleRefinement

variable {α : Type} [LinearOrderedField α] {V : Type}

set_option maxHeartbeats 1600000 in
/-- One turn of the two steady-state scans keeps the vertices related: a centroid that
the full variant skips by a lower-bound test is not strictly closer than the current
one, so the minimized variant computes its distance without changing the assignment. -/
theorem steady_turn_refines (d : V → V → α) (means : Nat → V) (get : Nat → Nat → α)
    (row : V) (K : Nat) (w : triangle.kmeans_vertex α) (v : kmeans_vertex α) (cl : Nat)
    (hcl : cl < K) (h : scan_refines d means row K w v) :
    scan_refines d means row K (triangle.steady_turn d means get row w cl)
      (steady_turn d means get row v cl) := by
  obtain ⟨wa, wl, wr, wu⟩ := w
  obtain ⟨va, vu, vr⟩ := v
  obtain ⟨ha, hlb, hU, hrel⟩ := h
  simp only at ha hlb hU hrel
  subst ha
  have hupd : ∀ (f : Nat → α) (i : Nat), (∀ c, c < K → f c ≤ d row (means c)) →
      ∀ c, c < K → Function.update f i (d row (means i)) c ≤ d row (means c) := by
    intro f i hf c hc
    by_cases hci : c = i
    · subst hci
      rw [Function.update_same]
    · rw [Function.update_noteq hci]
      exact hf c hc
  have hL := hlb cl hcl
  have hL2 := hupd wl wa hlb cl hcl
  unfold triangle.steady_turn steady_turn scan_refines
  rcases hrel with ⟨hr, hu⟩ | ⟨hr1, hr2, hu⟩
  · subst hr hu
    cases wr
    · simp only
      split_ifs
      all_goals first
        | contradiction
        | exact ⟨rfl, hlb, hU, Or.inl ⟨rfl, rfl⟩⟩
        | exact ⟨rfl, hlb, hU, Or.inr ⟨rfl, rfl, rfl⟩⟩
        | exact ⟨rfl, hupd wl wa hlb, le_refl _, Or.inl ⟨rfl, rfl⟩⟩
        | exact ⟨rfl, hupd _ cl (hupd wl wa hlb), le_refl _, Or.inl ⟨rfl, rfl⟩⟩
        | (exfalso; linarith)
    · simp only
      split_ifs
      all_goals first
        | contradiction
        | exact ⟨rfl, hlb, hU, Or.inl ⟨rfl, rfl⟩⟩
        | exact ⟨rfl, hupd _ cl hlb, le_refl _, Or.inl ⟨rfl, rfl⟩⟩
        | exact ⟨rfl, hupd _ cl hlb, hU, Or.inl ⟨rfl, rfl⟩⟩
        | (exfalso; linarith)
  · subst hr1 hr2 hu
    simp only
    split_ifs
    all_goals first
      | contradiction
      | exact ⟨rfl, hlb, hU, Or.inr ⟨rfl, rfl, rfl⟩⟩
      | exact ⟨rfl, hupd wl wa hlb, le_refl _, Or.inl ⟨rfl, rfl⟩⟩
      | exact ⟨rfl, hupd _ cl (hupd wl wa hlb), le_refl _, Or.inl ⟨rfl, rfl⟩⟩
      | (exfalso; linarith)

end TriangleRefinement

section TriangleRefinementScan

variable {α : Type} [LinearOrderedField α] {V : Type}

/-- The two steady-state scans stay related after every turn. -/
theorem scan_refines_fold (d : V → V → α) (means : Nat → V) (get : Nat → Nat → α)
    (row : V) (K : Nat) (w : triangle.kmeans_vertex α) (v : kmeans_vertex α)
    (h : scan_refines d means row K w v) (j : Nat) (hj : j ≤ K) :
    scan_refines d means row K
      ((List.range j).foldl (triangle.steady_turn d means get row) w)
      ((List.range j).foldl (steady_turn d means get row) v) := by
  induction j with
  | zero => exact h
  | succ j ih =>
    rw [foldl_range_succ, foldl_range_succ]
    exact steady_turn_refines d means get row K _ _ j hj (ih (Nat.le_of_succ_le hj))

end TriangleRefinementScan

/-- C26: from the same cluster, upper bound and `recalculated` flag, with an upper bound
not below the distance to the assigned centroid and lower bounds not above the
distances to the centroids, the steady-state scan of the full variant ends with the
same cluster as the steady-state scan of the minimized variant over the same centroids
and the same table of half distances; the bound `dist` of the full variant ends not
below the one of the minimized variant. -/
theorem C26_full_scan_refines_minimized {α V : Type} [LinearOrderedField α]
    (d : V → V → α) (means : Nat → V) (get : Nat → Nat → α) (row : V) (K : Nat)
    (w : triangle.kmeans_vertex α) (v : kmeans_vertex α)
    (ha : w.cluster_id = v.cluster_id) (hu : w.dist = v.dist)
    (hr : w.recalculated = v.recalculated)
    (hub : d row (means w.cluster_id) ≤ w.dist)
    (hlb : ∀ c, c < K → w.lwr_bnd c ≤ d row (means c)) :
    (triangle.scan d false K means get row w).cluster_id =
      (scan d false K means get row v).cluster_id ∧
    (scan d false K means get row v).dist ≤ (triangle.scan d false K means get row w).dist := by
  have h := scan_refines_fold d means get row K w v ⟨ha, hlb, hub, Or.inl ⟨hr, hu⟩⟩ K
    (Nat.le_refl K)
  have hs1 : triangle.scan d false K means get row w =
      (List.range K).foldl (triangle.steady_turn d means get row) w := by
    unfold triangle.scan
    rw [if_neg Bool.false_ne_true]
  have hs2 : scan d false K means get row v =
      (List.range K).foldl (steady_turn d means get row) v := by
    unfold scan
    rw [if_neg Bool.false_ne_true]
  rw [hs1, hs2]
  obtain ⟨h1, _, h3, h4⟩ := h
  refine ⟨h1, ?_⟩
  rcases h4 with ⟨_, h5⟩ | ⟨_, _, h5⟩
  · exact le_of_eq h5.symm
  · rw [h5, ← h1]
    exact h3

/-- Witness of C26: the row `-3` assigned to the centroid `-1` with the upper bound 5
and the lower bounds 0 and 4, centroids `-1` and `1`. The full variant skips the
centroid `1` by test 3b, the minimized variant computes the distance 4; both end
in cluster 0 with `dist = 2`. -/
theorem C26_full_scan_refines_minimized_witness :
    ((triangle_vertex_b.cluster_id = (⟨0, 5, false⟩ : kmeans_vertex ℚ).cluster_id ∧
      triangle_vertex_b.dist = (⟨0, 5, false⟩ : kmeans_vertex ℚ).dist ∧
      triangle_vertex_b.recalculated = (⟨0, 5, false⟩ : kmeans_vertex ℚ).recalculated) ∧
      dist1 (-3) (means_pm1 triangle_vertex_b.cluster_id) ≤ triangle_vertex_b.dist ∧
      ∀ c, c < 2 → triangle_vertex_b.lwr_bnd c ≤ dist1 (-3) (means_pm1 c)) ∧
    ((triangle.scan dist1 false 2 means_pm1 (half_table means_pm1) (-3)
          triangle_vertex_b).cluster_id =
        (scan dist1 false 2 means_pm1 (half_table means_pm1) (-3) ⟨0, 5, false⟩).cluster_id ∧
      (scan dist1 false 2 means_pm1 (half_table means_pm1) (-3) ⟨0, 5, false⟩).dist ≤
        (triangle.scan dist1 false 2 means_pm1 (half_table means_pm1) (-3)
          triangle_vertex_b).dist) ∧
    (triangle.scan dist1 false 2 means_pm1 (half_table means_pm1) (-3)
      triangle_vertex_b).cluster_id = 0 ∧
    (triangle.scan dist1 false 2 means_pm1 (half_table means_pm1) (-3)
      triangle_vertex_b).dist = 2 ∧
    (List.range 2).map (triangle.scan dist1 false 2 means_pm1 (half_table means_pm1) (-3)
      triangle_vertex_b).lwr_bnd = [2, 4] ∧
    scan dist1 false 2 means_pm1 (half_table means_pm1) (-3) ⟨0, 5, false⟩ = ⟨0, 2, true⟩ :=
  ⟨⟨⟨rfl, rfl, rfl⟩, by decide!, by decide!⟩,
    C26_full_scan_refines_minimized dist1 means_pm1 (half_table means_pm1) (-3) 2
      triangle_vertex_b ⟨0, 5, false⟩ rfl rfl rfl (by decide!) (by decide!),
    by decide!, by decide!, by decide!, by decide!⟩

/-! ## The E-step run: iteration limit and convergence flag -/

section EngineRunTheorems

variable {α : Type} [LinearOrderedField α] {V : Type} [AddCommGroup V] [Module α V]

omit [AddCommGroup V] [Module α V] in
/-- In stage `ESTEP` a row activates itself exactly when `g_converged` is not set and
`g_iter < g_max_iters`. -/
theorem run_active_iff (g : globals α V) (cache_hit : Bool) (v : kmeans_vertex α)
    (hkm : g.g_kmspp_stage = kmspp_stage_t.ADDMEAN) (hst : g.g_stage = stage_t.ESTEP) :
    (v.run g cache_hit).2.1 = true ↔ (g.g_converged = false ∧ g.g_iter < g.g_max_iters) := by
  by_cases hin : g.g_converged = false ∧ g.g_iter < g.g_max_iters
  · have h : (v.run g cache_hit).2.1 = true := by
      simp only [kmeans_vertex.run, hkm, hst]
      simp only [hin, true_and]
      split_ifs <;> simp_all
    exact ⟨fun _ => hin, fun _ => h⟩
  · rw [run_inactive g cache_hit v hkm hst hin]
    exact ⟨fun h => Bool.noConfusion h, fun h => absurd h hin⟩

omit [Module α V] in
/-- The rows of an iteration of stage `ESTEP`: the state is the one of `estep_pass`,
and either every row that ran is active in the next iteration (`g_converged` not set
and `g_iter < g_max_iters`) or none is. -/
theorem estep_act_fold (cfg : setting α V) (cache_hit : Nat → Bool) (order : List Nat)
    (e : engine α V) (acc : List Nat)
    (hkm : e.g.g_kmspp_stage = kmspp_stage_t.ADDMEAN) (hst : e.g.g_stage = stage_t.ESTEP) :
    order.foldl (estep_step_act cfg cache_hit) (e, acc) =
      (estep_pass cfg cache_hit order e,
        if e.g.g_converged = false ∧ e.g.g_iter < e.g.g_max_iters then acc ++ order
        else acc) := by
  induction order generalizing e acc with
  | nil =>
    simp only [List.foldl_nil, estep_pass, List.append_nil]
    split_ifs <;> rfl
  | cons a t ih =>
    rw [List.foldl_cons]
    have hstep : estep_step_act cfg cache_hit (e, acc) a =
        (pass_step (fun g r vp => estep_row cfg.dist_comp_raw g (cache_hit r) (cfg.data r) vp)
          cfg.owner e a,
          if e.g.g_converged = false ∧ e.g.g_iter < e.g.g_max_iters then acc ++ [a]
          else acc) := by
      unfold estep_step_act
      by_cases hin : e.g.g_converged = false ∧ e.g.g_iter < e.g.g_max_iters
      · rw [if_pos ((run_active_iff e.g (cache_hit a) (e.verts a) hkm hst).mpr hin), if_pos hin]
      · rw [if_neg (fun h => hin ((run_active_iff e.g (cache_hit a) (e.verts a) hkm hst).mp h)),
          if_neg hin]
    rw [hstep, ih (pass_step
      (fun g r vp => estep_row cfg.dist_comp_raw g (cache_hit r) (cfg.data r) vp)
      cfg.owner e a) _ hkm hst]
    have hg : (pass_step
        (fun g r vp => estep_row cfg.dist_comp_raw g (cache_hit r) (cfg.data r) vp)
        cfg.owner e a).g = e.g := rfl
    rw [hg]
    by_cases hin : e.g.g_converged = false ∧ e.g.g_iter < e.g.g_max_iters
    · simp only [if_pos hin, List.append_assoc]
      rfl
    · simp only [if_neg hin]
      rfl

omit [Module α V] in
/-- When the rows do not activate themselves they return from `run` at once: the pass
leaves the vertex programs as they were. -/
theorem estep_pass_inactive_progs (cfg : setting α V) (cache_hit : Nat → Bool)
    (order : List Nat) (e : engine α V)
    (hkm : e.g.g_kmspp_stage = kmspp_stage_t.ADDMEAN) (hst : e.g.g_stage = stage_t.ESTEP)
    (hin : ¬ (e.g.g_converged = false ∧ e.g.g_iter < e.g.g_max_iters)) :
    (estep_pass cfg cache_hit order e).progs = e.progs := by
  unfold estep_pass
  induction order generalizing e with
  | nil => rfl
  | cons a t ih =>
    rw [List.foldl_cons]
    have hp : (pass_step
        (fun g r vp => estep_row cfg.dist_comp_raw g (cache_hit r) (cfg.data r) vp)
        cfg.owner e a).progs = e.progs := by
      show Function.update e.progs (cfg.owner a)
        (estep_row cfg.dist_comp_raw e.g (cache_hit a) (cfg.data a)
          (e.verts a, e.progs (cfg.owner a))).2 = e.progs
      have hrow : (estep_row cfg.dist_comp_raw e.g (cache_hit a) (cfg.data a)
          (e.verts a, e.progs (cfg.owner a))).2 = e.progs (cfg.owner a) := by
        unfold estep_row
        simp only [run_inactive e.g (cache_hit a) (e.verts a) hkm hst hin]
      rw [hrow, Function.update_eq_self]
    rw [ih (pass_step
      (fun g r vp => estep_row cfg.dist_comp_raw g (cache_hit r) (cfg.data r) vp)
      cfg.owner e a) hkm hst hin, hp]

end EngineRunTheorems

section EngineRunMStep

variable {α : Type} [LinearOrderedField α] {V : Type} [AddCommGroup V] [Module α V]

/-- The counters after the M-step, when `manage_cache` returns: either the convergence
test holds, `g_converged` is set and `g_iter` stays; or `g_iter` is incremented and
`g_num_changed` is reset. The programs of the threads are reset in both cases. -/
theorem mstep_counters (ed : V → V → α) (DBL_MAX : α) (W : Nat) (g : globals α V)
    (progs : Nat → kmeans_vertex_program V) (c : CacheGlobals)
    (hlt : g.g_num_changed < UINT_MOD) (hc : manage_cache g.cache = some c) :
    ∃ g' progs', mstep ed DBL_MAX W g progs = some (g', progs') ∧
      g'.g_stage = g.g_stage ∧ g'.g_kmspp_stage = g.g_kmspp_stage ∧
      g'.iter_barrier = g.iter_barrier ∧ g'.g_max_iters = g.g_max_iters ∧ g'.cache = c ∧
      g'.g_num_changed < UINT_MOD ∧ (∀ t, t < W → (progs' t).pt_changed = 0) ∧
      ((g'.g_converged = true ∧ g'.g_iter = g.g_iter ∧
          g'.g_num_changed =
            (g.g_num_changed + ∑ t ∈ Finset.range W, (progs t).pt_changed) % UINT_MOD) ∨
        (g'.g_converged = g.g_converged ∧ g'.g_iter = (g.g_iter + 1) % UINT_MOD ∧
          g'.g_num_changed = 0 ∧
          (g.g_num_changed + ∑ t ∈ Finset.range W, (progs t).pt_changed) % UINT_MOD ≠ 0)) := by
  obtain ⟨_, _, f3, _, f5, f6, f7, f8, _, f10, f11, f12⟩ :=
    update_clusters_frame ed W g progs hlt
  have hcache : (if (update_clusters ed W g progs).1.cache.g_row_cache.isSome then
      manage_cache (update_clusters ed W g progs).1.cache
      else some (update_clusters ed W g progs).1.cache) = some c := by
    rw [f8]
    by_cases hs : g.cache.g_row_cache.isSome
    · rw [if_pos hs]
      exact hc
    · rw [if_neg hs]
      have hn : g.cache.g_row_cache = none := by simpa using hs
      have h2 : manage_cache g.cache = some g.cache := by
        unfold manage_cache
        rw [hn]
      rw [h2] at hc
      exact hc
  have hpr : ∀ t, t < W → ((update_clusters ed W g progs).2 t).pt_changed = 0 := by
    intro t ht
    simp only [update_clusters, if_pos ht]
    rfl
  unfold mstep
  simp only
  rw [hcache, Option.map_some']
  split_ifs with ht
  · refine ⟨_, _, rfl, f10, f11, f12, f6, rfl, ?_, hpr, Or.inl ⟨rfl, f5, f3⟩⟩
    show (update_clusters ed W g progs).1.g_num_changed < UINT_MOD
    rw [f3]
    exact Nat.mod_lt _ (by decide)
  · refine ⟨_, _, rfl, f10, f11, f12, f6, rfl, ?_, hpr, Or.inr ⟨f7, ?_, rfl, ?_⟩⟩
    · show 0 < UINT_MOD
      decide
    · show ((update_clusters ed W g progs).1.g_iter + 1) % UINT_MOD = _
      rw [f5]
    · intro h0
      apply ht
      left
      left
      show (update_clusters ed W g progs).1.g_num_changed = 0
      rw [f3]
      exact h0

end EngineRunMStep

section EngineRunStep

variable {α : Type} [LinearOrderedField α] {V : Type} [AddCommGroup V] [Module α V]

/-- One iteration of the engine keeps the invariant. When the iteration limit stopped
the rows (`g_converged` not set and `g_iter = M`), the M-step at the end of the
iteration sees `g_num_changed = 0` and sets `g_converged`, and no row is active. -/
theorem engine_step_inv (cfg : setting α V) (cache_hit : Nat → Bool) (c0 : CacheGlobals)
    (M k : Nat) (s : engine α V × List Nat) (hW1 : 1 ≤ cfg.nthread)
    (hW2 : cfg.nthread < UINT_MOD) (hM : M < UINT_MOD)
    (hcache : ∀ n, n ≤ M + 1 → (manage_cache_n n c0).isSome = true)
    (hinv : engine_inv cfg c0 M k s) (hne : s.2 ≠ []) :
    ∃ s', engine_step cfg cache_hit s = some s' ∧ engine_inv cfg c0 M (k + 1) s' ∧
      (s.1.g.g_converged = false → s.1.g.g_iter = M →
        s'.1.g.g_converged = true ∧ s'.1.g.g_num_changed = 0 ∧ s'.1.g.g_iter = M ∧
          s'.2 = []) := by
  obtain ⟨hkm, hst, hbar, hmax, hlt, hle, hcase⟩ := hinv
  have hg1 := estep_pass_g cfg cache_hit s.2 s.1
  have hend := end_of_pass_eq cfg (estep_pass cfg cache_hit s.2 s.1) hW1 hW2
    (by rw [hg1]; exact hbar)
  rw [hg1] at hend
  unfold engine_step
  rw [estep_act_fold cfg cache_hit s.2 s.1 [] hkm hst]
  simp only [List.nil_append]
  rw [hend]
  rcases hcase with ⟨hconv, _, hiter, hcn, hlim⟩ | ⟨hconv, hact⟩
  · -- the run has not converged: the M-step runs
    have hsome := hcache (k + 1) (by omega)
    have hcn1 : manage_cache_n (k + 1) c0 = manage_cache s.1.g.cache := by
      show (manage_cache_n k c0).bind manage_cache = _
      rw [hcn, Option.some_bind]
    rw [hcn1] at hsome
    obtain ⟨c, hc⟩ := Option.isSome_iff_exists.mp hsome
    obtain ⟨g', progs', hm, m1, m2, m3, m4, m5, m6, m7, m8⟩ :=
      mstep_counters cfg.eucl_dist cfg.DBL_MAX cfg.nthread
        { s.1.g with iter_barrier := barrier.create cfg.nthread }
        (estep_pass cfg cache_hit s.2 s.1).progs c hlt hc
    rw [if_pos hconv, hm, Option.map_some', Option.map_some']
    refine ⟨_, rfl, ?_, ?_⟩
    · refine ⟨m2.trans hkm, m1.trans hst, m3, m4.trans hmax, m6, ?_, ?_⟩
      · rcases m8 with ⟨_, h2, _⟩ | ⟨_, h2, _, _⟩
        · show g'.g_iter ≤ M
          rw [h2]
          exact hle
        · show g'.g_iter ≤ M
          by_cases hkM : k = M
          · -- at the limit no change is counted: this case cannot occur
            exfalso
            obtain ⟨hz, hp⟩ := hlim hkM
            have hin : ¬ (s.1.g.g_converged = false ∧ s.1.g.g_iter < s.1.g.g_max_iters) := by
              rw [hmax, hiter]
              omega
            have hprogs := estep_pass_inactive_progs cfg cache_hit s.2 s.1 hkm hst hin
            rename_i _ _ hnz
            apply hnz
            rw [hprogs]
            show (s.1.g.g_num_changed + _) % UINT_MOD = 0
            rw [hz, Finset.sum_eq_zero (fun t ht => hp t (Finset.mem_range.mp ht))]
            rfl
          · rw [h2]
            show (s.1.g.g_iter + 1) % UINT_MOD ≤ M
            rw [Nat.mod_eq_of_lt (by omega)]
            omega
      · rcases m8 with ⟨h1, h2, _⟩ | ⟨h1, h2, h3, hnz⟩
        · refine Or.inr ⟨h1, Or.inr ?_⟩
          show k + 1 ≤ g'.g_iter + 1
          rw [h2]
          show k + 1 ≤ s.1.g.g_iter + 1
          omega
        · have hkM : k ≠ M := by
            intro hkM
            obtain ⟨hz, hp⟩ := hlim hkM
            have hin : ¬ (s.1.g.g_converged = false ∧ s.1.g.g_iter < s.1.g.g_max_iters) := by
              rw [hmax, hiter]
              omega
            have hprogs := estep_pass_inactive_progs cfg cache_hit s.2 s.1 hkm hst hin
            apply hnz
            rw [hprogs]
            show (s.1.g.g_num_changed + _) % UINT_MOD = 0
            rw [hz, Finset.sum_eq_zero (fun t ht => hp t (Finset.mem_range.mp ht))]
            rfl
          have hin : s.1.g.g_converged = false ∧ s.1.g.g_iter < s.1.g.g_max_iters :=
            ⟨hconv, by rw [hmax]; omega⟩
          have hit : g'.g_iter = k + 1 := by
            rw [h2]
            show (s.1.g.g_iter + 1) % UINT_MOD = k + 1
            rw [Nat.mod_eq_of_lt (by omega), hiter]
          refine Or.inl ⟨h1.trans hconv, ?_, hit, ?_, fun _ => ⟨h3, m7⟩⟩
          · show (if s.1.g.g_converged = false ∧ s.1.g.g_iter < s.1.g.g_max_iters then s.2
              else []) ≠ []
            rw [if_pos hin]
            exact hne
          · show manage_cache_n (k + 1) c0 = some g'.cache
            rw [hcn1, m5]
            exact hc
    · intro _ hitM
      have hkM : k = M := hiter.symm.trans hitM
      obtain ⟨hz, hp⟩ := hlim hkM
      have hin : ¬ (s.1.g.g_converged = false ∧ s.1.g.g_iter < s.1.g.g_max_iters) := by
        rw [hmax, hiter]
        omega
      have hprogs := estep_pass_inactive_progs cfg cache_hit s.2 s.1 hkm hst hin
      have hsum : (s.1.g.g_num_changed +
          ∑ t ∈ Finset.range cfg.nthread,
            ((estep_pass cfg cache_hit s.2 s.1).progs t).pt_changed) % UINT_MOD = 0 := by
        rw [hprogs, hz, Finset.sum_eq_zero (fun t ht => hp t (Finset.mem_range.mp ht))]
        rfl
      rcases m8 with ⟨h1, h2, h3⟩ | ⟨_, _, _, hnz⟩
      · refine ⟨h1, ?_, ?_, ?_⟩
        · show g'.g_num_changed = 0
          rw [h3]
          exact hsum
        · show g'.g_iter = M
          rw [h2]
          exact hitM
        · show (if s.1.g.g_converged = false ∧ s.1.g.g_iter < s.1.g.g_max_iters then s.2
            else []) = []
          rw [if_neg hin]
      · exact absurd hsum hnz
  · -- `g_converged` is set: the rows return at once and the hook does nothing
    have hin : ¬ (s.1.g.g_converged = false ∧ s.1.g.g_iter < s.1.g.g_max_iters) := by
      rw [hconv]
      exact fun h => Bool.noConfusion h.1
    have hnf : ¬ s.1.g.g_converged = false := by
      rw [hconv]
      exact fun h => Bool.noConfusion h
    rw [if_neg hnf, Option.map_some', if_neg hin]
    refine ⟨_, rfl, ⟨hkm, hst, rfl, hmax, hlt, hle, Or.inr ⟨hconv, Or.inl rfl⟩⟩, ?_⟩
    intro h
    exact absurd h hnf

end EngineRunStep

section EngineRunInduction

variable {α : Type} [LinearOrderedField α] {V : Type} [AddCommGroup V] [Module α V]

/-- The engine run reaches every iteration count and keeps the invariant. -/
theorem engine_after_inv (cfg : setting α V) (cache_hit : Nat → Nat → Bool)
    (e : engine α V) (order : List Nat) (hW1 : 1 ≤ cfg.nthread)
    (hW2 : cfg.nthread < UINT_MOD)
    (hkm : e.g.g_kmspp_stage = kmspp_stage_t.ADDMEAN) (hst : e.g.g_stage = stage_t.ESTEP)
    (hbar : e.g.iter_barrier = barrier.create cfg.nthread) (hit0 : e.g.g_iter = 0)
    (hM1 : 1 ≤ e.g.g_max_iters) (hM : e.g.g_max_iters < UINT_MOD)
    (hlt : e.g.g_num_changed < UINT_MOD) (hord : order ≠ [])
    (hcache : ∀ n, n ≤ e.g.g_max_iters + 1 → (manage_cache_n n e.g.cache).isSome = true)
    (k : Nat) :
    ∃ s, engine_after cfg cache_hit k (e, order) = some s ∧
      engine_inv cfg e.g.cache e.g.g_max_iters k s := by
  induction k with
  | zero =>
    refine ⟨(e, order), rfl, hkm, hst, hbar, rfl, hlt, by rw [hit0]; exact Nat.zero_le _, ?_⟩
    by_cases hc : e.g.g_converged = false
    · exact Or.inl ⟨hc, hord, hit0, rfl, fun h => by omega⟩
    · refine Or.inr ⟨by simpa using hc, Or.inr (Nat.zero_le _)⟩
  | succ k ih =>
    obtain ⟨s, hs, hinv⟩ := ih
    have hrun : engine_after cfg cache_hit (k + 1) (e, order) =
        (engine_after cfg cache_hit k (e, order)).bind fun s =>
          if s.2.isEmpty then some s else engine_step cfg (cache_hit k) s := rfl
    rw [hrun, hs, Option.some_bind]
    by_cases hemp : s.2 = []
    · rw [if_pos (by rw [hemp]; rfl)]
      obtain ⟨i1, i2, i3, i4, i5, i6, i7⟩ := hinv
      refine ⟨s, rfl, i1, i2, i3, i4, i5, i6, ?_⟩
      rcases i7 with ⟨_, hne, _⟩ | ⟨hc, _⟩
      · exact absurd hemp hne
      · exact Or.inr ⟨hc, Or.inl hemp⟩
    · rw [if_neg (by rw [List.isEmpty_iff]; exact hemp)]
      obtain ⟨s', h1, h2, _⟩ := engine_step_inv cfg (cache_hit k) e.g.cache e.g.g_max_iters k s
        hW1 hW2 hM hcache hinv hemp
      exact ⟨s', h1, h2⟩

end EngineRunInduction

/-- C30: in the minimized variant with `max_iters ≥ 1`, with the engine run modelled as
iterations over the self-activated rows, each followed by the end-of-iteration hooks,
until no row is active, and provided `manage_cache` does not divide by zero: `g_iter`
never exceeds `g_max_iters`; when the iteration limit stops the rows (`g_converged`
not set and `g_iter = g_max_iters`), the M-step at the end of that iteration sees
`g_num_changed = 0` and sets `g_converged`; and the run ends, within
`max_iters + 2` iterations, with `g_converged` set. -/
theorem C30_run_ends_with_converged_set {α V : Type} [LinearOrderedField α] [AddCommGroup V]
    [Module α V] (cfg : setting α V) (cache_hit : Nat → Nat → Bool)
    (e : engine α V) (order : List Nat) (fuel : Nat) (hW1 : 1 ≤ cfg.nthread)
    (hW2 : cfg.nthread < UINT_MOD)
    (hkm : e.g.g_kmspp_stage = kmspp_stage_t.ADDMEAN) (hst : e.g.g_stage = stage_t.ESTEP)
    (hbar : e.g.iter_barrier = barrier.create cfg.nthread) (hit0 : e.g.g_iter = 0)
    (hM1 : 1 ≤ e.g.g_max_iters) (hM : e.g.g_max_iters < UINT_MOD)
    (hlt : e.g.g_num_changed < UINT_MOD) (hord : order ≠ [])
    (hcache : ∀ n, n ≤ e.g.g_max_iters + 1 → (manage_cache_n n e.g.cache).isSome = true)
    (hfuel : e.g.g_max_iters + 2 ≤ fuel) :
    (∀ k s, engine_after cfg cache_hit k (e, order) = some s →
      s.1.g.g_iter ≤ e.g.g_max_iters ∧ s.1.g.g_max_iters = e.g.g_max_iters) ∧
    (∀ k s, engine_after cfg cache_hit k (e, order) = some s →
      s.1.g.g_converged = false → s.1.g.g_iter = e.g.g_max_iters →
      ∃ s', engine_step cfg (cache_hit k) s = some s' ∧ s'.1.g.g_num_changed = 0 ∧
        s'.1.g.g_converged = true ∧ s'.2 = []) ∧
    ∃ e', engine_run cfg cache_hit fuel order e = some e' ∧ e'.g.g_converged = true ∧
      e'.g.g_iter ≤ e'.g.g_max_iters := by
  refine ⟨?_, ?_, ?_⟩
  · intro k s hs
    obtain ⟨s0, h0, hinv⟩ := engine_after_inv cfg cache_hit e order hW1 hW2 hkm hst hbar hit0
      hM1 hM hlt hord hcache k
    rw [hs] at h0
    rw [Option.some.inj h0]
    exact ⟨hinv.2.2.2.2.2.1, hinv.2.2.2.1⟩
  · intro k s hs hconv hiter
    obtain ⟨s0, h0, hinv⟩ := engine_after_inv cfg cache_hit e order hW1 hW2 hkm hst hbar hit0
      hM1 hM hlt hord hcache k
    rw [hs] at h0
    rw [← Option.some.inj h0] at hinv
    have hne : s.2 ≠ [] := by
      rcases hinv.2.2.2.2.2.2 with ⟨_, hne, _⟩ | ⟨hc, _⟩
      · exact hne
      · rw [hconv] at hc
        exact Bool.noConfusion hc
    obtain ⟨s', h1, _, h3⟩ := engine_step_inv cfg (cache_hit k) e.g.cache e.g.g_max_iters k s
      hW1 hW2 hM hcache hinv hne
    obtain ⟨l1, l2, _, l4⟩ := h3 hconv hiter
    exact ⟨s', h1, l2, l1, l4⟩
  · obtain ⟨s, hs, hinv⟩ := engine_after_inv cfg cache_hit e order hW1 hW2 hkm hst hbar hit0
      hM1 hM hlt hord hcache fuel
    obtain ⟨_, _, _, i4, _, i6, i7⟩ := hinv
    have hfin : s.1.g.g_converged = true ∧ s.2 = [] := by
      rcases i7 with ⟨_, _, hk, _⟩ | ⟨hc, hact⟩
      · omega
      · rcases hact with h | h
        · exact ⟨hc, h⟩
        · omega
    unfold engine_run
    rw [hs, Option.some_bind, if_pos (by rw [hfin.2]; rfl)]
    exact ⟨s.1, rfl, hfin.1, by rw [i4]; exact i6⟩

/-- Witness of C30: the rows `-3`, `3`, `100` with the centres `3` and `100`, tolerance
`0` and `max_iters = 1`. Every row changes cluster in the first iteration, so the
M-step increments `g_iter` to 1; the iteration limit stops the rows in the second
iteration and its M-step sets `g_converged`: the run ends with `g_converged` set and
`g_iter = 1`. -/
theorem C30_run_ends_with_converged_set_witness :
    ((1 ≤ (setting1 rows_a).nthread ∧ (setting1 rows_a).nthread < UINT_MOD) ∧
      engine_limit.g.g_iter = 0 ∧ 1 ≤ engine_limit.g.g_max_iters ∧
      (∀ n, n ≤ engine_limit.g.g_max_iters + 1 →
        (manage_cache_n n engine_limit.g.cache).isSome = true) ∧
      engine_limit.g.g_max_iters + 2 ≤ 3) ∧
    ((∀ k s, engine_after (setting1 rows_a) (fun _ _ => false) k
          (engine_limit, List.range 3) = some s →
        s.1.g.g_iter ≤ engine_limit.g.g_max_iters ∧
          s.1.g.g_max_iters = engine_limit.g.g_max_iters) ∧
      (∀ k s, engine_after (setting1 rows_a) (fun _ _ => false) k
          (engine_limit, List.range 3) = some s →
        s.1.g.g_converged = false → s.1.g.g_iter = engine_limit.g.g_max_iters →
        ∃ s', engine_step (setting1 rows_a) ((fun _ _ => false) k) s = some s' ∧
          s'.1.g.g_num_changed = 0 ∧ s'.1.g.g_converged = true ∧ s'.2 = []) ∧
      ∃ e', engine_run (setting1 rows_a) (fun _ _ => false) 3 (List.range 3) engine_limit =
          some e' ∧ e'.g.g_converged = true ∧ e'.g.g_iter ≤ e'.g.g_max_iters) ∧
    (engine_after (setting1 rows_a) (fun _ _ => false) 1 (engine_limit, List.range 3)).map
        (fun s => (s.1.g.g_converged, s.1.g.g_iter, s.1.g.g_num_changed, s.2)) =
      some (false, 1, 0, [0, 1, 2]) ∧
    (engine_run (setting1 rows_a) (fun _ _ => false) 3 (List.range 3) engine_limit).map
        (fun e => (e.g.g_converged, e.g.g_iter, e.g.g_num_changed)) =
      some (true, 1, 0) :=
  ⟨⟨⟨by decide, by decide⟩, rfl, by decide, by decide, by decide⟩,
    C30_run_ends_with_converged_set (setting1 rows_a) (fun _ _ => false) engine_limit
      (List.range 3) 3 (by decide) (by decide) rfl rfl rfl rfl (by decide) (by decide)
      (by decide) (by decide) (by decide) (by decide),
    by decide!, by decide!⟩

end FlashX
